import Mathlib

set_option maxRecDepth 100000
set_option maxHeartbeats 1000000

/-!
Verification of the job-agent scoring pipeline (`src/score_new_jobs.py`,
with the twin fit-score normalization in `src/pipeline.py` and helpers in
`src/utils.py`), via a shallow embedding of the Python code in Lean.

Modelling conventions:
* Python/JSON values are `JVal`; dicts are insertion-ordered association
  lists (`JObj`).  Python floats are finite rationals (`NaN`/`Infinity` do
  not occur in standard JSON).
* LLM calls are an oracle `Nat → Option JObj` giving, for the n-th call of
  a run, the result of `utils.safe_parse_json` applied to the response
  text (`none` = unparsable response).
* Record-store writes are modelled as succeeding; the `except` arms that
  retry failed store updates are therefore unreachable and not modelled.
* Exceptions that the Python code can raise and that matter to the claims
  (`ValueError` from an unknown engine name, `AttributeError` from calling
  `.strip()` on a non-string field, ...) are modelled with `Except PyExc`.
-/

/-- A Python/JSON value, as produced by `json.loads` / `utils.safe_parse_json`. -/
inductive JVal where
  | null : JVal
  | bool (b : Bool) : JVal
  | int (n : Int) : JVal
  | float (q : Rat) : JVal
  | str (s : String) : JVal
  | arr (xs : List JVal) : JVal
  | obj (kvs : List (String × JVal)) : JVal

/-- A Python dict with string keys (insertion-ordered association list built
without duplicate keys). -/
abbrev JObj := List (String × JVal)

/-- Python exceptions that the embedded code can raise. -/
inductive PyExc where
  | valueError (msg : String)
  | typeError (msg : String)
  | attributeError (msg : String)
  | keyError (msg : String)
  | runtimeError (msg : String)
deriving DecidableEq

/-- `d.get(k)` — `None` when absent (first binding wins; dicts never hold
duplicate keys). -/
def jget (o : JObj) (k : String) : JVal :=
  match o with
  | [] => .null
  | (k2, v) :: rest => if k2 = k then v else jget rest k

/-- `d.get(k, default)`. -/
def jgetD (o : JObj) (k : String) (d : JVal) : JVal :=
  match o with
  | [] => d
  | (k2, v) :: rest => if k2 = k then v else jgetD rest k d

/-- `k in d`. -/
def jHasKey (o : JObj) (k : String) : Bool :=
  match o with
  | [] => false
  | (k2, _) :: rest => k2 = k || jHasKey rest k

/-- `d[k] = v` on a dict: replace an existing binding in place, else append
(Python dicts keep insertion order). -/
def jset (o : JObj) (k : String) (v : JVal) : JObj :=
  match o with
  | [] => [(k, v)]
  | (k2, w) :: rest => if k2 = k then (k2, v) :: rest else (k2, w) :: jset rest k v

/-- `del d[k]` (no-op when absent; the code guards deletions with `in`).
Dicts hold each key once, so removing every binding of `k` is the same
operation. -/
def jdel (o : JObj) (k : String) : JObj :=
  match o with
  | [] => []
  | (k2, w) :: rest => if k2 = k then jdel rest k else (k2, w) :: jdel rest k

/-- `list(d.keys())`. -/
def jkeys (o : JObj) : List String := o.map (·.1)

/-- Python truthiness of a value. -/
def truthy : JVal → Bool
  | .null => false
  | .bool b => b
  | .int n => n != 0
  | .float q => q != 0
  | .str s => s != ""
  | .arr xs => !xs.isEmpty
  | .obj kvs => !kvs.isEmpty

/-- `a or b`. -/
def pyOr (a b : JVal) : JVal := if truthy a then a else b

/-- Whitespace for `str.strip()` / regex `\s` (the ASCII set plus the
non-breaking space produced by `&nbsp;`; other rare Unicode space
characters are outside the model). -/
def isPySpace (c : Char) : Bool :=
  c = ' ' || c = '\t' || c = '\n' || c = '\r' || c = '\x0b' || c = '\x0c' || c = '\xa0'

/-- `str.strip()` on a character list. -/
def pyStripL (l : List Char) : List Char :=
  ((l.dropWhile isPySpace).reverse.dropWhile isPySpace).reverse

/-- `str.strip()`. -/
def pyStrip (s : String) : String := String.mk (pyStripL s.data)

/-- `str.lower()` (ASCII; the gate keywords are ASCII). -/
def pyLower (s : String) : String := String.mk (s.data.map Char.toLower)

/-- `s[:n]`. -/
def pyTake (s : String) (n : Nat) : String := String.mk (s.data.take n)

/-- `v.strip()` where `v` must be a `str` (otherwise Python raises
`AttributeError`, e.g. for a record field that is not text). -/
def pyStripAttr (v : JVal) : Except PyExc String :=
  match v with
  | .str s => .ok (pyStrip s)
  | _ => .error (.attributeError "strip")

/-- Digit run of `int(str)` with Python's single-underscore grouping. -/
def intDigitsAux (acc : Nat) : List Char → Option Nat
  | [] => some acc
  | '_' :: c :: rest =>
      if c.isDigit then intDigitsAux (acc * 10 + (c.toNat - '0'.toNat)) rest else none
  | c :: rest =>
      if c.isDigit then intDigitsAux (acc * 10 + (c.toNat - '0'.toNat)) rest else none

/-- `int(s)` for a string: optional sign, digits with underscore grouping,
surrounding whitespace allowed; `none` models `ValueError`. -/
def pyStrToInt (s : String) : Option Int :=
  match pyStripL s.data with
  | '+' :: c :: rest =>
      if c.isDigit then (intDigitsAux (c.toNat - '0'.toNat) rest).map Int.ofNat else none
  | '-' :: c :: rest =>
      if c.isDigit then (intDigitsAux (c.toNat - '0'.toNat) rest).map (fun n => -(n : Int))
      else none
  | c :: rest =>
      if c.isDigit then (intDigitsAux (c.toNat - '0'.toNat) rest).map Int.ofNat else none
  | [] => none

/-- `int(x)` truncates a float toward zero. -/
def pyTrunc (q : Rat) : Int := if 0 ≤ q then ⌊q⌋ else ⌈q⌉

/-- `int(x)` on a Python value (`bool` is an `int` subclass; strings are
parsed; `None`, lists and dicts raise `TypeError`). -/
def pyInt (v : JVal) : Except PyExc Int :=
  match v with
  | .int n => .ok n
  | .bool b => .ok (if b then 1 else 0)
  | .float q => .ok (pyTrunc q)
  | .str s =>
      match pyStrToInt s with
      | some n => .ok n
      | none => .error (.valueError "invalid literal for int")
  | _ => .error (.typeError "int() argument")

/-- Fractional-digit run for `float(str)`. -/
def fracDigitsAux (acc : Rat) (scale : Rat) : List Char → Option Rat
  | [] => some acc
  | c :: rest =>
      if c.isDigit then
        fracDigitsAux (acc + scale * ((c.toNat - '0'.toNat : Nat) : Rat)) (scale / 10) rest
      else none

/-- `float(s)` for plain decimal strings (sign, digits, optional fraction);
exponent and special forms are outside the model — they never appear in the
confidence values the claims quantify over. -/
def pyStrToRat (s : String) : Option Rat :=
  let core : List Char → Option Rat := fun l =>
    let ip := l.takeWhile Char.isDigit
    let rest := l.dropWhile Char.isDigit
    let ipVal : Rat := ((ip.foldl (fun a c => a * 10 + (c.toNat - '0'.toNat)) 0 : Nat) : Rat)
    match rest with
    | [] => if ip.isEmpty then none else some ipVal
    | '.' :: frac =>
        if ip.isEmpty && frac.isEmpty then none
        else fracDigitsAux ipVal (1 / 10) frac
    | _ => none
  match pyStripL s.data with
  | '+' :: rest => core rest
  | '-' :: rest => (core rest).map Neg.neg
  | l => core l

/-- `float(x)` on a Python value. -/
def pyFloat (v : JVal) : Except PyExc Rat :=
  match v with
  | .int n => .ok (n : Rat)
  | .bool b => .ok (if b then 1 else 0)
  | .float q => .ok q
  | .str s =>
      match pyStrToRat s with
      | some q => .ok q
      | none => .error (.valueError "could not convert string to float")
  | _ => .error (.typeError "float() argument")

/-- Decimal rendering of a nonnegative rational scaled by `10^k`
(digits of `n`, with a point `k` digits from the right). -/
def decimalWithPoint (n : Nat) (k : Nat) : String :=
  let digits := toString n
  let digits := if digits.length ≤ k then
      String.mk (List.replicate (k + 1 - digits.length) '0') ++ digits
    else digits
  let cut := digits.length - k
  String.mk (digits.data.take cut) ++ "." ++ String.mk (digits.data.drop cut)

/-- Smallest `k ≤ 30` with `q * 10^k` integral (denominator and numerator
arithmetic only, for kernel evaluation). -/
def floatScale (q : Rat) : Option Nat :=
  (List.range 31).find? (fun k => q.num.natAbs * 10 ^ k % q.den = 0)

/-- `repr(x)` / `str(x)` for a float, for the decimal rationals that JSON
floats are (binary-rounding artifacts of Python floats are outside the
model). -/
def floatRepr (q : Rat) : String :=
  match floatScale q with
  | some k =>
      let scaled := q.num.natAbs * 10 ^ k / q.den
      (if q.num < 0 then "-" else "") ++
        (if k = 0 then toString scaled ++ ".0" else decimalWithPoint scaled k)
  | none => toString q.num ++ "/" ++ toString q.den

/-- `str(x)` on a Python value (list/dict reprs are abbreviated — no claim
depends on them). -/
def pyStr : JVal → String
  | .null => "None"
  | .bool b => if b then "True" else "False"
  | .int n => toString n
  | .float q => floatRepr q
  | .str s => s
  | .arr _ => "[...]"
  | .obj _ => "\x7b...\x7d"

/-! ## JSON serialization (`json.dumps(..., ensure_ascii=False,
separators=(",", ":"), sort_keys)`)-/

/-- JSON string escaping (`ensure_ascii=False`: non-ASCII kept verbatim). -/
def jsonEscapeChar (c : Char) : List Char :=
  if c = '"' then ['\\', '"']
  else if c = '\\' then ['\\', '\\']
  else if c = '\n' then ['\\', 'n']
  else if c = '\r' then ['\\', 'r']
  else if c = '\t' then ['\\', 't']
  else if c.toNat < 32 then
    let hexDigit : Nat → Char := fun n => if n < 10 then Char.ofNat ('0'.toNat + n)
      else Char.ofNat ('a'.toNat + n - 10)
    ['\\', 'u', '0', '0', hexDigit (c.toNat / 16), hexDigit (c.toNat % 16)]
  else [c]

def jsonEscape (s : String) : String :=
  "\"" ++ String.mk (s.data.flatMap jsonEscapeChar) ++ "\""

/-- `json.dumps` float rendering. -/
def jsonFloat (q : Rat) : String := floatRepr q

/-- Lexicographic code-point order on strings (Python's `sorted` on dict
keys). -/
def charListLe : List Char → List Char → Bool
  | [], _ => true
  | _ :: _, [] => false
  | a :: as, b :: bs =>
      if a.toNat < b.toNat then true
      else if b.toNat < a.toNat then false
      else charListLe as bs

def strLeB (a b : String) : Bool := charListLe a.data b.data

/-- Insertion sort of rendered dict entries by key, code-point order — the
effect of `sort_keys=True` (keys are unique, so stability is irrelevant). -/
def insertSorted (p : String × String) : List (String × String) → List (String × String)
  | [] => [p]
  | q :: rest => if strLeB p.1 q.1 then p :: q :: rest else q :: insertSorted p rest

def sortRendered (l : List (String × String)) : List (String × String) :=
  l.foldr insertSorted []

mutual
/-- `json.dumps(v, ensure_ascii=False, separators=(",", ":"))`, with
`sortKeys` selecting `sort_keys=True` (applied recursively: entries are
rendered in insertion order, then the object's entries are reordered by
key). -/
def jdump (sortKeys : Bool) : JVal → String
  | .null => "null"
  | .bool b => if b then "true" else "false"
  | .int n => toString n
  | .float q => jsonFloat q
  | .str s => jsonEscape s
  | .arr xs => "[" ++ String.intercalate "," (jdumpArr sortKeys xs) ++ "]"
  | .obj kvs =>
      let rendered := jdumpEntries sortKeys kvs
      let rendered := if sortKeys then sortRendered rendered else rendered
      "\x7b" ++ String.intercalate "," (rendered.map (·.2)) ++ "\x7d"

def jdumpArr (sortKeys : Bool) : List JVal → List String
  | [] => []
  | x :: xs => jdump sortKeys x :: jdumpArr sortKeys xs

def jdumpEntries (sortKeys : Bool) : List (String × JVal) → List (String × String)
  | [] => []
  | (k, v) :: kvs => (k, jsonEscape k ++ ":" ++ jdump sortKeys v) :: jdumpEntries sortKeys kvs
end

/-! ## `utils.py` helpers -/

/-- `utils.safe_str`. -/
def safe_str (v : JVal) : String := pyStr v

/-- `utils.join_lines`: newline-joined list entries, skipping `None` and
blank entries; non-list input is stringified. -/
def join_lines (v : JVal) : String :=
  match v with
  | .null => ""
  | .arr xs =>
      String.intercalate "\n" (xs.filterMap (fun x =>
        match x with
        | .null => none
        | _ => let s := pyStr x; if pyStrip s = "" then none else some s))
  | other => safe_str other

/-- `utils.join_commas`. -/
def join_commas (v : JVal) : String :=
  match v with
  | .null => ""
  | .arr xs =>
      String.intercalate ", " (xs.filterMap (fun x =>
        match x with
        | .null => none
        | _ => let s := pyStr x; if pyStrip s = "" then none else some s))
  | other => safe_str other

/-- `utils.merge_notes`. -/
def merge_notes (a b : String) : String :=
  let a := pyStrip a
  let b := pyStrip b
  if a ≠ "" && b ≠ "" then a ++ "\n" ++ b else if a ≠ "" then a else b

/-! ## Text Normalizer (`clean_html_to_text`, lines 343–370)

Each `re.sub`/`str.replace` pass is a left-to-right scan (`rescan`) with a
matcher describing the pattern's deterministic leftmost match: on a match
the matcher yields the replacement characters and how many further input
characters (beyond the head) the match consumed; otherwise the head
character is emitted and the scan advances by one — exactly `re.sub`'s
leftmost, non-overlapping semantics for these patterns. -/

/-- One scanning pass; `fuel` is always instantiated with the input length,
which suffices because every step consumes at least one character. -/
def rescanF (m : Char → List Char → Option (List Char × Nat)) :
    Nat → List Char → List Char
  | 0, l => l
  | _ + 1, [] => []
  | fuel + 1, c :: cs =>
    match m c cs with
    | some (out, k) => out ++ rescanF m fuel (cs.drop k)
    | none => c :: rescanF m fuel cs

def rescan (m : Char → List Char → Option (List Char × Nat)) (l : List Char) : List Char :=
  rescanF m l.length l

/-- Case-insensitive literal prefix test (`re.IGNORECASE`). -/
def caselessStarts : List Char → List Char → Bool
  | [], _ => true
  | _ :: _, [] => false
  | p :: ps, c :: cs => (p.toLower = c.toLower) && caselessStarts ps cs

/-- Index of the first `'>'`. -/
def findGt : List Char → Option Nat
  | [] => none
  | c :: cs => if c = '>' then some 0 else (findGt cs).map (· + 1)

/-- Start index of the first case-insensitive occurrence of `pat`. -/
def findCaselessIdx (pat : List Char) : List Char → Option Nat
  | [] => if caselessStarts pat [] then some 0 else none
  | c :: cs =>
      if caselessStarts pat (c :: cs) then some 0
      else (findCaselessIdx pat cs).map (· + 1)

/-- Match `<name[^>]*>` at the head (`c` is the current character); returns
the number of characters of `cs` consumed. -/
def matchOpenTag (name : List Char) (c : Char) (cs : List Char) : Option Nat :=
  if c = '<' && caselessStarts name cs then
    match findGt (cs.drop name.length) with
    | some i => some (name.length + i + 1)
    | none => none
  else none

/-- Match `<name[^>]*>.*?</name>` (IGNORECASE | DOTALL): the non-greedy body
runs to the first closing tag; without one the pattern fails here. -/
def matchBlock (name : List Char) (c : Char) (cs : List Char) : Option (List Char × Nat) :=
  match matchOpenTag name c cs with
  | none => none
  | some k =>
      let close := '<' :: '/' :: (name ++ ['>'])
      match findCaselessIdx close (cs.drop k) with
      | none => none
      | some i => some ([], k + i + close.length)

/-- Match `<img[^>]*>` → removed. -/
def matchImg (c : Char) (cs : List Char) : Option (List Char × Nat) :=
  (matchOpenTag ['i', 'm', 'g'] c cs).map (fun k => ([], k))

/-- Match `<br\s*/?>` → `"\n"`. -/
def matchBr (c : Char) (cs : List Char) : Option (List Char × Nat) :=
  if c = '<' && caselessStarts ['b', 'r'] cs then
    let ws := (cs.drop 2).takeWhile isPySpace
    match (cs.drop 2).drop ws.length with
    | '/' :: '>' :: _ => some (['\n'], 2 + ws.length + 2)
    | '>' :: _ => some (['\n'], 2 + ws.length + 1)
    | _ => none
  else none

/-- Match `<li[^>]*>` → `"- "`. -/
def matchLiOpen (c : Char) (cs : List Char) : Option (List Char × Nat) :=
  (matchOpenTag ['l', 'i'] c cs).map (fun k => (['-', ' '], k))

/-- Match `</li>` → `"\n"`. -/
def matchLiClose (c : Char) (cs : List Char) : Option (List Char × Nat) :=
  if c = '<' && caselessStarts ['/', 'l', 'i', '>'] cs then some (['\n'], 4) else none

/-- Match `<[^>]+>` → removed. -/
def matchAnyTag (c : Char) (cs : List Char) : Option (List Char × Nat) :=
  if c = '<' then
    let t := cs.takeWhile (fun x => x ≠ '>')
    if t.isEmpty then none
    else
      match cs.drop t.length with
      | '>' :: _ => some ([], t.length + 1)
      | _ => none
  else none

/-- Core entity table of `html.unescape` (longest-first; the full HTML5
table is stdlib data outside the model — the pipeline only ever meets the
classic escapes). -/
def entityTable : List (List Char × Char) :=
  [("lt;".data, '<'), ("gt;".data, '>'), ("amp;".data, '&'), ("quot;".data, '"'),
   ("apos;".data, '\''), ("nbsp;".data, '\xa0'),
   ("lt".data, '<'), ("gt".data, '>'), ("amp".data, '&'), ("quot".data, '"')]

def findEntity (cs : List Char) : List (List Char × Char) → Option (Char × Nat)
  | [] => none
  | (pat, ch) :: rest =>
      if pat.isPrefixOf cs then some (ch, pat.length) else findEntity cs rest

/-- Match an HTML entity at `&` (`html.unescape`; replaced text is not
re-scanned). -/
def matchEntity (c : Char) (cs : List Char) : Option (List Char × Nat) :=
  if c = '&' then (findEntity cs entityTable).map (fun p => ([p.1], p.2)) else none

/-- Match for `.replace('\r\n', '\n')`. -/
def matchCRLF (c : Char) (cs : List Char) : Option (List Char × Nat) :=
  if c = '\r' then
    match cs with
    | '\n' :: _ => some (['\n'], 1)
    | _ => none
  else none

/-- Match for `.replace('\r', '\n')`. -/
def matchCR (c : Char) (_ : List Char) : Option (List Char × Nat) :=
  if c = '\r' then some (['\n'], 0) else none

/-- Index of the last `'\n'`. -/
def lastNlIdx : List Char → Option Nat
  | [] => none
  | c :: cs =>
      match lastNlIdx cs with
      | some i => some (i + 1)
      | none => if c = '\n' then some 0 else none

/-- Match `\n\s*\n+` → `"\n\n"`: with greedy backtracking the match runs
from a newline through the last newline of the following whitespace run. -/
def matchBlankRun (c : Char) (cs : List Char) : Option (List Char × Nat) :=
  if c = '\n' then
    match lastNlIdx (cs.takeWhile isPySpace) with
    | some i => some (['\n', '\n'], i + 1)
    | none => none
  else none

/-- `text.split('\n')` (keeps empty parts). -/
def splitNL : List Char → List (List Char)
  | [] => [[]]
  | c :: cs =>
      if c = '\n' then [] :: splitNL cs
      else
        match splitNL cs with
        | [] => [[c]]
        | p :: ps => (c :: p) :: ps

/-- `'\n'.join(parts)`. -/
def intercalateNL : List (List Char) → List Char
  | [] => []
  | [p] => p
  | p :: q :: ps => p ++ '\n' :: intercalateNL (q :: ps)

/-- `'\n'.join(line.strip() for line in text.split('\n'))`. -/
def stripLinesL (l : List Char) : List Char :=
  intercalateNL ((splitNL l).map pyStripL)

/-- `clean_html_to_text` on characters, stage by stage in source order. -/
def cleanL (l : List Char) : List Char :=
  let t1 := rescan (matchBlock "script".data) l
  let t2 := rescan (matchBlock "style".data) t1
  let t3 := rescan matchImg t2
  let t4 := rescan matchBr t3
  let t5 := rescan matchLiOpen t4
  let t6 := rescan matchLiClose t5
  let t7 := rescan matchAnyTag t6
  let t8 := rescan matchEntity t7
  let t9 := rescan matchCR (rescan matchCRLF t8)
  let t10 := stripLinesL t9
  let t11 := rescan matchBlankRun t10
  pyStripL t11

/-- `clean_html_to_text(raw)` (lines 343–370). -/
def clean_html_to_text (s : String) : String :=
  if s = "" then "" else String.mk (cleanL s.data)

/-- `clean_job_text` (alias, lines 373–375). -/
def clean_job_text (s : String) : String := clean_html_to_text s

example : clean_html_to_text "<p>Hello &amp; <b>world</b></p>" = "Hello & world" := by decide

example : clean_html_to_text "a<br/>b<li>c</li>" = "a\nb- c" := by decide

example : clean_html_to_text "&lt;b&gt;" = "<b>" := by decide

example : clean_html_to_text "<script>x</script>ok" = "ok" := by decide

example : clean_html_to_text "a\r\n\r\nb\n\n\n\nc" = "a\n\nb\n\nc" := by decide

/-! ## Scorer Engine (`run_single_scorer`, lines 236–306) -/

/-- The canonical next-action enum (line 273). -/
def validActions : List String := ["Apply Now", "Apply", "Network First", "Skip"]

/-- The deterministic fit-score → next-action mapping (lines 275–283). -/
def actionForFit (fit : Int) : String :=
  if fit = 5 then "Apply Now"
  else if fit = 4 then "Apply"
  else if fit = 3 ∨ fit = 2 then "Network First"
  else "Skip"

/-- Raw fit-score value after the alias probing of lines 262–264
(`fit_score`, else `score` or `FitScore` or `fitScore` chained with `or`). -/
def resolveRawFit (score : JObj) : JVal :=
  match jget score "fit_score" with
  | .null => pyOr (jget score "score") (pyOr (jget score "FitScore") (jget score "fitScore"))
  | v => v

/-- `max(1, min(5, n))` (line 269). -/
def clampFit (n : Int) : Int := max 1 (min 5 n)

/-- Fit-score normalization of `run_single_scorer` (lines 261–269):
`int(...)` with `ValueError`/`TypeError` defaulting to 3, then clamping. -/
def extract_fit_score (score : JObj) : Int :=
  let v := resolveRawFit score
  let n : Int :=
    match v with
    | .null => 3
    | w =>
        match pyInt w with
        | .ok m => m
        | .error _ => 3
  clampFit n

/-- `score.get("next_action", "").strip() if isinstance(..., str) else None`
(line 272). -/
def rawNextAction (score : JObj) : Option String :=
  match jget score "next_action" with
  | .str s => some (pyStrip s)
  | _ => none

/-- Next-action normalization of `run_single_scorer` (lines 271–285). -/
def normalize_next_action (score : JObj) (fit : Int) : String :=
  match rawNextAction score with
  | some s => if validActions.contains s then s else actionForFit fit
  | none => actionForFit fit

def isNAStr : JVal → Bool
  | .str s => s = "N/A"
  | _ => false

/-- Confidence coercion (lines 287–292). -/
def normalize_confidence (score : JObj) : JVal :=
  let c := jgetD score "confidence" (.str "N/A")
  if isNAStr c then c
  else
    match pyFloat c with
    | .ok q => .float q
    | .error _ => .str "N/A"

/-- The dict returned by `run_single_scorer` (lines 296–306 on success,
line 259 on failure; defaults mirror the `.get(..., default)` probing that
`is_hard_gate_failure` applies to the error-shaped dict). -/
structure ScoreResult where
  engine : String
  status : String
  reason : String := ""
  fit_score : Int := 0
  next_action : String := ""
  confidence : JVal := .null
  raw_score : JObj := []
  fit_reasons : JVal := .arr []
  gaps_risks : JVal := .arr []
  needs_human_input : JVal := .arr []

/-- Required keys of a scorer response (lines 244–248). -/
def requiredScoreKeys : List String :=
  ["fit_score", "next_action", "fit_reasons", "gaps_risks", "non_obvious_matches",
   "keywords_to_tailor_resume", "questions_to_verify", "confidence",
   "needs_human_input", "debug"]

/-- `not (not score or not required_keys.issubset(score.keys()))`
(lines 250, 257): the parsed response is a non-empty dict with every
required key. -/
def responseOk (r : Option JObj) : Bool :=
  match r with
  | some o => (!o.isEmpty) && requiredScoreKeys.all (fun k => jHasKey o k)
  | none => false

/-- `load_scorer_prompt` (lines 37–53): engine-name dispatch.  The
`perfecter_v1` prompt file is part of the deployment and modelled as
present; an unknown name raises `ValueError`. -/
def load_scorer_prompt_ok (engine : String) : Except PyExc Unit :=
  if engine = "v1" then .ok ()
  else if engine = "perfecter_v1" then .ok ()
  else .error (.valueError ("Unknown scorer engine: " ++ engine))

/-- The n-th LLM call of a run, already composed with
`utils.safe_parse_json` (`none` = unparsable response text). -/
abbrev Oracle := Nat → Option JObj

/-- Observable per-record effects. -/
inductive Ev where
  | llmParse : Ev                                   -- Job-Structurer LLM call
  | llmScore (engine : String) (retry : Bool) : Ev  -- scorer LLM call
  | write (fields : JObj) : Ev                      -- `update_record` payload
  | fieldDrop (key : String) : Ev                   -- `FIELD_DROP` log line

/-- Successful-path result assembly of `run_single_scorer`
(lines 261–306). -/
def scoredResult (engine : String) (score : JObj) : ScoreResult :=
  let fit := extract_fit_score score
  { engine := engine
    status := "scored"
    fit_score := fit
    next_action := normalize_next_action score fit
    confidence := normalize_confidence score
    raw_score := score
    fit_reasons := jgetD score "fit_reasons" (.arr [])
    gaps_risks := jgetD score "gaps_risks" (.arr [])
    needs_human_input := jgetD score "needs_human_input" (.arr []) }

/-- The error dict of line 259. -/
def errorResult (engine : String) : ScoreResult :=
  { engine := engine, status := "error", reason := "invalid_model_output" }

/-- `run_single_scorer` (lines 236–306): one LLM call, at most one retry
with the strict-JSON instruction, then normalization.  Returns the result,
the next oracle index, and the LLM-call trace; raises for an unknown
engine (line 238 → line 53). -/
def run_single_scorer (engine : String) (oracle : Oracle) (k : Nat) :
    Except PyExc (ScoreResult × Nat × List Ev) :=
  match load_scorer_prompt_ok engine with
  | .error e => .error e
  | .ok _ =>
      if responseOk (oracle k) then
        .ok (scoredResult engine ((oracle k).getD []), k + 1, [.llmScore engine false])
      else if responseOk (oracle (k + 1)) then
        .ok (scoredResult engine ((oracle (k + 1)).getD []), k + 2,
          [.llmScore engine false, .llmScore engine true])
      else
        .ok (errorResult engine, k + 2, [.llmScore engine false, .llmScore engine true])

/-! ## Arbitration Unit (`is_hard_gate_failure`, `select_ab_winner`,
lines 61–162) -/

/-- `clearance_keywords + travel_keywords` (lines 99–101). -/
def gateKeywords : List String :=
  ["clearance", "security clearance", "government", "travel", "relocation", "on-site"]

/-- Substring test (`kw in text`). -/
def containsSub (hay needle : List Char) : Bool :=
  match hay with
  | [] => needle.isPrefixOf []
  | _ :: tl => needle.isPrefixOf hay || containsSub tl needle

def strContainsSub (hay needle : String) : Bool := containsSub hay.data needle.data

/-- View of a value as a list of strings (`" ".join` raises `TypeError`
otherwise). -/
def strListView : JVal → Option (List String)
  | .arr xs =>
      xs.foldr
        (fun x acc =>
          match x, acc with
          | .str s, some l => some (s :: l)
          | _, _ => none)
        (some [])
  | _ => none

/-- `is_hard_gate_failure` (lines 61–106). -/
def is_hard_gate_failure (result : ScoreResult) (engine : String) : Except PyExc Bool :=
  let fit := result.fit_score
  let debugV := jgetD result.raw_score "debug" (.obj [])
  if engine = "perfecter_v1" then
    match debugV with
    | .obj debug =>
        let hardGatesPassed := jgetD debug "hard_gates_passed" (.bool true)
        let failReasons := jgetD debug "hard_gate_fail_reasons" (.arr [])
        if !truthy hardGatesPassed then .ok true
        else if fit = 1 && truthy failReasons then .ok true
        else .ok false
    | _ => .error (.attributeError "get")
  else if engine = "v1" then
    if fit = 1 then
      match strListView result.gaps_risks, strListView result.needs_human_input with
      | some gs, some ns =>
          .ok (gateKeywords.any (fun kw =>
            strContainsSub (pyLower (String.intercalate " " (gs ++ ns))) kw))
      | _, _ => .error (.typeError "can only join an iterable of str")
    else .ok false
  else .ok false

def lookupRes (results : List (String × ScoreResult)) (e : String) : Option ScoreResult :=
  match results with
  | [] => none
  | (k, r) :: rest => if k = e then some r else lookupRes rest e

/-- The `hard_gate_failures` dict of lines 128–131, in engine order. -/
def gateFlags (results : List (String × ScoreResult)) :
    List String → Except PyExc (List (String × Bool))
  | [] => .ok []
  | e :: es =>
      match lookupRes results e with
      | none => gateFlags results es
      | some r =>
          match is_hard_gate_failure r e with
          | .error err => .error err
          | .ok b =>
              match gateFlags results es with
              | .error err => .error err
              | .ok rest => .ok ((e, b) :: rest)

/-- The highest-fit-score loop with `perfecter_v1` tie-break
(lines 149–162). -/
def maxFitWinner (results : List (String × ScoreResult)) (ab : List String) : Option String :=
  (ab.foldl
    (fun (acc : Int × Option String) e =>
      match lookupRes results e with
      | none => acc
      | some r =>
          if r.fit_score > acc.1 then (r.fit_score, some e)
          else if r.fit_score = acc.1 && e = "perfecter_v1" then (acc.1, some e)
          else acc)
    (-1, none)).2

/-- `select_ab_winner` (lines 109–162). -/
def select_ab_winner (results : List (String × ScoreResult)) (ab : List String) :
    Except PyExc String :=
  match gateFlags results ab with
  | .error err => .error err
  | .ok flags =>
  let skips := (flags.filter (·.2)).map (·.1)
  if skips.isEmpty then
    match maxFitWinner results ab with
    | some w => .ok w
    | none =>
        match results with
        | [] => .error (.keyError "list index out of range")
        | (k, _) :: _ => .ok k
  else if skips.length = flags.length then
    .ok (if skips.contains "perfecter_v1" then "perfecter_v1" else skips.headD "")
  else
    -- lines 142–147: both arms return `skip_engines[0]`
    .ok (skips.headD "")

/-! ## Comparison artifact (`build_scoring_ab_json`, lines 165–233) -/

def lookupJ (o : JObj) (k : String) : Option JVal :=
  match o with
  | [] => none
  | (k2, v) :: rest => if k2 = k then some v else lookupJ rest k

/-- One step of the `output["engines"]` accumulation (lines 194–198). -/
def abEnginesStep (results : List (String × ScoreResult)) (acc : JObj) (e : String) : JObj :=
  match lookupRes results e with
  | none => acc
  | some r => jset acc e (.obj r.raw_score)

/-- `output["engines"]` accumulation (lines 194–198): each engine of the
A/B list that produced a result contributes its full `raw_score`. -/
def abEngines (results : List (String × ScoreResult)) (ab : List String) : JObj :=
  ab.foldl (abEnginesStep results) []

/-- `output["hashes"]` accumulation (lines 199–204); `engineHash e` is the
stored string (prompt-hash prefix, or `error:...` from the `except` arm). -/
def abHashes (engineHash : String → String) (results : List (String × ScoreResult))
    (ab : List String) : JObj :=
  ab.foldl
    (fun acc e =>
      match lookupRes results e with
      | none => acc
      | some _ => jset acc e (.str (engineHash e)))
    []

/-- `output["runtime"]` (lines 186–190); `now` models the
`datetime.now(timezone.utc).isoformat()` default. -/
def runtimeMeta (scorer_input : JObj) (now : String) : Except PyExc JObj :=
  match jget scorer_input "runtime" with
  | .obj rt =>
      .ok [("model", jgetD rt "model" (.str "unknown")),
           ("temperature", jgetD rt "temperature" (.float 0)),
           ("timestamp_utc", jgetD rt "timestamp_utc" (.str now))]
  | .null => .error (.keyError "runtime")
  | _ => .error (.attributeError "get")

/-- The six-key output object of lines 180–191. -/
def abBase (results : List (String × ScoreResult)) (winner : String)
    (engines hashes rt : JObj) : JObj :=
  [("engines", .obj engines),
   ("winner", .str winner),
   ("winner_fit_score",
     match lookupRes results winner with
     | some r => .int r.fit_score
     | none => .null),
   ("winner_next_action",
     match lookupRes results winner with
     | some r => .str r.next_action
     | none => .null),
   ("hashes", .obj hashes),
   ("runtime", .obj rt)]

/-- Lines 216–218 on one engine entry: delete its `debug` sub-object
unless it is the winner (engine entries are always objects, by
construction of `abEngines`). -/
def stripEntry (winner : String) (p : String × JVal) : String × JVal :=
  if p.1 = winner then p
  else
    match p.2 with
    | .obj eo => if jHasKey eo "debug" then (p.1, .obj (jdel eo "debug")) else p
    | _ => p

/-- Lines 216–218: delete the `debug` sub-object of every non-winning
engine. -/
def stripNonWinnerDebug (engines : JObj) (winner : String) : JObj :=
  engines.map (stripEntry winner)

/-- The minimal object of lines 223–230: only the winner's full result,
the prompt hashes and the runtime metadata, marked truncated. -/
def abStageMin (winner : String) (wEntry : JVal) (hashes rt : JObj) : JObj :=
  [("engines", .obj [(winner, wEntry)]),
   ("winner", .str winner),
   ("hashes", .obj hashes),
   ("runtime", .obj rt),
   ("TRUNCATED", .bool true),
   ("TRUNCATED_REASON", .str "Aggressive truncation: kept only winner engine")]

/-- The stage-1 object that the mutations of lines 213–218 produce: the
full artifact with the `debug` sub-object removed from every non-winning
engine, marked truncated with the size reason. -/
def abStage1 (results : List (String × ScoreResult)) (winner : String)
    (engines hashes rt : JObj) (len0 : Nat) : JObj :=
  abBase results winner (stripNonWinnerDebug engines winner) hashes rt ++
    [("TRUNCATED", .bool true),
     ("TRUNCATED_REASON", .str ("JSON size " ++ toString len0 ++ " exceeded max 90000"))]

/-- `build_scoring_ab_json` (lines 165–233), with the dict mutations of the
truncation ladder written out with `jset`. -/
def build_scoring_ab_json (results : List (String × ScoreResult)) (ab : List String)
    (winner : String) (scorer_input : JObj) (engineHash : String → String)
    (now : String) : Except PyExc String :=
  match runtimeMeta scorer_input now with
  | .error err => .error err
  | .ok rt =>
  let engines := abEngines results ab
  let hashes := abHashes engineHash results ab
  let output := abBase results winner engines hashes rt
  let json0 := jdump true (.obj output)
  if json0.length > 90000 then
    let output := jset output "TRUNCATED" (.bool true)
    let output := jset output "TRUNCATED_REASON"
        (.str ("JSON size " ++ toString json0.length ++ " exceeded max 90000"))
    let engines1 := stripNonWinnerDebug engines winner
    let output := jset output "engines" (.obj engines1)
    let json1 := jdump true (.obj output)
    if json1.length > 90000 then
      match lookupJ engines1 winner with
      | none => .error (.keyError winner)
      | some wEntry => .ok (jdump true (.obj (abStageMin winner wEntry hashes rt)))
    else .ok json1
  else .ok json0

/-! ## Schema-Tolerant Writer and orchestrator (`filter_fields_to_table`,
`sample_valid_fields`, `score_job_record`, `run_scoring`) -/

/-- `filter_fields_to_table` (lines 319–329): the filtered payload and the
dropped keys, each logged as `FIELD_DROP`. -/
def filter_fields_to_table (payload : JObj) (tfn : List String) : JObj × List String :=
  match payload with
  | [] => ([], [])
  | (k, v) :: rest =>
      let fd := filter_fields_to_table rest tfn
      if tfn.contains k then ((k, v) :: fd.1, fd.2) else (fd.1, k :: fd.2)

/-- A record of the store: `{id, fields}`. -/
structure Rec where
  id : String
  fields : JObj

/-- `sample_valid_fields` (lines 332–340): union of the field keys of the
(at most 3) sampled records. -/
def sample_valid_fields (sampled : List Rec) : List String :=
  sampled.foldl (fun acc r => acc ++ (jkeys r.fields).filter (fun k => !acc.contains k)) []

/-- The static field allowlist of lines 847–854
(`table_field_names` in `run_scoring`). -/
def staticTableFieldNames : List String :=
  ["FitScore", "NextAction", "FitReasons", "GapsRisks", "NeedsHumanInput", "Status",
   "ScoringStatus", "SkipReason", "ProcessedAt",
   "Company", "Location", "RemoteStatus", "Requirements", "Responsibilities",
   "Keywords", "TechStack", "JobTitle", "JobURL", "JobDescriptionRaw",
   "JobDescriptionText", "JobJSON", "DateFound", "Source", "Strategy", "ScoringAB", "RunID"]

/-- `safe_update` (lines 458–486): filter against the passed field-name
set, log drops, and (outside dry-run) write the filtered payload; store
writes are modelled as succeeding, so the retry arm is unreachable. -/
def safe_update (tfn : List String) (dry : Bool) (payload : JObj) : Bool × List Ev :=
  let fd := filter_fields_to_table payload tfn
  let evs := fd.2.map Ev.fieldDrop
  if fd.1.isEmpty then (false, evs)
  else if dry then (true, evs)
  else (true, evs ++ [Ev.write fd.1])

/-- `CLEAN_MIN_LEN` (line 27). -/
def CLEAN_MIN_LEN : Nat := 600

/-- Outcome dict of `score_job_record`. -/
structure SJRes where
  status : String
  reason : String := ""
  fit_score : Int := 0
  next_action : String := ""

/-- Relevant configuration (`config.settings`). -/
structure Settings where
  OPENAI_MODEL_PARSE : String := "gpt-parse"
  OPENAI_MODEL_SCORE : String := "gpt-score"

/-- A `filter_fields_to_table` call followed by `safe_update` on the
result when non-empty — the recurring idiom of lines 496–503, 519–524,
527–533, 596–601, 608–614, 655–659, 769–771, 777–781. -/
def filterThenUpdate (tfn : List String) (dry : Bool) (payload : JObj) : List Ev :=
  let fd := filter_fields_to_table payload tfn
  let evs := fd.2.map Ev.fieldDrop
  if fd.1.isEmpty then evs else evs ++ (safe_update tfn dry fd.1).2

/-- Lines 488–553 of `score_job_record`: `JobDescriptionRaw` check (empty →
skip), `JobDescriptionText` generation with the short-JD note, and the
raw-vs-clean log of line 552.  Returns an early outcome, else the working
text, the cleaned text, and the write/drop trace. -/
def phase_jd (minLen : Nat) (tfn : List String) (dry : Bool) (fields : JObj) :
    Except PyExc (Option SJRes × String × String × List Ev) :=
  match pyStripAttr (jgetD fields "JobDescriptionRaw" (.str "")) with
  | .error err => .error err
  | .ok raw =>
  if raw = "" then
    let evs :=
      if dry then []
      else
        filterThenUpdate tfn dry
          [("Status", .str "Needs JD"), ("ScoringStatus", .str "SKIPPED"),
           ("SkipReason", .str "JobDescriptionRaw empty after stripping. Needs full JD.")]
    .ok (some { status := "skipped", reason := "no_description" }, "", "", evs)
  else
    match pyStripAttr (jgetD fields "JobDescriptionText" (.str "")) with
    | .error err => .error err
    | .ok text0 =>
    if text0 = "" then
      let text := clean_html_to_text raw
      let evsShort :=
        if text.length < minLen && !dry then
          filterThenUpdate tfn dry
            [("NeedsHumanInput", .str ("SHORT_JD_SCORING len=" ++ toString text.length))]
        else []
      let evsWrite :=
        if dry then []
        else filterThenUpdate tfn dry [("JobDescriptionText", .str text)]
      .ok (none, text, clean_html_to_text raw, evsShort ++ evsWrite)
    else
      .ok (none, text0, clean_html_to_text raw, [])

/-- Required keys of the Job-Structurer response (lines 573–577). -/
def requiredParseKeys : List String :=
  ["company", "job_title", "location", "remote_status", "seniority",
   "apply_type", "requirements", "responsibilities", "keywords",
   "tech_stack", "needs_human_input"]

/-- The minimal fallback object of lines 582–594. -/
def fallbackJobJson (fields : JObj) : JObj :=
  [("job_title", pyOr (pyOr (jget fields "JobTitle") (jget fields "Title")) .null),
   ("company", .null),
   ("location", .null),
   ("remote_status", .str "Unknown"),
   ("seniority", .str "Unknown"),
   ("apply_type", .str "Unknown"),
   ("requirements", .arr []),
   ("responsibilities", .arr []),
   ("keywords", .arr []),
   ("tech_stack", .arr []),
   ("needs_human_input", .arr [.str "JOBJSON_PARSE_FAILED"])]

/-- Lines 555–629 of `score_job_record`: reuse a cached `JobJSON` when it
parses to a non-empty dict, otherwise build it with one Job-Structurer LLM
call (falling back to the minimal object on an invalid response) and write
it back.  `safeParse` models `utils.safe_parse_json` on the stored string.
Returns the structured object, the next oracle index and the trace. -/
def phase_jobjson (tfn : List String) (dry : Bool) (safeParse : String → Option JVal)
    (oracle : Oracle) (k : Nat) (fields : JObj) :
    Except PyExc (JObj × Nat × List Ev) :=
  match pyStripAttr (jgetD fields "JobJSON" (.str "")) with
  | .error err => .error err
  | .ok jraw =>
  let parsed0 : JObj :=
    if jraw ≠ "" then
      match safeParse jraw with
      | some (.obj o) => o
      | _ => []
    else []
  if parsed0.isEmpty then
    let parsed1 : JObj := (oracle k).getD []
    let ok := requiredParseKeys.all (fun kk => jHasKey parsed1 kk)
    let parsed2 := if ok then parsed1 else fallbackJobJson fields
    let evsFail :=
      if ok then []
      else if dry then []
      else filterThenUpdate tfn dry [("NeedsHumanInput", .str "JOBJSON_PARSE_FAILED")]
    let jstr := jdump false (.obj parsed2)
    let evsWrite :=
      if dry then []
      else filterThenUpdate tfn dry [("JobJSON", .str jstr)]
    .ok (parsed2, k + 1, [Ev.llmParse] ++ evsFail ++ evsWrite)
  else
    .ok (parsed0, k, [])

/-- The parsed-field payload of lines 638–653 (only truthy values are
kept, in source order). -/
def parsedFieldsToUpdate (parsed : JObj) (reqT respT keyT techT needsT : String) : JObj :=
  ([("Company", jget parsed "company"),
    ("JobTitle", jget parsed "job_title"),
    ("Location", jget parsed "location"),
    ("RemoteStatus", jget parsed "remote_status"),
    ("Requirements", JVal.str reqT),
    ("Responsibilities", JVal.str respT),
    ("Keywords", JVal.str keyT),
    ("TechStack", JVal.str techT),
    ("NeedsHumanInput", JVal.str needsT)] : JObj).filter (fun p => truthy p.2)

/-- The scorer-input envelope of lines 663–695.  `buildFlags` stands for
`build_flags_from_jd` (pattern-rule flag extraction, lines 378–447): no
claim concerns it and its output only rides inside this envelope, which
the LLM oracle abstracts. -/
def mkScorerInput (settings : Settings) (buildFlags : String → JObj)
    (candidate : JVal) (parsed : JObj) (cleaned : String) (run_id : String) : JObj :=
  let job_profile : JObj :=
    [("title", pyOr (jget parsed "job_title") (.str "")),
     ("company", pyOr (jget parsed "company") (.str "")),
     ("location", pyOr (jget parsed "location") (.str "")),
     ("employment_type", pyOr (jget parsed "remote_status") (.str "Unknown")),
     ("role_family_guess", pyOr (jget parsed "seniority") (.str "Unknown")),
     ("responsibilities", jgetD parsed "responsibilities" (.arr [])),
     ("required_qualifications", jgetD parsed "requirements" (.arr [])),
     ("preferred_qualifications", .arr []),
     ("tech_stack", jgetD parsed "tech_stack" (.arr [])),
     ("industry", .str ""),
     ("flags", .obj (buildFlags cleaned)),
     ("raw_text", .str cleaned)]
  [("candidate", .obj [("candidate_profile", candidate)]),
   ("job", .obj [("job_profile", .obj job_profile), ("job_json", .obj parsed)]),
   ("runtime", .obj
     [("creativity_dial", .float (mkRat 7 10)),
      ("model", .str settings.OPENAI_MODEL_SCORE),
      ("temperature", .float (mkRat 7 10)),
      ("run_id", .str (if run_id = "" then "" else run_id))])]

/-- The A/B loop of lines 700–704 (engine names are distinct in every
invocation; results keep invocation order). -/
def runAbEngines (oracle : Oracle) :
    List String → Nat → (Except PyExc (List (String × ScoreResult))) × Nat × List Ev
  | [], k => (.ok [], k, [])
  | e :: es, k =>
      match run_single_scorer e oracle k with
      | .error err => (.error err, k, [])
      | .ok (r, k1, evs1) =>
          match runAbEngines oracle es k1 with
          | (.error err, k2, evs2) => (.error err, k2, evs1 ++ evs2)
          | (.ok rest, k2, evs2) =>
              (.ok ((if r.status = "scored" then [(e, r)] else []) ++ rest), k2,
                evs1 ++ evs2)

/-- The write sequence of lines 736–796 (`FitScore`/`Status` update,
`NextAction` with `Review` fallback, optional text fields, `ScoringAB` in
A/B mode); dry-run performs no writes (the dry-run `ScoringAB` build of
lines 786–792 only prints). -/
def scoreWrites (tfn : List String) (dry : Bool) (run_id : String) (fit : Int)
    (action : String) (fitReasonsT gapsT mergedNeeds : String)
    (abPart : Option (List (String × ScoreResult) × List String × String))
    (scorer_input : JObj) (engineHash : String → String) (now : String) : List Ev :=
  if dry then []
  else
    let upd : JObj :=
      [("FitScore", .int fit), ("Status", .str "Scored"), ("ScoringStatus", .str "SCORED")]
        ++ (if run_id ≠ "" then [("RunID", JVal.str run_id)] else [])
    let ev1 := (safe_update tfn dry upd).2
    let su2 := safe_update tfn dry [("NextAction", .str action)]
    let ev2 :=
      if su2.1 then su2.2
      else
        su2.2 ++
          (let fd := filter_fields_to_table [("NextAction", .str "Review")] tfn
           fd.2.map Ev.fieldDrop ++ (safe_update tfn dry fd.1).2)
    let optional : JObj :=
      (if fitReasonsT ≠ "" then [("FitReasons", JVal.str fitReasonsT)] else [])
        ++ (if gapsT ≠ "" then [("GapsRisks", JVal.str gapsT)] else [])
        ++ (if mergedNeeds ≠ "" then [("NeedsHumanInput", JVal.str mergedNeeds)] else [])
    let ev3 :=
      if !optional.isEmpty then
        let fd := filter_fields_to_table optional tfn
        fd.2.map Ev.fieldDrop ++ (safe_update tfn dry fd.1).2
      else []
    let ev4 :=
      match abPart with
      | none => []
      | some (results, ab, winner) =>
          match build_scoring_ab_json results ab winner scorer_input engineHash now with
          | .error _ => []
          | .ok s =>
              let fd := filter_fields_to_table [("ScoringAB", .str s)] tfn
              fd.2.map Ev.fieldDrop ++ (if fd.1.isEmpty then [] else (safe_update tfn dry fd.1).2)
    ev1 ++ ev2 ++ ev3 ++ ev4

/-- The body of the `try` of lines 630–802: parsed-field updates, scorer
invocation (single or A/B with arbitration), and the result writes. -/
def phase_try (settings : Settings) (tfn : List String) (dry : Bool)
    (buildFlags : String → JObj) (candidate : JVal) (run_id : String)
    (scorer_engine : String) (ab_test : Option (List String))
    (engineHash : String → String) (now : String) (oracle : Oracle) (k : Nat)
    (parsed : JObj) (cleaned : String) :
    (Except PyExc SJRes) × Nat × List Ev :=
  let requirements_text := join_lines (jgetD parsed "requirements" (.arr []))
  let responsibilities_text := join_lines (jgetD parsed "responsibilities" (.arr []))
  let keywords_text := join_commas (jgetD parsed "keywords" (.arr []))
  let tech_stack_text := join_commas (jgetD parsed "tech_stack" (.arr []))
  let needs_human_input_text := join_lines (jgetD parsed "needs_human_input" (.arr []))
  let pf := parsedFieldsToUpdate parsed requirements_text responsibilities_text
    keywords_text tech_stack_text needs_human_input_text
  let evsParse := if !pf.isEmpty then filterThenUpdate tfn dry pf else []
  let scorer_input := mkScorerInput settings buildFlags candidate parsed cleaned run_id
  match ab_test with
  | some ab =>
      match runAbEngines oracle ab k with
      | (.error e, k1, evsS) => (.error e, k1, evsParse ++ evsS)
      | (.ok results, k1, evsS) =>
          if results.isEmpty then
            (.ok { status := "error", reason := "invalid_model_output" }, k1,
              evsParse ++ evsS)
          else
            match select_ab_winner results ab with
            | .error e => (.error e, k1, evsParse ++ evsS)
            | .ok winner =>
                let wr := (lookupRes results winner).getD (errorResult winner)
                let evsW := scoreWrites tfn dry run_id wr.fit_score wr.next_action
                  (join_lines wr.fit_reasons) (join_lines wr.gaps_risks)
                  (merge_notes needs_human_input_text (join_lines wr.needs_human_input))
                  (some (results, ab, winner)) scorer_input engineHash now
                (.ok { status := "scored", fit_score := wr.fit_score,
                       next_action := wr.next_action }, k1, evsParse ++ evsS ++ evsW)
  | none =>
      match run_single_scorer scorer_engine oracle k with
      | .error e => (.error e, k, evsParse)
      | .ok (r, k1, evsS) =>
          if r.status ≠ "scored" then
            (.ok { status := "error", reason := "invalid_model_output" }, k1,
              evsParse ++ evsS)
          else
            let evsW := scoreWrites tfn dry run_id r.fit_score r.next_action
              (join_lines r.fit_reasons) (join_lines r.gaps_risks)
              (merge_notes needs_human_input_text (join_lines r.needs_human_input))
              none scorer_input engineHash now
            (.ok { status := "scored", fit_score := r.fit_score,
                   next_action := r.next_action }, k1, evsParse ++ evsS ++ evsW)

def pyExcMsg : PyExc → String
  | .valueError m => m
  | .typeError m => m
  | .attributeError m => m
  | .keyError m => m
  | .runtimeError m => m

/-- `score_job_record` (lines 450–819).  Lines 488–629 run before the big
`try`, so their exceptions escape the function; exceptions inside the
`try` produce the `FAILED` write of lines 804–819 and an error outcome. -/
def score_job_record (minLen : Nat) (settings : Settings) (tfn : List String) (dry : Bool)
    (safeParse : String → Option JVal) (buildFlags : String → JObj)
    (candidate : JVal) (run_id : String) (scorer_engine : String)
    (ab_test : Option (List String)) (engineHash : String → String) (now : String)
    (oracle : Oracle) (k : Nat) (record : Rec) :
    (Except PyExc SJRes) × Nat × List Ev :=
  match phase_jd minLen tfn dry record.fields with
  | .error e => (.error e, k, [])
  | .ok (some res, _, _, evs) => (.ok res, k, evs)
  | .ok (none, _text, cleaned, evs1) =>
      match phase_jobjson tfn dry safeParse oracle k record.fields with
      | .error e => (.error e, k, evs1)
      | .ok (parsed, k1, evs2) =>
          match phase_try settings tfn dry buildFlags candidate run_id scorer_engine
              ab_test engineHash now oracle k1 parsed cleaned with
          | (.ok res, k2, evs3) => (.ok res, k2, evs1 ++ evs2 ++ evs3)
          | (.error e, k2, evs3) =>
              let evsErr :=
                if dry then []
                else
                  filterThenUpdate tfn dry
                    [("ScoringStatus", .str "FAILED"),
                     ("SkipReason", .str ("Scoring error: " ++ pyTake (pyExcMsg e) 200))]
              (.ok { status := "error", reason := pyExcMsg e }, k2,
                evs1 ++ evs2 ++ evs3 ++ evsErr)

/-- Run-level observable effects. -/
inductive REv where
  | sampleFields : REv
  | findCandidate : REv
  | listJobs : REv
  | recEv (id : String) (e : Ev) : REv

/-- The summary counters of `run_scoring`. -/
structure RunOut where
  total : Nat
  scored : Nat
  skipped : Nat
  errors : Nat

/-- The per-record loop of lines 1026–1045 (oracle index threads through;
the fixed sleep is timing, not data). -/
def processJobs (settings : Settings) (dry : Bool) (safeParse : String → Option JVal)
    (buildFlags : String → JObj) (candidate : JVal) (run_id : String)
    (scorer_engine : String) (ab_test : Option (List String))
    (engineHash : String → String) (now : String) (oracle : Oracle) :
    List Rec → Nat → (Except PyExc (Nat × Nat × Nat)) × List REv
  | [], _ => (.ok (0, 0, 0), [])
  | r :: rs, k =>
      match score_job_record CLEAN_MIN_LEN settings staticTableFieldNames dry safeParse
          buildFlags candidate run_id scorer_engine ab_test engineHash now oracle k r with
      | (.error e, _, evs) => (.error e, evs.map (REv.recEv r.id))
      | (.ok res, k1, evs) =>
          match processJobs settings dry safeParse buildFlags candidate run_id
              scorer_engine ab_test engineHash now oracle rs k1 with
          | (.error e, evs2) => (.error e, evs.map (REv.recEv r.id) ++ evs2)
          | (.ok (s, sk, er), evs2) =>
              (.ok ((if res.status = "scored" then s + 1 else s),
                    (if res.status = "skipped" then sk + 1 else sk),
                    (if res.status ≠ "scored" ∧ res.status ≠ "skipped" then er + 1 else er)),
                evs.map (REv.recEv r.id) ++ evs2)

/-- `run_scoring` (lines 822–1052) on its main path (the `diag`,
`diag_runid`, `test_filter` and `filter_step` flags keep their `False`/
`None` defaults; those branches return zero counters without scoring and
are outside every claim).  `sampled` is the 3-record schema sample,
`jobs` the result of the filtered query, `candidateRecord` the
`find_one` result, `loadsJson` models `json.loads`, and `run_id` the
time-derived `generate_run_id()` value. -/
def run_scoring (settings : Settings) (sampled : List Rec) (candidateRecord : Option Rec)
    (jobs : List Rec) (loadsJson : String → Option JVal)
    (safeParse : String → Option JVal) (buildFlags : String → JObj)
    (engineHash : String → String) (now : String) (run_id : String) (oracle : Oracle)
    (maxJobs : Nat) (dry : Bool) (scorer_engine : String)
    (ab_test : Option (List String)) : (Except PyExc RunOut) × List REv :=
  let _valid_fields := sample_valid_fields sampled
  let evs0 := [REv.sampleFields, REv.findCandidate]
  match candidateRecord with
  | none => (.error (.runtimeError "CandidateProfile not found"), evs0)
  | some cand =>
      let cjson := jget cand.fields "CandidateJSON"
      if !truthy cjson then (.ok ⟨0, 0, 0, 1⟩, evs0)
      else
        match cjson with
        | .str s =>
            match loadsJson s with
            | none => (.ok ⟨0, 0, 0, 1⟩, evs0)
            | some candidate =>
                let records := jobs.take maxJobs
                match processJobs settings dry safeParse buildFlags candidate run_id
                    scorer_engine ab_test engineHash now oracle records 0 with
                | (.error e, evsP) => (.error e, evs0 ++ [REv.listJobs] ++ evsP)
                | (.ok (s2, sk, er), evsP) =>
                    (.ok ⟨records.length, s2, sk, er⟩, evs0 ++ [REv.listJobs] ++ evsP)
        | _ => (.error (.typeError "the JSON object must be str"), evs0)

/-! ## Parts-domain view of the final normalization stages (for the
idempotence analysis of the Text Normalizer) -/

/-- Leading empty-part count. -/
def countLeadEmpty : List (List Char) → Nat
  | [] => 0
  | p :: ps => if p.isEmpty then countLeadEmpty ps + 1 else 0

/-- Squeeze every run of consecutive empty parts to a single empty part. -/
def squeeze1 : List (List Char) → List (List Char)
  | [] => []
  | [p] => [p]
  | p :: q :: ps =>
      if p.isEmpty && q.isEmpty then squeeze1 (q :: ps)
      else p :: squeeze1 (q :: ps)

def trimEmptyLeft : List (List Char) → List (List Char)
  | [] => []
  | p :: ps => if p.isEmpty then trimEmptyLeft ps else p :: ps

/-- Drop the leading and trailing empty parts. -/
def trimEmpty (ps : List (List Char)) : List (List Char) :=
  ((trimEmptyLeft ((trimEmptyLeft ps).reverse)).reverse)

/-- What the blank-line collapse of `\n\s*\n+` does to an
intercalated list of stripped, newline-free parts, part by part. -/
def squeezeC : List (List Char) → List (List Char)
  | [] => []
  | [p] => [p]
  | p :: q :: ps =>
      let e := countLeadEmpty (q :: ps)
      let rest := (q :: ps).drop e
      if rest.isEmpty then
        if 2 ≤ e then [p, [], []] else p :: q :: ps
      else if e = 0 then p :: squeezeC rest
      else p :: [] :: squeezeC rest
termination_by ps => ps.length + 2
decreasing_by
  all_goals simp_all [countLeadEmpty]
  all_goals omega

/-- The canonical value of the last three stages of the Text Normalizer
(line split + per-line strip, blank-line collapse, overall strip), in the
parts domain. -/
def canonParts (ps : List (List Char)) : List (List Char) :=
  trimEmpty (squeeze1 (ps.map pyStripL))

/-! ## Concrete scenario data for the claims -/

/-- A scorer response with every required key, fit score 1, and a
whitespace-padded canonical next action. -/
def c2Score : JObj :=
  [("fit_score", .int 1), ("next_action", .str " Apply Now "),
   ("fit_reasons", .arr []), ("gaps_risks", .arr []),
   ("non_obvious_matches", .arr []), ("keywords_to_tailor_resume", .arr []),
   ("questions_to_verify", .arr []), ("confidence", .str "N/A"),
   ("needs_human_input", .arr []), ("debug", .obj [])]

/-- A well-formed scorer response: fit score 4, canonical action, no gate
signals. -/
def c4Fit4Score : JObj :=
  [("fit_score", .int 4), ("next_action", .str "Apply"),
   ("fit_reasons", .arr [.str "strong match"]), ("gaps_risks", .arr []),
   ("non_obvious_matches", .arr []), ("keywords_to_tailor_resume", .arr []),
   ("questions_to_verify", .arr []), ("confidence", .float (mkRat 8 10)),
   ("needs_human_input", .arr []), ("debug", .obj [("hard_gates_passed", .bool true)])]

/-- A v1-engine response reporting fit score 1 with clearance-related
gap text and a non-canonical next action (so the deterministic mapping
applies). -/
def c4GateScore : JObj :=
  [("fit_score", .int 1), ("next_action", .str "do not apply"),
   ("fit_reasons", .arr []),
   ("gaps_risks", .arr [.str "Requires active security clearance"]),
   ("non_obvious_matches", .arr []), ("keywords_to_tailor_resume", .arr []),
   ("questions_to_verify", .arr []), ("confidence", .str "N/A"),
   ("needs_human_input", .arr []), ("debug", .obj [])]

/-- A perfecter_v1 response whose debug payload reports failed hard gates
while carrying fit score 4 and a canonical non-Skip action. -/
def c4GateNonSkipScore : JObj :=
  [("fit_score", .int 4), ("next_action", .str "Apply Now"),
   ("fit_reasons", .arr []), ("gaps_risks", .arr []),
   ("non_obvious_matches", .arr []), ("keywords_to_tailor_resume", .arr []),
   ("questions_to_verify", .arr []), ("confidence", .str "N/A"),
   ("needs_human_input", .arr []),
   ("debug", .obj [("hard_gates_passed", .bool false)])]

/-- A v1 response with fit score 2 and no gate keywords. -/
def c4PlainScore : JObj :=
  [("fit_score", .int 2), ("next_action", .str "Network First"),
   ("fit_reasons", .arr []), ("gaps_risks", .arr [.str "junior title"]),
   ("non_obvious_matches", .arr []), ("keywords_to_tailor_resume", .arr []),
   ("questions_to_verify", .arr []), ("confidence", .str "N/A"),
   ("needs_human_input", .arr []), ("debug", .obj [])]

/-- A valid Job-Structurer response. -/
def cParseResp : JObj :=
  [("company", .str "Acme"), ("job_title", .str "Engineer"),
   ("location", .str "Remote"), ("remote_status", .str "Remote"),
   ("seniority", .str "Senior"), ("apply_type", .str "External"),
   ("requirements", .arr [.str "Python"]), ("responsibilities", .arr [.str "Build"]),
   ("keywords", .arr [.str "ml"]), ("tech_stack", .arr [.str "python"]),
   ("needs_human_input", .arr [])]

/-- A record already carrying cached text and a cached (but unparsable)
`JobJSON`. -/
def c6Rec : Rec :=
  { id := "recC6",
    fields :=
      [("JobDescriptionRaw", .str "A job description"),
       ("JobDescriptionText", .str "A job description"),
       ("JobJSON", .str "not json")] }

/-- A record with cached text whose raw description cleans to a short
string, and a cached valid `JobJSON`. -/
def c10Rec : Rec :=
  { id := "recC10",
    fields :=
      [("JobDescriptionRaw", .str "Short role blurb"),
       ("JobDescriptionText", .str "Short role blurb"),
       ("JobJSON", .str "cached")] }

/-- A fresh record (no cached text, no cached JobJSON) whose raw
description cleans to a short non-empty string. -/
def c10FreshRec : Rec :=
  { id := "recC10f",
    fields := [("JobDescriptionRaw", .str "Short role blurb")] }

/-- `utils.safe_parse_json` behaviour on the concrete cached strings of
the scenarios: `"cached"` (and anything else) has no JSON object inside
and parses to nothing — except the sentinel `"cached"` is mapped to a
one-key object where a scenario needs a valid cache. -/
def cSafeParseValid : String → Option JVal :=
  fun s => if s = "cached" then some (.obj [("company", .str "Acme")]) else none

/-- `utils.safe_parse_json` on strings with no JSON object inside. -/
def cSafeParseNone : String → Option JVal := fun _ => none

/-- An oracle that always answers with the valid structurer response and
the valid fit-4 scorer response is not needed simultaneously; scenarios
use per-index oracles. -/
def cOracleScore : Oracle := fun _ => some c4Fit4Score

def cOracleNone : Oracle := fun _ => none

/-- The sampled schema records of the C3 scenario: one record whose only
field is `Foo`. -/
def c3Sampled : List Rec := [{ id := "s1", fields := [("Foo", .str "x")] }]

/-- The candidate record of the run scenarios. -/
def cCandidateRec : Rec :=
  { id := "cand1", fields := [("CandidateJSON", .str "\x7b\"name\":\"A\"\x7d")] }

def cLoadsJson : String → Option JVal :=
  fun s => if s = "\x7b\"name\":\"A\"\x7d" then some (.obj [("name", .str "A")]) else none

/-- A candidate record whose `CandidateJSON` is present but not valid
JSON. -/
def cBadCandidateRec : Rec :=
  { id := "cand2", fields := [("CandidateJSON", .str "oops")] }

def cSettings : Settings := {}

def cBuildFlags : String → JObj := fun _ => []

def cEngineHash : String → String := fun _ => "hash16"

/-- Does some write event of the trace carry field `kk`? -/
def evsHaveWriteKey (kk : String) (evs : List Ev) : Bool :=
  evs.any (fun e =>
    match e with
    | .write payload => (jkeys payload).contains kk
    | _ => false)

/-- Does some per-record write of the run trace carry field `kk`? -/
def runHasWriteKey (kk : String) (evs : List REv) : Bool :=
  evs.any (fun e =>
    match e with
    | .recEv _ (.write payload) => (jkeys payload).contains kk
    | _ => false)

/-- Did the run reach the job-record query? -/
def runListedJobs (evs : List REv) : Bool :=
  evs.any (fun e =>
    match e with
    | .listJobs => true
    | _ => false)

/-- Trace classification: a field-drop log, a write whose fields all lie
in `tfn`, or a scorer call — and never a Job-Structurer call. -/
def TameEv (tfn : List String) : Ev → Prop
  | .llmParse => False
  | .llmScore _ _ => True
  | .fieldDrop _ => True
  | .write payload => ∀ kk ∈ jkeys payload, tfn.contains kk = true

def TameEvs (tfn : List String) (evs : List Ev) : Prop := ∀ e ∈ evs, TameEv tfn e

/-- Weaker classification: writes are filtered (calls unconstrained). -/
def WriteEv (tfn : List String) : Ev → Prop
  | .write payload => ∀ kk ∈ jkeys payload, tfn.contains kk = true
  | _ => True

def WriteEvs (tfn : List String) (evs : List Ev) : Prop := ∀ e ∈ evs, WriteEv tfn e

/-- Run-level write discipline: every per-record write of the run trace
carries only fields of `tfn`. -/
def RunWritesIn (tfn : List String) (evs : List REv) : Prop :=
  ∀ id payload, REv.recEv id (Ev.write payload) ∈ evs →
    ∀ kk ∈ jkeys payload, tfn.contains kk = true

/-- The trace-free core of a `phase_jd` outcome. -/
def pjCore (o : Option SJRes × String × String × List Ev) :
    Option SJRes × String × String :=
  (o.1, o.2.1, o.2.2.1)

/-- Structural right-strip (equal to `reverse ∘ dropWhile ∘ reverse`):
the form in which the strip in `pyStripL` is analysed. -/
def rstripRec : List Char → List Char
  | [] => []
  | c :: t =>
      match rstripRec t with
      | [] => if isPySpace c then [] else [c]
      | r => c :: r

/-- A list that does not begin with Python whitespace. -/
def FrontOK (l : List Char) : Prop := ∀ c t, l = c :: t → isPySpace c = false

/-- A line part as produced by the per-line strip of the Text Normalizer:
newline-free and strip-fixed. -/
def GoodPart (q : List Char) : Prop := ('\n' ∉ q) ∧ pyStripL q = q

/-- The last three stages of `clean_html_to_text`: per-line strip,
blank-line collapse, overall strip. -/
def canonTail (l : List Char) : List Char :=
  pyStripL (rescan matchBlankRun (stripLinesL l))

/-- No two adjacent parts are both empty. -/
def NoAdjEmpty (ps : List (List Char)) : Prop :=
  List.Chain' (fun a b => ¬(a.isEmpty = true ∧ b.isEmpty = true)) ps

/-- Structural right-trim of empty parts (equal to
`reverse ∘ trimEmptyLeft ∘ reverse`). -/
def trimERc : List (List Char) → List (List Char)
  | [] => []
  | q :: t =>
      match trimERc t with
      | [] => if q.isEmpty then [] else [q]
      | r => q :: r

/-! # Theorems -/

theorem actionForFit_canonical (fit : Int) :
    validActions.contains (actionForFit fit) = true := by
  unfold actionForFit
  split
  · rfl
  · split
    · rfl
    · split
      · rfl
      · rfl

/-- C2 (amended): for every scorer response, the next action produced by
`run_single_scorer` is one of the four canonical literals, and whenever
the raw `next_action` value — after the `.strip()` of line 272 — is not
one of the four canonical literals (or is not a string at all), the
produced action equals the deterministic mapping from the normalized fit
score. -/
theorem next_action_canonical_c2_amended (engine : String) (score : JObj) :
    validActions.contains (scoredResult engine score).next_action = true ∧
    ((∀ s, rawNextAction score = some s → validActions.contains s = false) →
      (scoredResult engine score).next_action = actionForFit (extract_fit_score score)) := by
  constructor
  · show validActions.contains (normalize_next_action score (extract_fit_score score)) = true
    unfold normalize_next_action
    cases h : rawNextAction score with
    | none => exact actionForFit_canonical _
    | some s =>
        show validActions.contains
          (if validActions.contains s = true then s
           else actionForFit (extract_fit_score score)) = true
        by_cases hs : validActions.contains s = true
        · rw [if_pos hs]; exact hs
        · rw [if_neg hs]; exact actionForFit_canonical _
  · intro h
    show normalize_next_action score (extract_fit_score score) = actionForFit _
    unfold normalize_next_action
    cases hr : rawNextAction score with
    | none => rfl
    | some s =>
        show (if validActions.contains s = true then s
              else actionForFit (extract_fit_score score)) =
          actionForFit (extract_fit_score score)
        rw [if_neg (by rw [h s hr]; exact Bool.false_ne_true)]

/-- Witness for C2 (amended) at a response with no next-action string. -/
theorem next_action_canonical_c2_amended_witness :
    (scoredResult "v1" [("fit_score", JVal.int 2)]).next_action =
      actionForFit (extract_fit_score [("fit_score", JVal.int 2)]) :=
  (next_action_canonical_c2_amended "v1" [("fit_score", JVal.int 2)]).2
    (fun _ h => Option.noConfusion h)

/-- C2 counterexample: a response whose `next_action` string `" Apply
Now "` is not one of the four canonical literals is *kept* (stripped to
`"Apply Now"`), not replaced by the fit-score mapping — with fit score 1
the mapping would demand `"Skip"`. -/
theorem next_action_padded_token_kept_c2 :
    run_single_scorer "v1" (fun _ => some c2Score) 0 =
      .ok (scoredResult "v1" c2Score, 1, [.llmScore "v1" false]) ∧
    jget c2Score "next_action" = .str " Apply Now " ∧
    validActions.contains " Apply Now " = false ∧
    (scoredResult "v1" c2Score).fit_score = 1 ∧
    (scoredResult "v1" c2Score).next_action = "Apply Now" ∧
    actionForFit 1 = "Skip" ∧
    ("Apply Now" : String) ≠ "Skip" :=
  ⟨rfl, rfl, rfl, rfl, rfl, rfl, by decide⟩

/-- C7: with a known engine, `run_single_scorer` makes exactly one LLM
call when the first response is valid (no retry); exactly two calls when
the first response is unparsable or incomplete (one retry with the strict
instruction); and when the retry also fails it reports the per-record
error result after exactly two calls — never a third. -/
theorem scorer_single_retry_c7 (engine : String) (oracle : Oracle) (k : Nat)
    (h : load_scorer_prompt_ok engine = .ok ()) :
    (responseOk (oracle k) = true →
      run_single_scorer engine oracle k =
        .ok (scoredResult engine ((oracle k).getD []), k + 1, [.llmScore engine false]) ∧
      (scoredResult engine ((oracle k).getD [])).status = "scored") ∧
    (responseOk (oracle k) = false → responseOk (oracle (k + 1)) = true →
      run_single_scorer engine oracle k =
        .ok (scoredResult engine ((oracle (k + 1)).getD []), k + 2,
          [.llmScore engine false, .llmScore engine true]) ∧
      (scoredResult engine ((oracle (k + 1)).getD [])).status = "scored") ∧
    (responseOk (oracle k) = false → responseOk (oracle (k + 1)) = false →
      run_single_scorer engine oracle k =
        .ok (errorResult engine, k + 2, [.llmScore engine false, .llmScore engine true]) ∧
      (errorResult engine).status = "error") := by
  refine ⟨fun h1 => ⟨?_, rfl⟩, fun h1 h2 => ⟨?_, rfl⟩, fun h1 h2 => ⟨?_, rfl⟩⟩ <;>
    simp [run_single_scorer, h, h1, *]

/-- Witness for C7: invalid first response, valid retry — exactly two
calls and a scored result. -/
theorem scorer_single_retry_c7_witness :
    run_single_scorer "perfecter_v1" (fun n => if n = 0 then none else some c4Fit4Score) 0 =
      .ok (scoredResult "perfecter_v1" c4Fit4Score, 2,
        [.llmScore "perfecter_v1" false, .llmScore "perfecter_v1" true]) :=
  ((scorer_single_retry_c7 "perfecter_v1"
      (fun n => if n = 0 then none else some c4Fit4Score) 0 rfl).2.1 rfl rfl).1

/-- C4 (amended): whenever exactly one of two engine results reports a
hard-gate failure, `select_ab_winner` returns that engine — in either
order, regardless of fit scores. -/
theorem ab_gate_failure_wins_c4_amended (eA eB : String) (rA rB : ScoreResult)
    (hne : eA ≠ eB)
    (hA : is_hard_gate_failure rA eA = .ok false)
    (hB : is_hard_gate_failure rB eB = .ok true) :
    select_ab_winner [(eA, rA), (eB, rB)] [eA, eB] = .ok eB ∧
    select_ab_winner [(eB, rB), (eA, rA)] [eB, eA] = .ok eB := by
  constructor <;>
    simp [select_ab_winner, gateFlags, lookupRes, hne, Ne.symm hne, hA, hB]

/-- Witness for C4 (amended): the spec's scenario — engine A
(`perfecter_v1`) reports fit 4 with no gate failure, engine B (`v1`)
reports fit 1 with clearance-related gap text and a non-canonical action
token, so B's action is the mapped `"Skip"`; B wins. -/
theorem ab_gate_failure_wins_c4_witness :
    select_ab_winner
      [("perfecter_v1", scoredResult "perfecter_v1" c4Fit4Score),
       ("v1", scoredResult "v1" c4GateScore)] ["perfecter_v1", "v1"] = .ok "v1" ∧
    (scoredResult "v1" c4GateScore).next_action = "Skip" ∧
    (scoredResult "v1" c4GateScore).fit_score = 1 ∧
    (scoredResult "perfecter_v1" c4Fit4Score).fit_score = 4 :=
  ⟨(ab_gate_failure_wins_c4_amended "perfecter_v1" "v1"
      (scoredResult "perfecter_v1" c4Fit4Score) (scoredResult "v1" c4GateScore)
      (by decide) rfl rfl).1,
   rfl, rfl, rfl⟩

/-- C4 counterexample: the claim's second half fails in general — the sole
gate-failing engine wins, but its recorded next action need not be
`"Skip"`: a `perfecter_v1` result whose debug marks gates as failed while
carrying fit 4 and action `"Apply Now"` wins with action `"Apply Now"`. -/
theorem ab_winner_action_not_skip_c4 :
    is_hard_gate_failure (scoredResult "v1" c4PlainScore) "v1" = .ok false ∧
    is_hard_gate_failure (scoredResult "perfecter_v1" c4GateNonSkipScore)
      "perfecter_v1" = .ok true ∧
    select_ab_winner
      [("perfecter_v1", scoredResult "perfecter_v1" c4GateNonSkipScore),
       ("v1", scoredResult "v1" c4PlainScore)] ["perfecter_v1", "v1"] =
        .ok "perfecter_v1" ∧
    (scoredResult "perfecter_v1" c4GateNonSkipScore).next_action = "Apply Now" ∧
    ("Apply Now" : String) ≠ "Skip" :=
  ⟨rfl, rfl, rfl, rfl, by decide⟩

theorem lookupJ_jset_self (o : JObj) (k : String) (v : JVal) :
    lookupJ (jset o k v) k = some v := by
  induction o with
  | nil => simp [jset, lookupJ]
  | cons p rest ih =>
      obtain ⟨k2, w⟩ := p
      by_cases h : k2 = k <;> simp [jset, lookupJ, h, ih]

theorem lookupJ_jset_ne (o : JObj) (k w : String) (v : JVal) (h : w ≠ k) :
    lookupJ (jset o k v) w = lookupJ o w := by
  induction o with
  | nil => simp [jset, lookupJ, Ne.symm h]
  | cons p rest ih =>
      obtain ⟨k2, v2⟩ := p
      by_cases h2 : k2 = k
      · subst h2
        simp [jset, lookupJ, Ne.symm h]
      · simp [jset, lookupJ, h2, ih]

theorem lookupJ_foldl_engines_notmem (results : List (String × ScoreResult))
    (w : String) (es : List String) (acc : JObj) (h : w ∉ es) :
    lookupJ (es.foldl (abEnginesStep results) acc) w = lookupJ acc w := by
  induction es generalizing acc with
  | nil => rfl
  | cons e es ih =>
      have hne : w ≠ e := fun hh => h (hh ▸ List.mem_cons_self e es)
      have hw : w ∉ es := fun hm => h (List.mem_cons_of_mem _ hm)
      simp only [List.foldl_cons]
      rw [ih _ hw]
      unfold abEnginesStep
      cases lookupRes results e with
      | none => rfl
      | some r => exact lookupJ_jset_ne _ _ _ _ hne

theorem abEngines_foldl_lookup (results : List (String × ScoreResult)) (w : String)
    (r : ScoreResult) (hr : lookupRes results w = some r) :
    ∀ (ab : List String) (acc : JObj), w ∈ ab →
      lookupJ (ab.foldl (abEnginesStep results) acc) w = some (.obj r.raw_score) := by
  intro ab
  induction ab with
  | nil => intro acc hmem; cases hmem
  | cons e es ih =>
      intro acc hmem
      simp only [List.foldl_cons]
      by_cases hw : w ∈ es
      · exact ih (abEnginesStep results acc e) hw
      · have hwe : w = e := by
          rcases List.mem_cons.mp hmem with h | h
          · exact h
          · exact absurd h hw
        subst hwe
        rw [lookupJ_foldl_engines_notmem results w es _ hw]
        unfold abEnginesStep
        rw [hr]
        exact lookupJ_jset_self _ _ _

theorem abEngines_lookup (results : List (String × ScoreResult)) (ab : List String)
    (w : String) (r : ScoreResult) (hm : w ∈ ab) (hr : lookupRes results w = some r) :
    lookupJ (abEngines results ab) w = some (.obj r.raw_score) :=
  abEngines_foldl_lookup results w r hr ab [] hm

theorem stripEntry_fst (w : String) (p : String × JVal) : (stripEntry w p).1 = p.1 := by
  obtain ⟨k, v⟩ := p
  unfold stripEntry
  by_cases h : k = w
  · rw [if_pos h]
  · rw [if_neg h]
    cases v <;> first | rfl | (split <;> first | rfl | (split <;> rfl))

theorem strip_lookup_winner (engines : JObj) (w : String) :
    lookupJ (stripNonWinnerDebug engines w) w = lookupJ engines w := by
  induction engines with
  | nil => rfl
  | cons p rest ih =>
      obtain ⟨k, v⟩ := p
      simp only [stripNonWinnerDebug, List.map_cons] at ih ⊢
      by_cases h : k = w
      · rw [show stripEntry w (k, v) = (k, v) from if_pos h]
        simp [lookupJ, h]
      · have hf : (stripEntry w (k, v)).1 = k := stripEntry_fst w (k, v)
        cases hse : stripEntry w (k, v) with
        | mk k1 v1 =>
            have hk1 : k1 = k := by rw [← hf, hse]
            subst hk1
            simp [lookupJ, h, ih]

theorem jHasKey_jdel (o : JObj) (k : String) : jHasKey (jdel o k) k = false := by
  induction o with
  | nil => rfl
  | cons p rest ih =>
      obtain ⟨k2, v⟩ := p
      by_cases h : k2 = k <;> simp [jdel, jHasKey, h, ih]

theorem strip_nonwinner_no_debug (engines : JObj) (w e : String) (v : JVal)
    (hmem : (e, v) ∈ stripNonWinnerDebug engines w) (hne : e ≠ w)
    (eo : List (String × JVal)) (hv : v = .obj eo) : jHasKey eo "debug" = false := by
  unfold stripNonWinnerDebug at hmem
  rcases List.mem_map.mp hmem with ⟨⟨k0, v0⟩, hp, heq⟩
  unfold stripEntry at heq
  by_cases hk : k0 = w
  · rw [if_pos hk] at heq
    injection heq with h1 h2
    exact absurd (h1 ▸ hk) hne
  · rw [if_neg hk] at heq
    cases v0 with
    | obj eo0 =>
        by_cases hd : jHasKey eo0 "debug" = true
        · rw [show (match (JVal.obj eo0 : JVal) with
              | .obj eo => if jHasKey eo "debug" then ((k0, JVal.obj eo0).1, JVal.obj (jdel eo "debug"))
                           else (k0, JVal.obj eo0)
              | _ => (k0, JVal.obj eo0)) =
              (if jHasKey eo0 "debug" then (k0, JVal.obj (jdel eo0 "debug"))
               else (k0, JVal.obj eo0)) from rfl, if_pos hd] at heq
          injection heq with h1 h2
          rw [hv] at h2
          injection h2 with h3
          rw [← h3]
          exact jHasKey_jdel eo0 "debug"
        · rw [show (match (JVal.obj eo0 : JVal) with
              | .obj eo => if jHasKey eo "debug" then ((k0, JVal.obj eo0).1, JVal.obj (jdel eo "debug"))
                           else (k0, JVal.obj eo0)
              | _ => (k0, JVal.obj eo0)) =
              (if jHasKey eo0 "debug" then (k0, JVal.obj (jdel eo0 "debug"))
               else (k0, JVal.obj eo0)) from rfl, if_neg hd] at heq
          injection heq with h1 h2
          rw [hv] at h2
          injection h2 with h3
          rw [← h3]
          simpa using hd
    | null =>
        injection heq with h1 h2
        rw [hv] at h2
        exact JVal.noConfusion h2
    | bool b =>
        injection heq with h1 h2
        rw [hv] at h2
        exact JVal.noConfusion h2
    | int n =>
        injection heq with h1 h2
        rw [hv] at h2
        exact JVal.noConfusion h2
    | float q =>
        injection heq with h1 h2
        rw [hv] at h2
        exact JVal.noConfusion h2
    | str s2 =>
        injection heq with h1 h2
        rw [hv] at h2
        exact JVal.noConfusion h2
    | arr xs =>
        injection heq with h1 h2
        rw [hv] at h2
        exact JVal.noConfusion h2

theorem abStage1_from_jset (results : List (String × ScoreResult)) (w : String)
    (engines engines1 hashes rt : JObj) (msg : String) :
    jset (jset (jset (abBase results w engines hashes rt) "TRUNCATED" (.bool true))
        "TRUNCATED_REASON" (.str msg)) "engines" (.obj engines1) =
      abBase results w engines1 hashes rt ++
        [("TRUNCATED", .bool true), ("TRUNCATED_REASON", .str msg)] := rfl

/-- C8: the comparison artifact follows the three-stage truncation ladder.
If the initial sorted-key serialization fits in 90,000 characters it is
returned as-is; otherwise the artifact is re-serialized after removing
the `debug` sub-object from every non-winning engine (and adding the
truncation marker with a size reason); if that still exceeds the cap, the
result collapses to the minimal object holding only the winner's full
result under `engines`, the winner's name, the prompt hashes and the
runtime metadata, marked `TRUNCATED` with a reason string.  The last two
conjuncts pin the stage contents: the minimal object's exact key list,
the removal of `debug` from every non-winning engine at stage 1, and the
winner's untouched full result. -/
theorem ab_artifact_truncation_c8 (results : List (String × ScoreResult))
    (ab : List String) (winner : String) (si : JObj) (engineHash : String → String)
    (now : String) (rt : JObj) (wr : ScoreResult)
    (hrt : runtimeMeta si now = .ok rt)
    (hw : lookupRes results winner = some wr) (hab : winner ∈ ab) :
    (build_scoring_ab_json results ab winner si engineHash now =
      .ok (
        let engines := abEngines results ab
        let hashes := abHashes engineHash results ab
        let s0 := jdump true (.obj (abBase results winner engines hashes rt))
        if s0.length > 90000 then
          let s1 := jdump true (.obj (abStage1 results winner engines hashes rt s0.length))
          if s1.length > 90000 then
            jdump true (.obj (abStageMin winner (.obj wr.raw_score) hashes rt))
          else s1
        else s0)) ∧
    jkeys (abStageMin winner (.obj wr.raw_score) (abHashes engineHash results ab) rt) =
      ["engines", "winner", "hashes", "runtime", "TRUNCATED", "TRUNCATED_REASON"] ∧
    (∀ e v, (e, v) ∈ stripNonWinnerDebug (abEngines results ab) winner → e ≠ winner →
      ∀ eo, v = .obj eo → jHasKey eo "debug" = false) ∧
    lookupJ (stripNonWinnerDebug (abEngines results ab) winner) winner =
      some (.obj wr.raw_score) := by
  have h4 : lookupJ (stripNonWinnerDebug (abEngines results ab) winner) winner =
      some (.obj wr.raw_score) := by
    rw [strip_lookup_winner, abEngines_lookup results ab winner wr hab hw]
  refine ⟨?_, rfl, fun e v hm hne eo hv => strip_nonwinner_no_debug _ _ _ _ hm hne eo hv, h4⟩
  simp only [build_scoring_ab_json, hrt, abStage1_from_jset, h4, abStage1]
  split
  · split <;> rfl
  · rfl

/-- Witness for C8 at a small artifact (below the cap, so the initial
serialization is returned unchanged). -/
theorem ab_artifact_truncation_c8_witness :
    build_scoring_ab_json [("v1", scoredResult "v1" c4Fit4Score)] ["v1"] "v1"
      [("runtime", JVal.obj [("model", JVal.str "m")])] (fun _ => "h") "T0" =
      .ok (jdump true (.obj (abBase [("v1", scoredResult "v1" c4Fit4Score)] "v1"
        (abEngines [("v1", scoredResult "v1" c4Fit4Score)] ["v1"])
        (abHashes (fun _ => "h") [("v1", scoredResult "v1" c4Fit4Score)] ["v1"])
        [("model", JVal.str "m"), ("temperature", JVal.float 0),
         ("timestamp_utc", JVal.str "T0")]))) := by
  have h := (ab_artifact_truncation_c8 [("v1", scoredResult "v1" c4Fit4Score)] ["v1"] "v1"
      [("runtime", JVal.obj [("model", JVal.str "m")])] (fun _ => "h") "T0"
      [("model", JVal.str "m"), ("temperature", JVal.float 0), ("timestamp_utc", JVal.str "T0")]
      (scoredResult "v1" c4Fit4Score) rfl rfl (by simp)).1
  rw [h]
  exact congrArg Except.ok (by decide)

/-- C6 counterexample: a record whose `JobJSON` is non-empty but not
parseable JSON (`utils.safe_parse_json` returns nothing for `"not json"`)
is re-sent to the Job-Structurer LLM — the trace of a dry-run pass starts
with the structuring call. -/
theorem jobjson_cache_counterexample_c6 :
    jgetD c6Rec.fields "JobJSON" (.str "") = .str "not json" ∧
    pyStrip "not json" ≠ "" ∧
    cSafeParseNone "not json" = none ∧
    (score_job_record CLEAN_MIN_LEN cSettings staticTableFieldNames true cSafeParseNone
        cBuildFlags (.obj []) "RUN" "v1" none cEngineHash "T0" cOracleNone 0 c6Rec).2.2 =
      [Ev.llmParse, Ev.llmScore "v1" false, Ev.llmScore "v1" true] :=
  ⟨rfl, by decide, rfl, rfl⟩

/-- C10 counterexample: a record whose raw description cleans to a
non-empty text shorter than 600 characters, but whose
`JobDescriptionText` field is already populated, gets no `SHORT_JD` note
written anywhere (no write touches `NeedsHumanInput`), in a non-dry run
that otherwise scores the record. -/
theorem short_jd_note_counterexample_c10 :
    clean_html_to_text "Short role blurb" ≠ "" ∧
    (clean_html_to_text "Short role blurb").length < 600 ∧
    jgetD c10Rec.fields "JobDescriptionText" (.str "") = .str "Short role blurb" ∧
    evsHaveWriteKey "NeedsHumanInput"
      (score_job_record CLEAN_MIN_LEN cSettings staticTableFieldNames false cSafeParseValid
        cBuildFlags (.obj []) "RUN" "v1" none cEngineHash "T0" cOracleScore 0 c10Rec).2.2 =
      false ∧
    (score_job_record CLEAN_MIN_LEN cSettings staticTableFieldNames false cSafeParseValid
        cBuildFlags (.obj []) "RUN" "v1" none cEngineHash "T0" cOracleScore 0 c10Rec).1 =
      .ok { status := "scored", fit_score := 4, next_action := "Apply" } :=
  ⟨by decide, by decide, rfl, rfl, rfl⟩

/-- C5 counterexample: with a valid candidate profile but an unknown
scorer engine name (`"v2"`), the run is not aborted with zero records —
the job query is issued, the single record is fetched and processed, and
it fails per-record (total 1, errors 1). -/
theorem config_error_abort_counterexample_c5 :
    load_scorer_prompt_ok "v2" = .error (.valueError "Unknown scorer engine: v2") ∧
    (run_scoring cSettings c3Sampled (some cCandidateRec) [c10Rec] cLoadsJson cSafeParseValid
        cBuildFlags cEngineHash "T0" "RUN" cOracleScore 10 false "v2" none).1 =
      .ok ⟨1, 0, 0, 1⟩ ∧
    runListedJobs
      (run_scoring cSettings c3Sampled (some cCandidateRec) [c10Rec] cLoadsJson cSafeParseValid
        cBuildFlags cEngineHash "T0" "RUN" cOracleScore 10 false "v2" none).2 = true :=
  ⟨rfl, rfl, rfl⟩

/-- C3 counterexample: the sampled live field set of the run is `{Foo}`,
yet a write of the run carries `FitScore` — outgoing updates are filtered
against the static allowlist, not against the sampled live set. -/
theorem schema_filter_counterexample_c3 :
    sample_valid_fields c3Sampled = ["Foo"] ∧
    runHasWriteKey "FitScore"
      (run_scoring cSettings c3Sampled (some cCandidateRec) [c10Rec] cLoadsJson cSafeParseValid
        cBuildFlags cEngineHash "T0" "RUN" cOracleScore 10 false "v1" none).2 = true ∧
    (sample_valid_fields c3Sampled).contains "FitScore" = false :=
  ⟨rfl, rfl, rfl⟩

theorem writeKeys_filter (payload : JObj) (tfn : List String) :
    ∀ kk ∈ jkeys (filter_fields_to_table payload tfn).1, tfn.contains kk = true := by
  induction payload with
  | nil => intro kk h; cases h
  | cons p rest ih =>
      obtain ⟨k, v⟩ := p
      intro kk h
      simp only [filter_fields_to_table] at h
      split at h
      · rename_i hc
        rcases (by simpa [jkeys] using h :
            kk = k ∨ kk ∈ jkeys (filter_fields_to_table rest tfn).1) with h1 | h1
        · subst h1; exact hc
        · exact ih kk h1
      · exact ih kk h


theorem TameEv.writeEv {tfn : List String} {e : Ev} (h : TameEv tfn e) : WriteEv tfn e := by
  cases e
  case write payload => exact h
  all_goals trivial

theorem TameEvs.writeEvs {tfn : List String} {evs : List Ev} (h : TameEvs tfn evs) :
    WriteEvs tfn evs := fun e he => (h e he).writeEv

theorem tameEvs_nil (tfn : List String) : TameEvs tfn [] := fun _ h => absurd h (List.not_mem_nil _)

theorem tameEvs_append {tfn : List String} {a b : List Ev}
    (ha : TameEvs tfn a) (hb : TameEvs tfn b) : TameEvs tfn (a ++ b) := by
  intro e he
  rcases List.mem_append.mp he with h | h
  · exact ha e h
  · exact hb e h

theorem tameEvs_fieldDrops (tfn : List String) (ds : List String) :
    TameEvs tfn (ds.map Ev.fieldDrop) := by
  intro e he
  rcases List.mem_map.mp he with ⟨k, _, rfl⟩
  trivial

theorem tameEvs_safe_update (tfn : List String) (dry : Bool) (payload : JObj) :
    TameEvs tfn (safe_update tfn dry payload).2 := by
  simp only [safe_update]
  by_cases h1 : (filter_fields_to_table payload tfn).1.isEmpty = true
  · rw [if_pos h1]
    exact tameEvs_fieldDrops tfn _
  · rw [if_neg h1]
    by_cases h2 : dry = true
    · rw [if_pos h2]
      exact tameEvs_fieldDrops tfn _
    · rw [if_neg h2]
      refine tameEvs_append (tameEvs_fieldDrops tfn _) ?_
      intro e he
      rcases List.mem_singleton.mp he with rfl
      exact writeKeys_filter payload tfn

theorem tameEvs_filterThenUpdate (tfn : List String) (dry : Bool) (payload : JObj) :
    TameEvs tfn (filterThenUpdate tfn dry payload) := by
  simp only [filterThenUpdate]
  by_cases h1 : (filter_fields_to_table payload tfn).1.isEmpty = true
  · rw [if_pos h1]
    exact tameEvs_fieldDrops tfn _
  · rw [if_neg h1]
    exact tameEvs_append (tameEvs_fieldDrops tfn _) (tameEvs_safe_update tfn dry _)

theorem tameEvs_call_one (tfn : List String) (engine : String) :
    TameEvs tfn [Ev.llmScore engine false] := by
  intro e he
  rcases List.mem_singleton.mp he with rfl
  trivial

theorem tameEvs_call_two (tfn : List String) (engine : String) :
    TameEvs tfn [Ev.llmScore engine false, Ev.llmScore engine true] := by
  intro e he
  rcases List.mem_cons.mp he with rfl | he2
  · trivial
  · rcases List.mem_singleton.mp he2 with rfl
    trivial

theorem run_single_scorer_events (engine : String) (oracle : Oracle) (k : Nat)
    (r : ScoreResult) (k2 : Nat) (evs : List Ev)
    (h : run_single_scorer engine oracle k = .ok (r, k2, evs)) :
    evs = [.llmScore engine false] ∨
      evs = [.llmScore engine false, .llmScore engine true] := by
  unfold run_single_scorer at h
  cases hl : load_scorer_prompt_ok engine with
  | error e => rw [hl] at h; cases h
  | ok u =>
      simp only [hl] at h
      by_cases h1 : responseOk (oracle k) = true
      · rw [if_pos h1] at h
        simp only [Except.ok.injEq, Prod.mk.injEq] at h
        exact Or.inl h.2.2.symm
      · rw [if_neg h1] at h
        by_cases h2 : responseOk (oracle (k + 1)) = true
        · rw [if_pos h2] at h
          simp only [Except.ok.injEq, Prod.mk.injEq] at h
          exact Or.inr h.2.2.symm
        · rw [if_neg h2] at h
          simp only [Except.ok.injEq, Prod.mk.injEq] at h
          exact Or.inr h.2.2.symm

theorem tameEvs_mapDrop_update (tfn : List String) (dry : Bool) (payload : JObj) :
    TameEvs tfn ((filter_fields_to_table payload tfn).2.map Ev.fieldDrop ++
      (safe_update tfn dry (filter_fields_to_table payload tfn).1).2) :=
  tameEvs_append (tameEvs_fieldDrops tfn _) (tameEvs_safe_update tfn dry _)

theorem tameEvs_runAbEngines (oracle : Oracle) (tfn : List String) :
    ∀ (ab : List String) (k : Nat), TameEvs tfn (runAbEngines oracle ab k).2.2 := by
  intro ab
  induction ab with
  | nil => intro k; exact tameEvs_nil tfn
  | cons e es ih =>
      intro k
      simp only [runAbEngines]
      split
      · exact tameEvs_nil tfn
      · rename_i r k1 evs1 heq
        have hevs1 : TameEvs tfn evs1 := by
          rcases run_single_scorer_events e oracle k r k1 evs1 heq with h | h
          · rw [h]; exact tameEvs_call_one tfn e
          · rw [h]; exact tameEvs_call_two tfn e
        split
        · rename_i err2 k2 evs2 heq2
          have h2 := ih k1
          rw [heq2] at h2
          exact tameEvs_append hevs1 h2
        · rename_i rest k2 evs2 heq2
          have h2 := ih k1
          rw [heq2] at h2
          exact tameEvs_append hevs1 h2

theorem tameEvs_scoreWrites (tfn : List String) (dry : Bool) (run_id : String)
    (fit : Int) (action : String) (frT gT mN : String)
    (abPart : Option (List (String × ScoreResult) × List String × String))
    (si : JObj) (eh : String → String) (now : String) :
    TameEvs tfn (scoreWrites tfn dry run_id fit action frT gT mN abPart si eh now) := by
  unfold scoreWrites
  by_cases hd : dry = true
  · rw [if_pos hd]; exact tameEvs_nil tfn
  · rw [if_neg hd]
    refine tameEvs_append (tameEvs_append (tameEvs_append (tameEvs_safe_update tfn dry _) ?_) ?_) ?_
    · by_cases h2 : (safe_update tfn dry [("NextAction", JVal.str action)]).1 = true
      · rw [if_pos h2]
        exact tameEvs_safe_update tfn dry _
      · rw [if_neg h2]
        exact tameEvs_append (tameEvs_safe_update tfn dry _) (tameEvs_mapDrop_update tfn dry _)
    · by_cases h3 : (!((if frT ≠ "" then [("FitReasons", JVal.str frT)] else [])
          ++ (if gT ≠ "" then [("GapsRisks", JVal.str gT)] else [])
          ++ (if mN ≠ "" then [("NeedsHumanInput", JVal.str mN)] else []) : JObj).isEmpty) = true
      · rw [if_pos h3]
        exact tameEvs_mapDrop_update tfn dry _
      · rw [if_neg h3]
        exact tameEvs_nil tfn
    · cases abPart with
      | none => exact tameEvs_nil tfn
      | some trip =>
          obtain ⟨results, ab, winner⟩ := trip
          show TameEvs tfn
            (match build_scoring_ab_json results ab winner si eh now with
             | .error _ => []
             | .ok s =>
                 let fd := filter_fields_to_table [("ScoringAB", JVal.str s)] tfn
                 fd.2.map Ev.fieldDrop ++
                   (if fd.1.isEmpty then [] else (safe_update tfn dry fd.1).2))
          cases build_scoring_ab_json results ab winner si eh now with
          | error e => exact tameEvs_nil tfn
          | ok s =>
              refine tameEvs_append (tameEvs_fieldDrops tfn _) ?_
              by_cases h4 : (filter_fields_to_table [("ScoringAB", JVal.str s)] tfn).1.isEmpty = true
              · rw [if_pos h4]
                exact tameEvs_nil tfn
              · rw [if_neg h4]
                exact tameEvs_safe_update tfn dry _

theorem tameEvs_phase_try (settings : Settings) (tfn : List String) (dry : Bool)
    (buildFlags : String → JObj) (candidate : JVal) (run_id : String)
    (scorer_engine : String) (ab_test : Option (List String))
    (engineHash : String → String) (now : String) (oracle : Oracle) (k : Nat)
    (parsed : JObj) (cleaned : String) :
    TameEvs tfn (phase_try settings tfn dry buildFlags candidate run_id scorer_engine
      ab_test engineHash now oracle k parsed cleaned).2.2 := by
  have hp3 : ∀ pf : JObj, TameEvs tfn (if !pf.isEmpty then filterThenUpdate tfn dry pf else []) := by
    intro pf
    split
    · exact tameEvs_filterThenUpdate tfn dry pf
    · exact tameEvs_nil tfn
  cases ab_test with
  | some ab =>
      simp only [phase_try]
      split
      · rename_i e1 k1 evsS heq
        have hS := tameEvs_runAbEngines oracle tfn ab k
        rw [heq] at hS
        exact tameEvs_append (hp3 _) hS
      · rename_i results k1 evsS heq
        have hS := tameEvs_runAbEngines oracle tfn ab k
        rw [heq] at hS
        split
        · exact tameEvs_append (hp3 _) hS
        · split
          · exact tameEvs_append (hp3 _) hS
          · exact tameEvs_append (tameEvs_append (hp3 _) hS)
              (tameEvs_scoreWrites tfn dry run_id _ _ _ _ _ _ _ _ _)
  | none =>
      simp only [phase_try]
      split
      · exact hp3 _
      · rename_i r k1 evsS heq
        have hS : TameEvs tfn evsS := by
          rcases run_single_scorer_events scorer_engine oracle k r k1 evsS heq with h | h
          · rw [h]; exact tameEvs_call_one tfn scorer_engine
          · rw [h]; exact tameEvs_call_two tfn scorer_engine
        split
        · exact tameEvs_append (hp3 _) hS
        · exact tameEvs_append (tameEvs_append (hp3 _) hS)
            (tameEvs_scoreWrites tfn dry run_id _ _ _ _ _ _ _ _ _)
theorem tameEvs_phase_jd (minLen : Nat) (tfn : List String) (dry : Bool) (fields : JObj) :
    ∀ out, phase_jd minLen tfn dry fields = .ok out → TameEvs tfn out.2.2.2 := by
  intro out h
  unfold phase_jd at h
  cases h1 : pyStripAttr (jgetD fields "JobDescriptionRaw" (.str "")) with
  | error e => rw [h1] at h; cases h
  | ok raw =>
      simp only [h1] at h
      by_cases h2 : raw = ""
      · rw [if_pos h2] at h
        injection h with h3
        subst h3
        split
        · exact tameEvs_nil tfn
        · exact tameEvs_filterThenUpdate tfn dry _
      · rw [if_neg h2] at h
        cases h4 : pyStripAttr (jgetD fields "JobDescriptionText" (.str "")) with
        | error e => rw [h4] at h; cases h
        | ok text0 =>
            simp only [h4] at h
            by_cases h5 : text0 = ""
            · rw [if_pos h5] at h
              injection h with h6
              subst h6
              refine tameEvs_append ?_ ?_
              · split
                · exact tameEvs_filterThenUpdate tfn dry _
                · exact tameEvs_nil tfn
              · split
                · exact tameEvs_nil tfn
                · exact tameEvs_filterThenUpdate tfn dry _
            · rw [if_neg h5] at h
              injection h with h6
              subst h6
              exact tameEvs_nil tfn


theorem writeEvs_jobjson_llm (tfn : List String) (dry okb : Bool) (payload : JObj) :
    WriteEvs tfn (([Ev.llmParse] ++
        (if okb then [] else if dry then [] else
          filterThenUpdate tfn dry [("NeedsHumanInput", JVal.str "JOBJSON_PARSE_FAILED")])) ++
      (if dry then [] else filterThenUpdate tfn dry payload)) := by
  intro e he
  rcases List.mem_append.mp he with he1 | he2
  · rcases List.mem_append.mp he1 with he0 | heF
    · rcases List.mem_singleton.mp he0 with rfl
      trivial
    · refine ((?_ : TameEvs tfn _) e heF).writeEv
      split
      · exact tameEvs_nil tfn
      · split
        · exact tameEvs_nil tfn
        · exact tameEvs_filterThenUpdate tfn dry _
  · refine ((?_ : TameEvs tfn _) e he2).writeEv
    split
    · exact tameEvs_nil tfn
    · exact tameEvs_filterThenUpdate tfn dry _

theorem writeEvs_phase_jobjson (tfn : List String) (dry : Bool)
    (safeParse : String → Option JVal) (oracle : Oracle) (k : Nat) (fields : JObj) :
    ∀ out, phase_jobjson tfn dry safeParse oracle k fields = .ok out →
      WriteEvs tfn out.2.2 := by
  intro out h
  unfold phase_jobjson at h
  cases h1 : pyStripAttr (jgetD fields "JobJSON" (.str "")) with
  | error e => rw [h1] at h; cases h
  | ok jraw =>
      simp only [h1] at h
      split at h <;> split at h <;> injection h with h3 <;> subst h3 <;>
        first
          | exact writeEvs_jobjson_llm tfn dry _ _
          | exact fun e he => absurd he (List.not_mem_nil e)

theorem writeEvs_nil (tfn : List String) : WriteEvs tfn [] :=
  fun _ h => absurd h (List.not_mem_nil _)

theorem writeEvs_append {tfn : List String} {a b : List Ev}
    (ha : WriteEvs tfn a) (hb : WriteEvs tfn b) : WriteEvs tfn (a ++ b) := by
  intro e he
  rcases List.mem_append.mp he with h | h
  · exact ha e h
  · exact hb e h

/-- The trace of `score_job_record` respects any per-phase classification
of the `phase_jobjson` events (the other phases are always tame). -/
theorem tameEvs_score_job_record_of (minLen : Nat) (settings : Settings) (tfn : List String)
    (dry : Bool) (safeParse : String → Option JVal) (buildFlags : String → JObj)
    (candidate : JVal) (run_id : String) (scorer_engine : String)
    (ab_test : Option (List String)) (engineHash : String → String) (now : String)
    (oracle : Oracle) (k : Nat) (record : Rec)
    (hjj : ∀ out, phase_jobjson tfn dry safeParse oracle k record.fields = .ok out →
      TameEvs tfn out.2.2) :
    TameEvs tfn (score_job_record minLen settings tfn dry safeParse buildFlags candidate
      run_id scorer_engine ab_test engineHash now oracle k record).2.2 := by
  simp only [score_job_record]
  split
  · exact tameEvs_nil tfn
  · rename_i res x1 x2 evs heq
    exact tameEvs_phase_jd minLen tfn dry record.fields _ heq
  · rename_i text cleaned evs1 heq1
    have h1 := tameEvs_phase_jd minLen tfn dry record.fields _ heq1
    split
    · exact h1
    · rename_i parsed k1 evs2 heq2
      have h2 := hjj _ heq2
      split
      · rename_i res2 k2 evs3 heq3
        have h3 := tameEvs_phase_try settings tfn dry buildFlags candidate run_id
          scorer_engine ab_test engineHash now oracle k1 parsed cleaned
        rw [heq3] at h3
        exact tameEvs_append (tameEvs_append h1 h2) h3
      · rename_i e k2 evs3 heq3
        have h3 := tameEvs_phase_try settings tfn dry buildFlags candidate run_id
          scorer_engine ab_test engineHash now oracle k1 parsed cleaned
        rw [heq3] at h3
        refine tameEvs_append (tameEvs_append (tameEvs_append h1 h2) h3) ?_
        split
        · exact tameEvs_nil tfn
        · exact tameEvs_filterThenUpdate tfn dry _

/-- Every write in the trace of `score_job_record` is filtered against the
field-name set it receives. -/
theorem writeEvs_score_job_record (minLen : Nat) (settings : Settings) (tfn : List String)
    (dry : Bool) (safeParse : String → Option JVal) (buildFlags : String → JObj)
    (candidate : JVal) (run_id : String) (scorer_engine : String)
    (ab_test : Option (List String)) (engineHash : String → String) (now : String)
    (oracle : Oracle) (k : Nat) (record : Rec) :
    WriteEvs tfn (score_job_record minLen settings tfn dry safeParse buildFlags candidate
      run_id scorer_engine ab_test engineHash now oracle k record).2.2 := by
  simp only [score_job_record]
  split
  · exact writeEvs_nil tfn
  · rename_i res x1 x2 evs heq
    exact (tameEvs_phase_jd minLen tfn dry record.fields _ heq).writeEvs
  · rename_i text cleaned evs1 heq1
    have h1 := (tameEvs_phase_jd minLen tfn dry record.fields _ heq1).writeEvs
    split
    · exact h1
    · rename_i parsed k1 evs2 heq2
      have h2 := writeEvs_phase_jobjson tfn dry safeParse oracle k record.fields _ heq2
      split
      · rename_i res2 k2 evs3 heq3
        have h3 := tameEvs_phase_try settings tfn dry buildFlags candidate run_id
          scorer_engine ab_test engineHash now oracle k1 parsed cleaned
        rw [heq3] at h3
        exact writeEvs_append (writeEvs_append h1 h2) h3.writeEvs
      · rename_i e k2 evs3 heq3
        have h3 := tameEvs_phase_try settings tfn dry buildFlags candidate run_id
          scorer_engine ab_test engineHash now oracle k1 parsed cleaned
        rw [heq3] at h3
        refine writeEvs_append (writeEvs_append (writeEvs_append h1 h2) h3.writeEvs) ?_
        refine TameEvs.writeEvs ?_
        split
        · exact tameEvs_nil tfn
        · exact tameEvs_filterThenUpdate tfn dry _

theorem runWrites_nil (tfn : List String) : RunWritesIn tfn [] :=
  fun _ _ h => absurd h (List.not_mem_nil _)

theorem runWrites_append {tfn : List String} {a b : List REv}
    (ha : RunWritesIn tfn a) (hb : RunWritesIn tfn b) : RunWritesIn tfn (a ++ b) := by
  intro id p hm
  rcases List.mem_append.mp hm with h | h
  · exact ha id p h
  · exact hb id p h

theorem runWrites_map {tfn : List String} {evs : List Ev} (h : WriteEvs tfn evs)
    (i : String) : RunWritesIn tfn (evs.map (REv.recEv i)) := by
  intro id payload hmem
  rcases List.mem_map.mp hmem with ⟨e, he, heq⟩
  injection heq with h1 h2
  subst h2
  exact h _ he

theorem writeREvs_processJobs (settings : Settings) (dry : Bool)
    (safeParse : String → Option JVal) (buildFlags : String → JObj) (candidate : JVal)
    (run_id : String) (scorer_engine : String) (ab_test : Option (List String))
    (engineHash : String → String) (now : String) (oracle : Oracle) :
    ∀ (rs : List Rec) (k : Nat),
      RunWritesIn staticTableFieldNames
        (processJobs settings dry safeParse buildFlags candidate run_id scorer_engine
          ab_test engineHash now oracle rs k).2 := by
  intro rs
  induction rs with
  | nil => intro k; exact runWrites_nil _
  | cons r rs ih =>
      intro k
      simp only [processJobs]
      split
      · rename_i e x evs heq
        have hw := writeEvs_score_job_record CLEAN_MIN_LEN settings staticTableFieldNames
          dry safeParse buildFlags candidate run_id scorer_engine ab_test engineHash now
          oracle k r
        rw [heq] at hw
        exact runWrites_map hw r.id
      · rename_i res k1 evs heq
        have hw := writeEvs_score_job_record CLEAN_MIN_LEN settings staticTableFieldNames
          dry safeParse buildFlags candidate run_id scorer_engine ab_test engineHash now
          oracle k r
        rw [heq] at hw
        split
        · rename_i e evs2 heq2
          have h2 := ih k1
          rw [heq2] at h2
          exact runWrites_append (runWrites_map hw r.id) h2
        · rename_i trip evs2 heq2
          have h2 := ih k1
          rw [heq2] at h2
          exact runWrites_append (runWrites_map hw r.id) h2

theorem runWrites_evs0 (tfn : List String) :
    RunWritesIn tfn [REv.sampleFields, REv.findCandidate] := by
  intro id p hm
  rcases List.mem_cons.mp hm with h | hm2
  · cases h
  · rcases List.mem_singleton.mp hm2 with h
    cases h

theorem runWrites_listJobs (tfn : List String) : RunWritesIn tfn [REv.listJobs] := by
  intro id p hm
  rcases List.mem_singleton.mp hm with h
  cases h

theorem run_writes_core (settings : Settings) (sampled : List Rec)
    (candidateRecord : Option Rec) (jobs : List Rec) (loadsJson : String → Option JVal)
    (safeParse : String → Option JVal) (buildFlags : String → JObj)
    (engineHash : String → String) (now : String) (run_id : String) (oracle : Oracle)
    (maxJobs : Nat) (dry : Bool) (scorer_engine : String) (ab_test : Option (List String)) :
    (∃ rest, (run_scoring settings sampled candidateRecord jobs loadsJson safeParse
        buildFlags engineHash now run_id oracle maxJobs dry scorer_engine ab_test).2 =
      REv.sampleFields :: REv.findCandidate :: rest) ∧
    RunWritesIn staticTableFieldNames
      (run_scoring settings sampled candidateRecord jobs loadsJson safeParse buildFlags
        engineHash now run_id oracle maxJobs dry scorer_engine ab_test).2 := by
  simp only [run_scoring]
  split
  · exact ⟨⟨[], rfl⟩, runWrites_evs0 _⟩
  · rename_i cand
    split
    · exact ⟨⟨[], rfl⟩, runWrites_evs0 _⟩
    · split
      · rename_i s hCj
        split
        · exact ⟨⟨[], rfl⟩, runWrites_evs0 _⟩
        · rename_i candidate hLoads
          split
          · rename_i e evsP heq
            have hP := writeREvs_processJobs settings dry safeParse buildFlags candidate
              run_id scorer_engine ab_test engineHash now oracle (jobs.take maxJobs) 0
            rw [heq] at hP
            exact ⟨⟨_, rfl⟩,
              runWrites_append (runWrites_append (runWrites_evs0 _) (runWrites_listJobs _)) hP⟩
          · rename_i trip evsP heq
            have hP := writeREvs_processJobs settings dry safeParse buildFlags candidate
              run_id scorer_engine ab_test engineHash now oracle (jobs.take maxJobs) 0
            rw [heq] at hP
            exact ⟨⟨_, rfl⟩,
              runWrites_append (runWrites_append (runWrites_evs0 _) (runWrites_listJobs _)) hP⟩
      · exact ⟨⟨[], rfl⟩, runWrites_evs0 _⟩

theorem filter_fields_spec (payload : JObj) (tfn : List String) :
    (filter_fields_to_table payload tfn).1 = payload.filter (fun p => tfn.contains p.1) ∧
    (filter_fields_to_table payload tfn).2 =
      (payload.filter (fun p => !tfn.contains p.1)).map Prod.fst := by
  induction payload with
  | nil => exact ⟨rfl, rfl⟩
  | cons p rest ih =>
      obtain ⟨k, v⟩ := p
      cases hc : tfn.contains k with
      | true =>
          have hm : k ∈ tfn := by simpa using hc
          simp [filter_fields_to_table, List.filter_cons, hm, ih.1, ih.2]
      | false =>
          have hm : ¬ k ∈ tfn := by simpa using hc
          simp [filter_fields_to_table, List.filter_cons, hm, ih.1, ih.2]

/-- C3 (amended): the run samples the live field set (and locates the
candidate) before any job is processed, but every outgoing write of the
run is filtered against the static table allowlist
`staticTableFieldNames`, not against the sampled set; the filter keeps
exactly the allowlisted fields of each payload and logs every dropped
field name individually. -/
theorem schema_filter_c3_amended (settings : Settings) (sampled : List Rec)
    (candidateRecord : Option Rec) (jobs : List Rec) (loadsJson : String → Option JVal)
    (safeParse : String → Option JVal) (buildFlags : String → JObj)
    (engineHash : String → String) (now : String) (run_id : String) (oracle : Oracle)
    (maxJobs : Nat) (dry : Bool) (scorer_engine : String) (ab_test : Option (List String)) :
    (∃ rest, (run_scoring settings sampled candidateRecord jobs loadsJson safeParse
        buildFlags engineHash now run_id oracle maxJobs dry scorer_engine ab_test).2 =
      REv.sampleFields :: REv.findCandidate :: rest) ∧
    RunWritesIn staticTableFieldNames
      (run_scoring settings sampled candidateRecord jobs loadsJson safeParse buildFlags
        engineHash now run_id oracle maxJobs dry scorer_engine ab_test).2 ∧
    (∀ payload tfn, (filter_fields_to_table payload tfn).1 =
        payload.filter (fun p => tfn.contains p.1) ∧
      (filter_fields_to_table payload tfn).2 =
        (payload.filter (fun p => !tfn.contains p.1)).map Prod.fst) :=
  ⟨(run_writes_core settings sampled candidateRecord jobs loadsJson safeParse buildFlags
      engineHash now run_id oracle maxJobs dry scorer_engine ab_test).1,
   (run_writes_core settings sampled candidateRecord jobs loadsJson safeParse buildFlags
      engineHash now run_id oracle maxJobs dry scorer_engine ab_test).2,
   fun payload tfn => filter_fields_spec payload tfn⟩

theorem run_single_scorer_load_error (engine : String) (oracle : Oracle) (k : Nat)
    (err : PyExc) (h : load_scorer_prompt_ok engine = .error err) :
    run_single_scorer engine oracle k = .error err := by
  unfold run_single_scorer
  rw [h]

theorem phase_try_engine_error (settings : Settings) (tfn : List String) (dry : Bool)
    (buildFlags : String → JObj) (candidate : JVal) (run_id : String)
    (scorer_engine : String) (engineHash : String → String) (now : String)
    (oracle : Oracle) (k : Nat) (parsed : JObj) (cleaned : String) (err : PyExc)
    (h : load_scorer_prompt_ok scorer_engine = .error err) :
    ∃ evs, phase_try settings tfn dry buildFlags candidate run_id scorer_engine
      none engineHash now oracle k parsed cleaned = (.error err, k, evs) := by
  simp only [phase_try]
  rw [run_single_scorer_load_error scorer_engine oracle k err h]
  exact ⟨_, rfl⟩

/-- C5 (amended): a missing candidate profile aborts the run with a
`RuntimeError` before any job is listed, and a falsy or unparsable
`CandidateJSON` ends the run with zero records processed and a single
counted error, again before any job is listed; but an unknown scorer
engine name does not abort the run — the engine lookup raises inside the
per-record handler, so the record gets an error outcome while the run
continues to completion. -/
theorem config_error_c5_amended (settings : Settings) (sampled : List Rec)
    (jobs : List Rec) (loadsJson safeParse : String → Option JVal)
    (buildFlags : String → JObj) (engineHash : String → String) (now run_id : String)
    (oracle : Oracle) (maxJobs : Nat) (dry : Bool) (scorer_engine : String)
    (ab_test : Option (List String)) (cand : Rec) :
    (run_scoring settings sampled none jobs loadsJson safeParse buildFlags engineHash
        now run_id oracle maxJobs dry scorer_engine ab_test =
      (.error (.runtimeError "CandidateProfile not found"),
        [REv.sampleFields, REv.findCandidate])) ∧
    (truthy (jget cand.fields "CandidateJSON") = false →
      run_scoring settings sampled (some cand) jobs loadsJson safeParse buildFlags
          engineHash now run_id oracle maxJobs dry scorer_engine ab_test =
        (.ok ⟨0, 0, 0, 1⟩, [REv.sampleFields, REv.findCandidate])) ∧
    (∀ s, jget cand.fields "CandidateJSON" = .str s → loadsJson s = none →
      run_scoring settings sampled (some cand) jobs loadsJson safeParse buildFlags
          engineHash now run_id oracle maxJobs dry scorer_engine ab_test =
        (.ok ⟨0, 0, 0, 1⟩, [REv.sampleFields, REv.findCandidate])) ∧
    (∀ err minLen tfn candidateJ k record,
      load_scorer_prompt_ok scorer_engine = .error err →
      ∀ text cleaned evs1,
        phase_jd minLen tfn dry record.fields = .ok (none, text, cleaned, evs1) →
      ∀ parsed k1 evs2,
        phase_jobjson tfn dry safeParse oracle k record.fields = .ok (parsed, k1, evs2) →
      (score_job_record minLen settings tfn dry safeParse buildFlags candidateJ run_id
          scorer_engine none engineHash now oracle k record).1 =
        .ok { status := "error", reason := pyExcMsg err }) := by
  refine ⟨rfl, ?_, ?_, ?_⟩
  · intro h
    simp [run_scoring, h]
  · intro s hs hl
    simp only [run_scoring, hs]
    cases htr : truthy (JVal.str s) with
    | false => rfl
    | true =>
        simp only [hl]
        rfl
  · intro err minLen tfn candidateJ k record hload text cleaned evs1 hjd parsed k1 evs2 hjj
    obtain ⟨evs3, hpt⟩ := phase_try_engine_error settings tfn dry buildFlags candidateJ
      run_id scorer_engine engineHash now oracle k1 parsed cleaned err hload
    simp only [score_job_record, hjd, hjj, hpt]

theorem config_error_c5_amended_witness :
    load_scorer_prompt_ok "v2" = .error (.valueError "Unknown scorer engine: v2") ∧
    (run_scoring cSettings c3Sampled none [c10Rec] cLoadsJson cSafeParseValid cBuildFlags
        cEngineHash "T0" "RUN" cOracleScore 10 false "v2" none =
      (.error (.runtimeError "CandidateProfile not found"),
        [REv.sampleFields, REv.findCandidate])) ∧
    (run_scoring cSettings c3Sampled (some cBadCandidateRec) [c10Rec] cLoadsJson
        cSafeParseValid cBuildFlags cEngineHash "T0" "RUN" cOracleScore 10 false "v2" none =
      (.ok ⟨0, 0, 0, 1⟩, [REv.sampleFields, REv.findCandidate])) ∧
    (score_job_record CLEAN_MIN_LEN cSettings staticTableFieldNames false cSafeParseValid
        cBuildFlags (.obj []) "RUN" "v2" none cEngineHash "T0" cOracleScore 0 c10Rec).1 =
      .ok { status := "error", reason := "Unknown scorer engine: v2" } :=
  ⟨rfl,
   (config_error_c5_amended cSettings c3Sampled [c10Rec] cLoadsJson cSafeParseValid
      cBuildFlags cEngineHash "T0" "RUN" cOracleScore 10 false "v2" none cBadCandidateRec).1,
   (config_error_c5_amended cSettings c3Sampled [c10Rec] cLoadsJson cSafeParseValid
      cBuildFlags cEngineHash "T0" "RUN" cOracleScore 10 false "v2" none
      cBadCandidateRec).2.2.1 "oops" rfl rfl,
   (config_error_c5_amended cSettings c3Sampled [c10Rec] cLoadsJson cSafeParseValid
      cBuildFlags cEngineHash "T0" "RUN" cOracleScore 10 false "v2" none
      cBadCandidateRec).2.2.2 (.valueError "Unknown scorer engine: v2") CLEAN_MIN_LEN
      staticTableFieldNames (.obj []) 0 c10Rec rfl _ _ _ rfl _ _ _ rfl⟩

theorem phase_jobjson_cached (tfn : List String) (dry : Bool)
    (safeParse : String → Option JVal) (oracle : Oracle) (k : Nat) (fields : JObj)
    (jraw : String) (o : JObj)
    (h1 : pyStripAttr (jgetD fields "JobJSON" (.str "")) = .ok jraw)
    (h2 : jraw ≠ "") (h3 : safeParse jraw = some (.obj o)) (h4 : o.isEmpty = false) :
    phase_jobjson tfn dry safeParse oracle k fields = .ok (o, k, []) := by
  unfold phase_jobjson
  simp only [h1]
  rw [if_pos h2]
  simp only [h3]
  rw [h4]
  rfl

/-- C6 (amended): a record whose stored `JobJSON` strips to a non-empty
string that parses to a non-empty JSON object is never re-sent to the Job
Structurer — `score_job_record` emits no `llmParse` call for it.  (A
non-empty but unparsable or non-object `JobJSON` is re-structured, so
non-emptiness of the stored string alone does not prevent the call.) -/
theorem jobjson_cache_c6_amended (minLen : Nat) (settings : Settings) (tfn : List String)
    (dry : Bool) (safeParse : String → Option JVal) (buildFlags : String → JObj)
    (candidate : JVal) (run_id : String) (scorer_engine : String)
    (ab_test : Option (List String)) (engineHash : String → String) (now : String)
    (oracle : Oracle) (k : Nat) (record : Rec) (jraw : String) (o : JObj)
    (h1 : pyStripAttr (jgetD record.fields "JobJSON" (.str "")) = .ok jraw)
    (h2 : jraw ≠ "") (h3 : safeParse jraw = some (.obj o)) (h4 : o.isEmpty = false) :
    Ev.llmParse ∉ (score_job_record minLen settings tfn dry safeParse buildFlags candidate
      run_id scorer_engine ab_test engineHash now oracle k record).2.2 := by
  intro hmem
  have htame : TameEvs tfn (score_job_record minLen settings tfn dry safeParse buildFlags
      candidate run_id scorer_engine ab_test engineHash now oracle k record).2.2 := by
    refine tameEvs_score_job_record_of minLen settings tfn dry safeParse buildFlags
      candidate run_id scorer_engine ab_test engineHash now oracle k record ?_
    intro out hout
    rw [phase_jobjson_cached tfn dry safeParse oracle k record.fields jraw o h1 h2 h3 h4]
      at hout
    injection hout with hout2
    subst hout2
    exact tameEvs_nil tfn
  exact htame Ev.llmParse hmem

theorem jobjson_cache_c6_amended_witness :
    pyStripAttr (jgetD c10Rec.fields "JobJSON" (.str "")) = .ok "cached" ∧
    cSafeParseValid "cached" = some (.obj [("company", .str "Acme")]) ∧
    Ev.llmParse ∉ (score_job_record CLEAN_MIN_LEN cSettings staticTableFieldNames false
      cSafeParseValid cBuildFlags (.obj []) "RUN" "v1" none cEngineHash "T0" cOracleScore
      0 c10Rec).2.2 :=
  ⟨rfl, rfl,
   jobjson_cache_c6_amended CLEAN_MIN_LEN cSettings staticTableFieldNames false
     cSafeParseValid cBuildFlags (.obj []) "RUN" "v1" none cEngineHash "T0" cOracleScore
     0 c10Rec "cached" [("company", .str "Acme")] rfl (by decide) rfl rfl⟩

theorem phase_jd_core_eq (m1 m2 : Nat) (tfn : List String) (dry : Bool) (fields : JObj) :
    (phase_jd m1 tfn dry fields).map pjCore = (phase_jd m2 tfn dry fields).map pjCore := by
  unfold phase_jd
  cases pyStripAttr (jgetD fields "JobDescriptionRaw" (.str "")) with
  | error e => rfl
  | ok raw =>
      by_cases h2 : raw = ""
      · simp only [if_pos h2]
      · simp only [if_neg h2]
        cases pyStripAttr (jgetD fields "JobDescriptionText" (.str "")) with
        | error e => rfl
        | ok text0 =>
            by_cases h5 : text0 = ""
            · simp only [if_pos h5]
              rfl
            · simp only [if_neg h5]

theorem score_jr_minLen (m1 m2 : Nat) (settings : Settings) (tfn : List String)
    (dry : Bool) (safeParse : String → Option JVal) (buildFlags : String → JObj)
    (candidate : JVal) (run_id : String) (scorer_engine : String)
    (ab_test : Option (List String)) (engineHash : String → String) (now : String)
    (oracle : Oracle) (k : Nat) (record : Rec) :
    (score_job_record m1 settings tfn dry safeParse buildFlags candidate run_id
        scorer_engine ab_test engineHash now oracle k record).1 =
      (score_job_record m2 settings tfn dry safeParse buildFlags candidate run_id
        scorer_engine ab_test engineHash now oracle k record).1 := by
  have hcore := phase_jd_core_eq m1 m2 tfn dry record.fields
  simp only [score_job_record]
  cases h1 : phase_jd m1 tfn dry record.fields with
  | error e =>
      cases h2 : phase_jd m2 tfn dry record.fields with
      | error e2 =>
          rw [h1, h2] at hcore
          simp only [Except.map] at hcore
          injection hcore with hc
          subst hc
          rfl
      | ok o2 =>
          rw [h1, h2] at hcore
          simp only [Except.map] at hcore
          cases hcore
  | ok o1 =>
      obtain ⟨ores1, t1, c1, evs1⟩ := o1
      cases h2 : phase_jd m2 tfn dry record.fields with
      | error e2 =>
          rw [h1, h2] at hcore
          simp only [Except.map] at hcore
          cases hcore
      | ok o2 =>
          obtain ⟨ores2, t2, c2, evs2⟩ := o2
          rw [h1, h2] at hcore
          simp only [Except.map, pjCore] at hcore
          injection hcore with hc
          injection hc with ho hc2
          injection hc2 with ht hcc
          subst ho
          subst ht
          subst hcc
          cases ores1 with
          | some res => rfl
          | none =>
              cases h3 : phase_jobjson tfn dry safeParse oracle k record.fields with
              | error e3 => rfl
              | ok trip =>
                  obtain ⟨parsed, k1, evs2j⟩ := trip
                  simp only [h3]
                  cases h4 : phase_try settings tfn dry buildFlags candidate run_id
                      scorer_engine ab_test engineHash now oracle k1 parsed c1 with
                  | mk res4 rest4 =>
                      obtain ⟨k4, evs4⟩ := rest4
                      cases res4 with
                      | error e4 => rfl
                      | ok res => rfl

/-- C10 (amended): when the raw description is non-empty and there is no
cached `JobDescriptionText`, a cleaned text shorter than the minimum
length gets the `SHORT_JD_SCORING` note filtered-and-written to
`NeedsHumanInput` in a non-dry run, while the phase outcome stays `none`
(the record proceeds to structuring and scoring); the minimum-length
parameter never changes the record's scoring outcome.  A record whose
`JobDescriptionText` is already populated skips the short-JD check
entirely, so no note is written for it even when its cleaned raw text is
short. -/
theorem short_jd_note_c10_amended (minLen m2 : Nat) (settings : Settings)
    (tfn : List String) (dry : Bool) (safeParse : String → Option JVal)
    (buildFlags : String → JObj) (candidate : JVal) (run_id scorer_engine : String)
    (ab_test : Option (List String)) (engineHash : String → String) (now : String)
    (oracle : Oracle) (k : Nat) (record : Rec) (raw text0 : String)
    (h1 : pyStripAttr (jgetD record.fields "JobDescriptionRaw" (.str "")) = .ok raw)
    (h2 : raw ≠ "") :
    ((pyStripAttr (jgetD record.fields "JobDescriptionText" (.str "")) = .ok "") →
      (clean_html_to_text raw).length < minLen →
      phase_jd minLen tfn false record.fields =
        .ok (none, clean_html_to_text raw, clean_html_to_text raw,
          filterThenUpdate tfn false
              [("NeedsHumanInput",
                .str ("SHORT_JD_SCORING len=" ++ toString (clean_html_to_text raw).length))]
            ++ filterThenUpdate tfn false
              [("JobDescriptionText", .str (clean_html_to_text raw))])) ∧
    ((pyStripAttr (jgetD record.fields "JobDescriptionText" (.str "")) = .ok text0) →
      text0 ≠ "" →
      phase_jd minLen tfn false record.fields =
        .ok (none, text0, clean_html_to_text raw, [])) ∧
    ((score_job_record minLen settings tfn dry safeParse buildFlags candidate run_id
        scorer_engine ab_test engineHash now oracle k record).1 =
      (score_job_record m2 settings tfn dry safeParse buildFlags candidate run_id
        scorer_engine ab_test engineHash now oracle k record).1) := by
  refine ⟨?_, ?_, ?_⟩
  · intro ht hlen
    have hcond : (decide ((clean_html_to_text raw).length < minLen) && !false) = true := by
      simp [hlen]
    unfold phase_jd
    simp only [h1]
    rw [if_neg h2]
    simp only [ht]
    rw [if_pos True.intro, if_pos hcond]
    rfl
  · intro ht h5
    unfold phase_jd
    simp only [h1]
    rw [if_neg h2]
    simp only [ht]
    rw [if_neg h5]
  · exact score_jr_minLen minLen m2 settings tfn dry safeParse buildFlags candidate
      run_id scorer_engine ab_test engineHash now oracle k record

theorem short_jd_note_c10_amended_witness :
    (clean_html_to_text "Short role blurb").length < 600 ∧
    phase_jd 600 staticTableFieldNames false c10FreshRec.fields =
      .ok (none, clean_html_to_text "Short role blurb", clean_html_to_text "Short role blurb",
        filterThenUpdate staticTableFieldNames false
            [("NeedsHumanInput", .str ("SHORT_JD_SCORING len="
              ++ toString (clean_html_to_text "Short role blurb").length))]
          ++ filterThenUpdate staticTableFieldNames false
            [("JobDescriptionText", .str (clean_html_to_text "Short role blurb"))]) ∧
    (score_job_record 600 cSettings staticTableFieldNames false cSafeParseValid cBuildFlags
        (.obj []) "RUN" "v1" none cEngineHash "T0" cOracleScore 0 c10FreshRec).1 =
      (score_job_record 0 cSettings staticTableFieldNames false cSafeParseValid cBuildFlags
        (.obj []) "RUN" "v1" none cEngineHash "T0" cOracleScore 0 c10FreshRec).1 :=
  ⟨by decide,
   (short_jd_note_c10_amended 600 0 cSettings staticTableFieldNames false cSafeParseValid
      cBuildFlags (.obj []) "RUN" "v1" none cEngineHash "T0" cOracleScore 0 c10FreshRec
      "Short role blurb" "" rfl (by decide)).1 rfl (by decide),
   (short_jd_note_c10_amended 600 0 cSettings staticTableFieldNames false cSafeParseValid
      cBuildFlags (.obj []) "RUN" "v1" none cEngineHash "T0" cOracleScore 0 c10FreshRec
      "Short role blurb" "" rfl (by decide)).2.2⟩

/-! ## Strip algebra for the Text Normalizer -/

theorem dropWhile_append_eq (p : Char → Bool) :
    ∀ l1 l2 : List Char, (l1 ++ l2).dropWhile p =
      if (l1.dropWhile p).isEmpty then l2.dropWhile p else l1.dropWhile p ++ l2 := by
  intro l1
  induction l1 with
  | nil => intro l2; simp
  | cons a l ih =>
      intro l2
      by_cases hpa : p a = true
      · simp [List.dropWhile_cons, hpa, ih l2]
      · simp [List.dropWhile_cons, hpa]

theorem rstripRec_eq : ∀ l : List Char,
    (l.reverse.dropWhile isPySpace).reverse = rstripRec l := by
  intro l
  induction l with
  | nil => rfl
  | cons c t ih =>
      rw [List.reverse_cons, dropWhile_append_eq]
      by_cases he : (t.reverse.dropWhile isPySpace).isEmpty = true
      · rw [if_pos he]
        have ht : rstripRec t = [] := by
          rw [← ih]
          simp [List.isEmpty_iff.mp he]
        simp only [rstripRec, ht]
        by_cases hpc : isPySpace c = true
        · simp [List.dropWhile_cons, hpc]
        · simp [List.dropWhile_cons, hpc]
      · rw [if_neg he]
        cases hr : rstripRec t with
        | nil =>
            rw [← ih] at hr
            exact absurd (by simp [List.reverse_eq_nil_iff.mp hr]) he
        | cons a b =>
            simp only [rstripRec, hr, List.reverse_append, List.reverse_cons,
              List.reverse_nil, List.nil_append, List.singleton_append, ih, hr]

theorem pyStripL_eq_rstrip (l : List Char) :
    pyStripL l = rstripRec (l.dropWhile isPySpace) := by
  rw [pyStripL, rstripRec_eq]

theorem frontok_dropWhile (l : List Char) : FrontOK (l.dropWhile isPySpace) := by
  induction l with
  | nil => intro c t h; cases h
  | cons a l ih =>
      by_cases hpa : isPySpace a = true
      · rw [List.dropWhile_cons, if_pos hpa]; exact ih
      · rw [List.dropWhile_cons, if_neg hpa]
        intro c t h
        injection h with h1 h2
        subst h1
        exact Bool.eq_false_iff.mpr hpa

theorem dropWhile_of_frontok {l : List Char} (h : FrontOK l) :
    l.dropWhile isPySpace = l := by
  cases l with
  | nil => rfl
  | cons c t => rw [List.dropWhile_cons, if_neg (by simp [h c t rfl])]

theorem frontok_rstrip {m : List Char} (h : FrontOK m) : FrontOK (rstripRec m) := by
  induction m with
  | nil => exact h
  | cons c t ih =>
      have hc : isPySpace c = false := h c t rfl
      simp only [rstripRec]
      cases hr : rstripRec t with
      | nil =>
          rw [if_neg (by simp [hc])]
          intro c2 t2 h2
          injection h2 with h3 h4
          subst h3
          exact hc
      | cons a b =>
          intro c2 t2 h2
          injection h2 with h3 h4
          subst h3
          exact hc

theorem frontok_append {l l2 : List Char} (h : FrontOK l) (hne : l ≠ []) :
    FrontOK (l ++ l2) := by
  cases l with
  | nil => exact absurd rfl hne
  | cons x y =>
      intro c t hct
      injection hct with h1 h2
      subst h1
      exact h x y rfl

theorem backok_rstrip : ∀ m : List Char, FrontOK (rstripRec m).reverse := by
  intro m
  induction m with
  | nil => intro c t h; cases h
  | cons c t ih =>
      simp only [rstripRec]
      cases hr : rstripRec t with
      | nil =>
          by_cases hpc : isPySpace c = true
          · rw [if_pos hpc]; intro c2 t2 h2; cases h2
          · rw [if_neg (by simp [hpc])]
            intro c2 t2 h2
            injection h2 with h3 h4
            subst h3
            exact Bool.eq_false_iff.mpr hpc
      | cons a b =>
          rw [hr] at ih
          show FrontOK ((c :: a :: b).reverse)
          rw [List.reverse_cons]
          exact frontok_append ih (by simp)

theorem rstripRec_cons_of_cons {t : List Char} {a c : Char} {b : List Char}
    (h : rstripRec t = a :: b) : rstripRec (c :: t) = c :: a :: b := by
  simp only [rstripRec, h]

theorem rstrip_rstrip : ∀ m : List Char, rstripRec (rstripRec m) = rstripRec m := by
  intro m
  induction m with
  | nil => rfl
  | cons c t ih =>
      simp only [rstripRec]
      cases hr : rstripRec t with
      | nil =>
          by_cases hpc : isPySpace c = true
          · rw [if_pos hpc]; rfl
          · rw [if_neg (by simp [hpc])]
            simp [rstripRec, hpc]
      | cons a b =>
          rw [hr] at ih
          show rstripRec (c :: a :: b) = c :: a :: b
          exact rstripRec_cons_of_cons ih

theorem pyStripL_idem (l : List Char) : pyStripL (pyStripL l) = pyStripL l := by
  rw [pyStripL_eq_rstrip l, pyStripL_eq_rstrip,
    dropWhile_of_frontok (frontok_rstrip (frontok_dropWhile l)), rstrip_rstrip]

theorem frontok_stripped {q : List Char} (h : pyStripL q = q) : FrontOK q := by
  rw [← h, pyStripL_eq_rstrip]
  exact frontok_rstrip (frontok_dropWhile q)

theorem backok_stripped {q : List Char} (h : pyStripL q = q) : FrontOK q.reverse := by
  rw [← h, pyStripL_eq_rstrip]
  exact backok_rstrip _

theorem mem_dropWhile {c : Char} {p : Char → Bool} :
    ∀ {l : List Char}, c ∈ l.dropWhile p → c ∈ l := by
  intro l
  induction l with
  | nil => intro h; exact h
  | cons a t ih =>
      intro h
      rw [List.dropWhile_cons] at h
      by_cases hpa : p a = true
      · rw [if_pos hpa] at h
        exact List.mem_cons_of_mem a (ih h)
      · rw [if_neg hpa] at h
        exact h

theorem mem_pyStripL {c : Char} {l : List Char} (h : c ∈ pyStripL l) : c ∈ l := by
  rw [pyStripL] at h
  rw [List.mem_reverse] at h
  have h2 := mem_dropWhile h
  rw [List.mem_reverse] at h2
  exact mem_dropWhile h2

theorem goodPart_pyStripL {q : List Char} (h : '\n' ∉ q) : GoodPart (pyStripL q) :=
  ⟨fun hm => h (mem_pyStripL hm), pyStripL_idem q⟩

theorem goodPart_nil : GoodPart [] := ⟨by simp, rfl⟩

/-! ## Line split and join -/

theorem splitNL_ne_nil : ∀ l : List Char, splitNL l ≠ [] := by
  intro l
  induction l with
  | nil => simp [splitNL]
  | cons c t ih =>
      simp only [splitNL]
      by_cases hc : c = '\n'
      · rw [if_pos hc]; simp
      · rw [if_neg hc]
        cases hs : splitNL t with
        | nil => simp
        | cons p ps => simp

theorem mem_splitNL {c : Char} : ∀ {l q : List Char}, q ∈ splitNL l → c ∈ q → c ∈ l := by
  intro l
  induction l with
  | nil =>
      intro q hq hc
      simp [splitNL] at hq
      subst hq
      exact absurd hc (List.not_mem_nil c)
  | cons a t ih =>
      intro q hq hc
      simp only [splitNL] at hq
      by_cases ha : a = '\n'
      · rw [if_pos ha] at hq
        rcases List.mem_cons.mp hq with h1 | h1
        · subst h1; exact absurd hc (List.not_mem_nil c)
        · exact List.mem_cons_of_mem a (ih h1 hc)
      · rw [if_neg ha] at hq
        cases hs : splitNL t with
        | nil => exact absurd hs (splitNL_ne_nil t)
        | cons p ps =>
            rw [hs] at hq
            rcases List.mem_cons.mp hq with h1 | h1
            · subst h1
              rcases List.mem_cons.mp hc with h2 | h2
              · subst h2; exact List.mem_cons_self _ _
              · exact List.mem_cons_of_mem a
                  (ih (by rw [hs]; exact List.mem_cons_self p ps) h2)
            · exact List.mem_cons_of_mem a
                (ih (by rw [hs]; exact List.mem_cons_of_mem p h1) hc)

theorem splitNL_nl_free : ∀ (l : List Char), ∀ q ∈ splitNL l, '\n' ∉ q := by
  intro l
  induction l with
  | nil =>
      intro q hq
      simp only [splitNL, List.mem_singleton] at hq
      subst hq
      exact List.not_mem_nil _
  | cons a t ih =>
      intro q hq
      simp only [splitNL] at hq
      by_cases ha : a = '\n'
      · rw [if_pos ha] at hq
        rcases List.mem_cons.mp hq with h1 | h1
        · subst h1; exact List.not_mem_nil _
        · exact ih q h1
      · rw [if_neg ha] at hq
        cases hs : splitNL t with
        | nil => exact absurd hs (splitNL_ne_nil t)
        | cons p ps =>
            rw [hs] at hq
            rcases List.mem_cons.mp hq with h1 | h1
            · subst h1
              intro hm
              rcases List.mem_cons.mp hm with h2 | h2
              · exact ha h2.symm
              · exact ih p (by rw [hs]; exact List.mem_cons_self p ps) h2
            · exact ih q (by rw [hs]; exact List.mem_cons_of_mem p h1)

theorem inter_cons {h : List Char} {rest : List (List Char)} (hne : rest ≠ []) :
    intercalateNL (h :: rest) = h ++ '\n' :: intercalateNL rest := by
  cases rest with
  | nil => exact absurd rfl hne
  | cons r rr => rfl

theorem splitNL_no_nl : ∀ {q : List Char}, '\n' ∉ q → splitNL q = [q] := by
  intro q
  induction q with
  | nil => intro h; rfl
  | cons c t ih =>
      intro h
      have hc : c ≠ '\n' := fun he => h (he ▸ List.mem_cons_self c t)
      have ht : '\n' ∉ t := fun hm => h (List.mem_cons_of_mem c hm)
      simp only [splitNL, if_neg hc, ih ht]

theorem splitNL_append_nl : ∀ {q : List Char}, '\n' ∉ q →
    ∀ l, splitNL (q ++ '\n' :: l) = q :: splitNL l := by
  intro q
  induction q with
  | nil =>
      intro _ l
      simp [splitNL]
  | cons c t ih =>
      intro h l
      have hc : c ≠ '\n' := fun he => h (he ▸ List.mem_cons_self c t)
      have ht : '\n' ∉ t := fun hm => h (List.mem_cons_of_mem c hm)
      simp only [List.cons_append, splitNL, if_neg hc, List.append_eq]
      rw [ih ht l]

theorem splitNL_intercalateNL : ∀ qs : List (List Char), qs ≠ [] →
    (∀ q ∈ qs, '\n' ∉ q) → splitNL (intercalateNL qs) = qs := by
  intro qs
  induction qs with
  | nil => intro h; exact absurd rfl h
  | cons q rest ih =>
      intro _ hfree
      cases rest with
      | nil => exact splitNL_no_nl (hfree q (List.mem_cons_self q []))
      | cons r rr =>
          rw [inter_cons (by simp),
            splitNL_append_nl (hfree q (List.mem_cons_self q _)),
            ih (by simp) (fun x hx => hfree x (List.mem_cons_of_mem q hx))]

theorem inter_append_singleton : ∀ (xs : List (List Char)) (y : List Char), xs ≠ [] →
    intercalateNL (xs ++ [y]) = intercalateNL xs ++ '\n' :: y := by
  intro xs
  induction xs with
  | nil => intro y h; exact absurd rfl h
  | cons x xs ih =>
      intro y _
      cases xs with
      | nil => rfl
      | cons x2 xs2 =>
          rw [List.cons_append, inter_cons (by simp), ih y (by simp),
            show intercalateNL (x :: x2 :: xs2) = x ++ '\n' :: intercalateNL (x2 :: xs2)
              from inter_cons (by simp)]
          simp [List.append_assoc]

theorem inter_rev : ∀ ps : List (List Char),
    (intercalateNL ps).reverse = intercalateNL ((ps.map List.reverse).reverse) := by
  intro ps
  induction ps with
  | nil => rfl
  | cons p rest ih =>
      cases rest with
      | nil => rfl
      | cons q rr =>
          have h2 : ((p :: q :: rr).map List.reverse).reverse
              = ((q :: rr).map List.reverse).reverse ++ [p.reverse] := by
            rw [List.map_cons, List.reverse_cons]
          rw [inter_cons (by simp), h2,
            inter_append_singleton (((q :: rr).map List.reverse).reverse) p.reverse
              (by simp), ← ih]
          simp [List.append_assoc]

theorem mem_trimEmptyLeft : ∀ {ps : List (List Char)} {q : List Char},
    q ∈ trimEmptyLeft ps → q ∈ ps := by
  intro ps
  induction ps with
  | nil => intro q h; exact h
  | cons x xs ih =>
      intro q h
      simp only [trimEmptyLeft] at h
      by_cases hx : x.isEmpty = true
      · rw [if_pos hx] at h
        exact List.mem_cons_of_mem x (ih h)
      · rw [if_neg hx] at h
        exact h

theorem mem_trimEmpty {ps : List (List Char)} {q : List Char}
    (h : q ∈ trimEmpty ps) : q ∈ ps := by
  rw [trimEmpty] at h
  rw [List.mem_reverse] at h
  have h2 := mem_trimEmptyLeft h
  rw [List.mem_reverse] at h2
  exact mem_trimEmptyLeft h2

theorem trimEmptyLeft_map_rev : ∀ ps : List (List Char),
    trimEmptyLeft (ps.map List.reverse) = (trimEmptyLeft ps).map List.reverse := by
  intro ps
  induction ps with
  | nil => rfl
  | cons x xs ih =>
      simp only [List.map_cons, trimEmptyLeft]
      have he : x.reverse.isEmpty = x.isEmpty := by cases x <;> simp
      rw [he]
      by_cases hx : x.isEmpty = true
      · rw [if_pos hx, if_pos hx, ih]
      · rw [if_neg hx, if_neg hx, List.map_cons]

theorem dw_inter : ∀ ps : List (List Char), (∀ q ∈ ps, FrontOK q) →
    (intercalateNL ps).dropWhile isPySpace = intercalateNL (trimEmptyLeft ps) := by
  intro ps
  induction ps with
  | nil => intro _; rfl
  | cons q rest ih =>
      intro hfo
      cases hq : q with
      | nil =>
          cases rest with
          | nil => rfl
          | cons r rr =>
              rw [inter_cons (by simp)]
              show ('\n' :: intercalateNL (r :: rr)).dropWhile isPySpace = _
              rw [List.dropWhile_cons, if_pos (by decide)]
              rw [ih (fun x hx => hfo x (List.mem_cons_of_mem q hx))]
              rfl
      | cons c q' =>
          have hc : isPySpace c = false := hfo q (List.mem_cons_self q rest) c q' hq
          cases rest with
          | nil =>
              show (c :: q').dropWhile isPySpace = intercalateNL (trimEmptyLeft [c :: q'])
              rw [List.dropWhile_cons, if_neg (by simp [hc])]
              rfl
          | cons r rr =>
              rw [inter_cons (by simp)]
              show ((c :: q') ++ '\n' :: intercalateNL (r :: rr)).dropWhile isPySpace = _
              rw [List.cons_append, List.dropWhile_cons, if_neg (by simp [hc])]
              show _ = intercalateNL ((c :: q') :: r :: rr)
              rw [show intercalateNL ((c :: q') :: r :: rr)
                  = (c :: q') ++ '\n' :: intercalateNL (r :: rr) from inter_cons (by simp)]
              rfl

theorem pyStripL_inter (ps : List (List Char)) (h : ∀ q ∈ ps, pyStripL q = q) :
    pyStripL (intercalateNL ps) = intercalateNL (trimEmpty ps) := by
  have hfo : ∀ q ∈ ps, FrontOK q := fun q hq => frontok_stripped (h q hq)
  have hparts : ∀ q ∈ ((trimEmptyLeft ps).map List.reverse).reverse, FrontOK q := by
    intro q hq
    rw [List.mem_reverse] at hq
    rcases List.mem_map.mp hq with ⟨z, hz, rfl⟩
    exact backok_stripped (h z (mem_trimEmptyLeft hz))
  rw [pyStripL, dw_inter ps hfo, inter_rev (trimEmptyLeft ps),
    dw_inter (((trimEmptyLeft ps).map List.reverse).reverse) hparts]
  have hswap : ((trimEmptyLeft ps).map List.reverse).reverse
      = ((trimEmptyLeft ps).reverse).map List.reverse := by simp
  rw [hswap, trimEmptyLeft_map_rev, inter_rev]
  have hid : (((trimEmptyLeft ((trimEmptyLeft ps).reverse)).map List.reverse).map
      List.reverse) = trimEmptyLeft ((trimEmptyLeft ps).reverse) := by
    simp [List.map_map, Function.comp]
  rw [hid]
  rfl

/-! ## Scanning lemmas -/

theorem rescanF_nil (m : Char → List Char → Option (List Char × Nat)) :
    ∀ fuel, rescanF m fuel [] = [] := by
  intro fuel
  cases fuel with
  | zero => rfl
  | succ n => rfl

theorem rescanF_fuel_eq (m : Char → List Char → Option (List Char × Nat)) :
    ∀ (f1 : Nat), ∀ {f2 : Nat} {l : List Char}, l.length ≤ f1 → l.length ≤ f2 →
      rescanF m f1 l = rescanF m f2 l := by
  intro f1
  induction f1 with
  | zero =>
      intro f2 l h1 _
      have : l = [] := List.eq_nil_of_length_eq_zero (Nat.le_zero.mp h1)
      subst this
      rw [rescanF_nil, rescanF_nil]
  | succ n ih =>
      intro f2 l h1 h2
      cases l with
      | nil => rw [rescanF_nil, rescanF_nil]
      | cons c cs =>
          cases f2 with
          | zero => exact absurd h2 (by simp)
          | succ n2 =>
              show (match m c cs with
                | some (out, k) => out ++ rescanF m n (cs.drop k)
                | none => c :: rescanF m n cs) =
                (match m c cs with
                | some (out, k) => out ++ rescanF m n2 (cs.drop k)
                | none => c :: rescanF m n2 cs)
              cases hm : m c cs with
              | some p =>
                  obtain ⟨out, k⟩ := p
                  show out ++ rescanF m n (cs.drop k) = out ++ rescanF m n2 (cs.drop k)
                  have hd : (cs.drop k).length ≤ cs.length := by
                    rw [List.length_drop]; omega
                  simp only [List.length_cons] at h1 h2
                  rw [ih (show (cs.drop k).length ≤ n by omega)
                    (show (cs.drop k).length ≤ n2 by omega)]
              | none =>
                  show c :: rescanF m n cs = c :: rescanF m n2 cs
                  simp only [List.length_cons] at h1 h2
                  rw [ih (show cs.length ≤ n by omega) (show cs.length ≤ n2 by omega)]

theorem rescanF_copy (m : Char → List Char → Option (List Char × Nat)) :
    ∀ (pre : List Char), (∀ c ∈ pre, ∀ cs, m c cs = none) →
      ∀ (fuel : Nat) (l : List Char),
        rescanF m (pre.length + fuel) (pre ++ l) = pre ++ rescanF m fuel l := by
  intro pre
  induction pre with
  | nil =>
      intro _ fuel l
      simp
  | cons c pre' ih =>
      intro h fuel l
      have : pre'.length + 1 + fuel = (pre'.length + fuel) + 1 := by omega
      rw [List.length_cons, List.cons_append, this]
      show (match m c (pre' ++ l) with
        | some (out, k) => out ++ rescanF m (pre'.length + fuel) ((pre' ++ l).drop k)
        | none => c :: rescanF m (pre'.length + fuel) (pre' ++ l)) = _
      rw [h c (List.mem_cons_self c pre') (pre' ++ l)]
      rw [ih (fun x hx cs => h x (List.mem_cons_of_mem c hx) cs) fuel l]
      rfl

theorem rescanF_id (m : Char → List Char → Option (List Char × Nat)) :
    ∀ (fuel : Nat) (l : List Char), (∀ c ∈ l, ∀ cs, m c cs = none) →
      rescanF m fuel l = l := by
  intro fuel
  induction fuel with
  | zero => intro l _; rfl
  | succ n ih =>
      intro l h
      cases l with
      | nil => rfl
      | cons c cs =>
          show (match m c cs with
            | some (out, k) => out ++ rescanF m n (cs.drop k)
            | none => c :: rescanF m n cs) = c :: cs
          rw [h c (List.mem_cons_self c cs) cs,
            ih cs (fun x hx cs2 => h x (List.mem_cons_of_mem c hx) cs2)]

/-! ## Blank-line collapse -/

theorem lead_decomp : ∀ qs : List (List Char),
    qs = List.replicate (countLeadEmpty qs) [] ++ qs.drop (countLeadEmpty qs) := by
  intro qs
  induction qs with
  | nil => rfl
  | cons q rest ih =>
      simp only [countLeadEmpty]
      by_cases hq : q.isEmpty = true
      · rw [if_pos hq]
        have hqe : q = [] := by cases q with | nil => rfl | cons a b => simp at hq
        subst hqe
        rw [List.replicate_succ, List.cons_append]
        show ([] : List Char) :: rest = [] :: (List.replicate (countLeadEmpty rest) [] ++
          (([] : List Char) :: rest).drop (countLeadEmpty rest + 1))
        rw [List.drop_succ_cons]
        exact congrArg _ ih
      · rw [if_neg hq]
        rfl

theorem lead_head_ne : ∀ (qs : List (List Char)) (h : List Char) (t : List (List Char)),
    qs.drop (countLeadEmpty qs) = h :: t → h ≠ [] := by
  intro qs
  induction qs with
  | nil => intro h t hd; rw [List.drop_nil] at hd; cases hd
  | cons q rest ih =>
      intro h t hd
      simp only [countLeadEmpty] at hd
      by_cases hq : q.isEmpty = true
      · rw [if_pos hq, List.drop_succ_cons] at hd
        exact ih h t hd
      · rw [if_neg hq, List.drop_zero] at hd
        injection hd with h1 h2
        subst h1
        intro hn
        subst hn
        simp at hq

theorem inter_replicate_empty : ∀ n : Nat,
    intercalateNL (List.replicate (n + 1) ([] : List Char)) = List.replicate n '\n' := by
  intro n
  induction n with
  | zero => rfl
  | succ k ih =>
      rw [List.replicate_succ, inter_cons (by simp), ih, List.replicate_succ]
      rfl

theorem inter_lead : ∀ qs : List (List Char), qs.drop (countLeadEmpty qs) ≠ [] →
    intercalateNL qs = List.replicate (countLeadEmpty qs) '\n' ++
      intercalateNL (qs.drop (countLeadEmpty qs)) := by
  intro qs
  induction qs with
  | nil => intro h; simp at h
  | cons q rest ih =>
      intro hne
      simp only [countLeadEmpty] at hne ⊢
      by_cases hq : q.isEmpty = true
      · rw [if_pos hq] at hne ⊢
        have hqe : q = [] := by cases q with | nil => rfl | cons a b => simp at hq
        subst hqe
        rw [List.drop_succ_cons] at hne ⊢
        have hrest : rest ≠ [] := by
          intro h0
          subst h0
          rw [List.drop_nil] at hne
          exact hne rfl
        rw [inter_cons hrest, List.replicate_succ, List.cons_append, ih hne]
        rfl
      · rw [if_neg hq] at hne ⊢
        rw [List.replicate_zero, List.drop_zero, List.nil_append]

theorem tw_replicate_nl : ∀ (e : Nat) (l : List Char),
    (List.replicate e '\n' ++ l).takeWhile isPySpace =
      List.replicate e '\n' ++ l.takeWhile isPySpace := by
  intro e
  induction e with
  | zero => intro l; simp
  | succ k ih =>
      intro l
      rw [List.replicate_succ, List.cons_append, List.takeWhile_cons,
        if_pos (by decide), ih]
      rfl

theorem tw_head_false {c : Char} (hc : isPySpace c = false) (t : List Char) :
    (c :: t).takeWhile isPySpace = [] := by
  rw [List.takeWhile_cons, if_neg (by simp [hc])]

theorem lastNlIdx_replicate : ∀ k : Nat,
    lastNlIdx (List.replicate (k + 1) '\n') = some k := by
  intro k
  induction k with
  | zero => rfl
  | succ n ih =>
      rw [List.replicate_succ]
      show (match lastNlIdx (List.replicate (n + 1) '\n') with
        | some i => some (i + 1)
        | none => if '\n' = '\n' then some 0 else none) = some (n + 1)
      rw [ih]

theorem mbr_nomatch {cs : List Char} (h : cs.takeWhile isPySpace = []) :
    matchBlankRun '\n' cs = none := by
  rw [matchBlankRun, if_pos rfl, h]
  rfl

theorem mbr_match {cs : List Char} {e : Nat}
    (h : cs.takeWhile isPySpace = List.replicate (e + 1) '\n') :
    matchBlankRun '\n' cs = some (['\n', '\n'], e + 1) := by
  rw [matchBlankRun, if_pos rfl, h, lastNlIdx_replicate]

theorem squeezeC_all_empty (p q : List Char) (ps : List (List Char))
    (h : (q :: ps).drop (countLeadEmpty (q :: ps)) = []) :
    squeezeC (p :: q :: ps) =
      if 2 ≤ countLeadEmpty (q :: ps) then [p, [], []] else p :: q :: ps := by
  rw [squeezeC]
  simp only [h, List.isEmpty_nil, if_pos]

theorem squeezeC_zero (p q : List Char) (ps : List (List Char))
    (h : countLeadEmpty (q :: ps) = 0) :
    squeezeC (p :: q :: ps) = p :: squeezeC (q :: ps) := by
  rw [squeezeC]
  simp only [h, List.drop_zero, if_neg (by simp : ¬(q :: ps : List (List Char)).isEmpty = true)]
  rw [if_pos True.intro]

theorem squeezeC_pos (p q : List Char) (ps : List (List Char)) (e : Nat)
    (h : countLeadEmpty (q :: ps) = e + 1)
    (h2 : (q :: ps).drop (e + 1) ≠ []) :
    squeezeC (p :: q :: ps) = p :: [] :: squeezeC ((q :: ps).drop (e + 1)) := by
  rw [squeezeC]
  simp only [h]
  rw [if_neg (fun hh => h2 (List.isEmpty_iff.mp hh)), if_neg (by omega)]

theorem squeezeC_ne_nil : ∀ ps : List (List Char), ps ≠ [] → squeezeC ps ≠ [] := by
  intro ps
  match ps with
  | [] => intro h; exact absurd rfl h
  | [p] => intro _; rw [squeezeC]; simp
  | p :: q :: ps' =>
      intro _
      rcases he : countLeadEmpty (q :: ps') with _ | e'
      · rw [squeezeC_zero p q ps' he]; simp
      · by_cases hd : (q :: ps').drop (e' + 1) = []
        · have hd2 : (q :: ps').drop (countLeadEmpty (q :: ps')) = [] := by
            rw [he]; exact hd
          rw [squeezeC_all_empty p q ps' hd2]
          split <;> simp
        · rw [squeezeC_pos p q ps' e' he hd]; simp

theorem scanParts : ∀ (n : Nat) (ps : List (List Char)), ps.length ≤ n →
    (∀ q ∈ ps, GoodPart q) → ps ≠ [] →
    rescan matchBlankRun (intercalateNL ps) = intercalateNL (squeezeC ps) := by
  intro n
  induction n with
  | zero =>
      intro ps hle _ hne
      cases ps with
      | nil => exact absurd rfl hne
      | cons a b => simp at hle
  | succ n ih =>
      intro ps hle hgood hne
      rcases ps with _ | ⟨p, _ | ⟨q, ps'⟩⟩
      · exact absurd rfl hne
      · have h1 : squeezeC [p] = [p] := by rw [squeezeC]
        rw [h1]
        show rescanF matchBlankRun (intercalateNL [p]).length (intercalateNL [p]) =
          intercalateNL [p]
        exact rescanF_id matchBlankRun _ _ (fun c hc cs => by
          rw [matchBlankRun,
            if_neg (fun hce => (hgood p (List.mem_cons_self p _)).1 (by rw [← hce]; exact hc))])
      · have hpg := hgood p (List.mem_cons_self p _)
        have hdead : ∀ c ∈ p, ∀ cs, matchBlankRun c cs = none := fun c hc cs => by
          rw [matchBlankRun, if_neg (fun hce => hpg.1 (by rw [← hce]; exact hc))]
        have hgood2 : ∀ x ∈ q :: ps', GoodPart x :=
          fun x hx => hgood x (List.mem_cons_of_mem p hx)
        have hint : intercalateNL (p :: q :: ps') =
            p ++ '\n' :: intercalateNL (q :: ps') := inter_cons (by simp)
        show rescanF matchBlankRun (intercalateNL (p :: q :: ps')).length
          (intercalateNL (p :: q :: ps')) = _
        rw [hint,
          show (p ++ '\n' :: intercalateNL (q :: ps')).length =
            p.length + ('\n' :: intercalateNL (q :: ps')).length by simp,
          rescanF_copy matchBlankRun p hdead _ _, List.length_cons]
        have hstep : rescanF matchBlankRun ((intercalateNL (q :: ps')).length + 1)
            ('\n' :: intercalateNL (q :: ps')) =
            match matchBlankRun '\n' (intercalateNL (q :: ps')) with
            | some (out, k) => out ++ rescanF matchBlankRun
                (intercalateNL (q :: ps')).length ((intercalateNL (q :: ps')).drop k)
            | none => '\n' :: rescanF matchBlankRun
                (intercalateNL (q :: ps')).length (intercalateNL (q :: ps')) := rfl
        rw [hstep]
        rcases he : countLeadEmpty (q :: ps') with _ | e'
        · -- no empty parts follow the separator: no match fires here
          have hq0 : q.isEmpty = false := by
            cases hqq : q.isEmpty with
            | false => rfl
            | true =>
                simp only [countLeadEmpty, hqq] at he
                exact absurd he (Nat.succ_ne_zero _)
          obtain ⟨c, q'', hq⟩ : ∃ c q'', q = c :: q'' := by
            cases q with
            | nil => simp at hq0
            | cons a b => exact ⟨a, b, rfl⟩
          have hcns : isPySpace c = false :=
            frontok_stripped (hgood2 q (List.mem_cons_self q _)).2 c q'' hq
          have hhead : ∃ X, intercalateNL (q :: ps') = c :: X := by
            cases ps' with
            | nil => exact ⟨q'', by rw [hq]; rfl⟩
            | cons r rr =>
                refine ⟨q'' ++ '\n' :: intercalateNL (r :: rr), ?_⟩
                rw [inter_cons (by simp), hq]
                rfl
          obtain ⟨X, hX⟩ := hhead
          have hmbr : matchBlankRun '\n' (intercalateNL (q :: ps')) = none := by
            apply mbr_nomatch
            rw [hX]
            exact tw_head_false hcns X
          rw [hmbr]
          have hrec : rescanF matchBlankRun (intercalateNL (q :: ps')).length
              (intercalateNL (q :: ps')) = intercalateNL (squeezeC (q :: ps')) :=
            ih (q :: ps') (by simp only [List.length_cons] at hle ⊢; omega) hgood2 (by simp)
          rw [hrec, squeezeC_zero p q ps' he,
            inter_cons (squeezeC_ne_nil (q :: ps') (by simp))]
        · by_cases hd : (q :: ps').drop (e' + 1) = []
          · -- everything after the separator is blank
            have hrep : q :: ps' = List.replicate (e' + 1) ([] : List Char) := by
              have hld := lead_decomp (q :: ps')
              rw [he, hd, List.append_nil] at hld
              exact hld
            have hdc : (q :: ps').drop (countLeadEmpty (q :: ps')) = [] := by
              rw [he]; exact hd
            have hT : intercalateNL (q :: ps') = List.replicate e' '\n' := by
              rw [hrep, inter_replicate_empty]
            cases e' with
            | zero =>
                have hmbr : matchBlankRun '\n' (intercalateNL (q :: ps')) = none := by
                  apply mbr_nomatch
                  rw [hT]
                  rfl
                rw [hmbr, hT]
                rw [squeezeC_all_empty p q ps' hdc, if_neg (by rw [he]; omega)]
                have hqps : q = [] ∧ ps' = [] := by
                  have := hrep
                  rw [List.replicate_succ, List.replicate_zero] at this
                  injection this with h1 h2
                  exact ⟨h1, h2⟩
                rw [hqps.1, hqps.2]
                rfl
            | succ e'' =>
                have htw : (intercalateNL (q :: ps')).takeWhile isPySpace =
                    List.replicate (e'' + 1) '\n' := by
                  rw [hT]
                  have := tw_replicate_nl (e'' + 1) []
                  simp only [List.takeWhile_nil, List.append_nil] at this
                  exact this
                rw [mbr_match htw]
                show p ++ (['\n', '\n'] ++ rescanF matchBlankRun
                    (intercalateNL (q :: ps')).length
                    ((intercalateNL (q :: ps')).drop (e'' + 1))) = _
                have hdropall : (intercalateNL (q :: ps')).drop (e'' + 1) = [] := by
                  rw [hT]
                  apply List.drop_eq_nil_of_le
                  simp
                rw [hdropall, rescanF_nil]
                rw [squeezeC_all_empty p q ps' hdc, if_pos (by rw [he]; omega)]
                rfl
          · -- blank run followed by a further nonempty part
            have hlead : intercalateNL (q :: ps') = List.replicate (e' + 1) '\n' ++
                intercalateNL ((q :: ps').drop (e' + 1)) := by
              have := inter_lead (q :: ps') (by rw [he]; exact hd)
              rw [he] at this
              exact this
            obtain ⟨h, rest2, hrest⟩ : ∃ h rest2, (q :: ps').drop (e' + 1) = h :: rest2 := by
              cases hrr : (q :: ps').drop (e' + 1) with
              | nil => exact absurd hrr hd
              | cons a b => exact ⟨a, b, rfl⟩
            have hhne : h ≠ [] := lead_head_ne (q :: ps') h rest2 (by rw [he]; exact hrest)
            obtain ⟨c, h'', hh⟩ : ∃ c h'', h = c :: h'' := by
              cases h with
              | nil => exact absurd rfl hhne
              | cons a b => exact ⟨a, b, rfl⟩
            have hhmem : h ∈ q :: ps' := by
              have : h ∈ (q :: ps').drop (e' + 1) := by rw [hrest]; exact List.mem_cons_self h rest2
              exact List.mem_of_mem_drop this
            have hcns : isPySpace c = false :=
              frontok_stripped (hgood2 h hhmem).2 c h'' hh
            have hheadr : ∃ X, intercalateNL ((q :: ps').drop (e' + 1)) = c :: X := by
              rw [hrest]
              cases rest2 with
              | nil => exact ⟨h'', by rw [hh]; rfl⟩
              | cons r rr =>
                  refine ⟨h'' ++ '\n' :: intercalateNL (r :: rr), ?_⟩
                  rw [inter_cons (by simp), hh]
                  rfl
            obtain ⟨X, hX⟩ := hheadr
            have htw : (intercalateNL (q :: ps')).takeWhile isPySpace =
                List.replicate (e' + 1) '\n' := by
              rw [hlead, tw_replicate_nl, hX, tw_head_false hcns X, List.append_nil]
            rw [mbr_match htw]
            show p ++ (['\n', '\n'] ++ rescanF matchBlankRun
                (intercalateNL (q :: ps')).length
                ((intercalateNL (q :: ps')).drop (e' + 1))) = _
            have hdrop : (intercalateNL (q :: ps')).drop (e' + 1) =
                intercalateNL ((q :: ps').drop (e' + 1)) := by
              rw [hlead]
              have hdl := List.drop_left (List.replicate (e' + 1) '\n')
                (intercalateNL ((q :: ps').drop (e' + 1)))
              rw [List.length_replicate] at hdl
              exact hdl
            rw [hdrop]
            have hlen2 : (intercalateNL ((q :: ps').drop (e' + 1))).length ≤
                (intercalateNL (q :: ps')).length := by
              rw [hlead]
              simp
            rw [rescanF_fuel_eq matchBlankRun (intercalateNL (q :: ps')).length hlen2
              (Nat.le_refl _)]
            have hrec : rescanF matchBlankRun
                (intercalateNL ((q :: ps').drop (e' + 1))).length
                (intercalateNL ((q :: ps').drop (e' + 1))) =
                intercalateNL (squeezeC ((q :: ps').drop (e' + 1))) := by
              refine ih ((q :: ps').drop (e' + 1)) ?_ ?_ hd
              · have := List.length_drop (e' + 1) (q :: ps')
                simp at hle this ⊢
                omega
              · exact fun x hx => hgood2 x (List.mem_of_mem_drop hx)
            rw [hrec, squeezeC_pos p q ps' e' he hd,
              inter_cons (show ([] : List Char) :: squeezeC ((q :: ps').drop (e' + 1)) ≠ []
                by simp),
              inter_cons (squeezeC_ne_nil ((q :: ps').drop (e' + 1)) hd)]
            rfl

/-! ## Squeeze and trim algebra -/

theorem tel_append_eq : ∀ l1 l2 : List (List Char),
    trimEmptyLeft (l1 ++ l2) =
      if (trimEmptyLeft l1).isEmpty then trimEmptyLeft l2 else trimEmptyLeft l1 ++ l2 := by
  intro l1
  induction l1 with
  | nil => intro l2; simp [trimEmptyLeft]
  | cons a l ih =>
      intro l2
      by_cases ha : a.isEmpty = true
      · simp only [List.cons_append, trimEmptyLeft, if_pos ha, List.append_eq, ih l2]
      · simp only [List.cons_append, trimEmptyLeft, if_neg ha]
        rw [if_neg (by simp)]
        rfl

theorem trimERc_eq : ∀ m : List (List Char),
    (trimEmptyLeft m.reverse).reverse = trimERc m := by
  intro m
  induction m with
  | nil => rfl
  | cons q t ih =>
      rw [List.reverse_cons, tel_append_eq]
      by_cases he : (trimEmptyLeft t.reverse).isEmpty = true
      · rw [if_pos he]
        have ht : trimERc t = [] := by
          rw [← ih]
          simp [List.isEmpty_iff.mp he]
        simp only [trimERc, ht]
        by_cases hq : q.isEmpty = true
        · simp [trimEmptyLeft, hq]
        · simp [trimEmptyLeft, hq]
      · rw [if_neg he]
        cases hr : trimERc t with
        | nil =>
            rw [← ih] at hr
            exact absurd (by simp [List.reverse_eq_nil_iff.mp hr]) he
        | cons a b =>
            simp only [trimERc, hr, List.reverse_append, List.reverse_cons,
              List.reverse_nil, List.nil_append, List.singleton_append, ih, hr]

theorem trimE_eq (m : List (List Char)) :
    trimEmpty m = trimERc (trimEmptyLeft m) := by
  rw [trimEmpty, trimERc_eq]

theorem tel_head : ∀ (ps : List (List Char)) (h : List Char) (t : List (List Char)),
    trimEmptyLeft ps = h :: t → h.isEmpty = false := by
  intro ps
  induction ps with
  | nil => intro h t hd; cases hd
  | cons a l ih =>
      intro h t hd
      simp only [trimEmptyLeft] at hd
      by_cases ha : a.isEmpty = true
      · rw [if_pos ha] at hd
        exact ih h t hd
      · rw [if_neg ha] at hd
        injection hd with h1 h2
        subst h1
        exact Bool.eq_false_iff.mpr ha

theorem tel_fix : ∀ {ps : List (List Char)},
    (∀ h t, ps = h :: t → h.isEmpty = false) → trimEmptyLeft ps = ps := by
  intro ps h
  cases ps with
  | nil => rfl
  | cons a l =>
      simp only [trimEmptyLeft]
      rw [if_neg (by simp [h a l rfl])]

theorem trimERc_cons_of_cons {t : List (List Char)} {a q : List Char}
    {b : List (List Char)} (h : trimERc t = a :: b) :
    trimERc (q :: t) = q :: a :: b := by
  simp only [trimERc, h]

theorem trimERc_idem : ∀ m : List (List Char), trimERc (trimERc m) = trimERc m := by
  intro m
  induction m with
  | nil => rfl
  | cons q t ih =>
      simp only [trimERc]
      cases hr : trimERc t with
      | nil =>
          by_cases hq : q.isEmpty = true
          · rw [if_pos hq]; rfl
          · rw [if_neg (by simp [hq])]
            simp [trimERc, hq]
      | cons a b =>
          rw [hr] at ih
          show trimERc (q :: a :: b) = q :: a :: b
          exact trimERc_cons_of_cons ih

theorem trimERc_head : ∀ (m : List (List Char)) (h : List Char) (t : List (List Char)),
    m = h :: t → trimERc m = [] ∨ ∃ t2, trimERc m = h :: t2 := by
  intro m h t hm
  subst hm
  simp only [trimERc]
  cases hr : trimERc t with
  | nil =>
      by_cases hq : h.isEmpty = true
      · rw [if_pos hq]; exact Or.inl rfl
      · rw [if_neg (by simp [hq])]; exact Or.inr ⟨[], rfl⟩
  | cons a b => exact Or.inr ⟨a :: b, rfl⟩

theorem trimEmpty_idem (ps : List (List Char)) :
    trimEmpty (trimEmpty ps) = trimEmpty ps := by
  rw [trimE_eq, trimE_eq]
  have hfix : trimEmptyLeft (trimERc (trimEmptyLeft ps)) = trimERc (trimEmptyLeft ps) := by
    apply tel_fix
    intro h t hd
    cases hm : trimEmptyLeft ps with
    | nil => rw [hm] at hd; cases hd
    | cons a l =>
        rcases trimERc_head (a :: l) a l rfl with h1 | ⟨t2, h2⟩
        · rw [hm, h1] at hd; cases hd
        · rw [hm, h2] at hd
          injection hd with h3 h4
          subst h3
          exact tel_head ps a l hm
  rw [hfix, trimERc_idem]

theorem mem_squeeze1 : ∀ (ps : List (List Char)), ∀ x ∈ squeeze1 ps, x ∈ ps
  | [] => by simp [squeeze1]
  | [p] => by simp [squeeze1]
  | p :: q :: ps => by
      intro x hx
      rw [squeeze1] at hx
      split at hx
      · exact List.mem_cons_of_mem p (mem_squeeze1 (q :: ps) x hx)
      · rcases List.mem_cons.mp hx with h | h
        · subst h; exact List.mem_cons_self x _
        · exact List.mem_cons_of_mem p (mem_squeeze1 (q :: ps) x h)

theorem squeeze1_head : ∀ (q : List Char) (ps : List (List Char)),
    ∃ t, squeeze1 (q :: ps) = q :: t
  | q, [] => ⟨[], by rw [squeeze1]⟩
  | q, r :: ps => by
      rw [squeeze1]
      by_cases hc : (q.isEmpty && r.isEmpty) = true
      · rw [if_pos hc]
        rcases Bool.and_eq_true_iff.mp hc with ⟨h1, h2⟩
        have hq : q = [] := List.isEmpty_iff.mp h1
        have hr : r = [] := List.isEmpty_iff.mp h2
        obtain ⟨t, ht⟩ := squeeze1_head r ps
        refine ⟨t, ?_⟩
        rw [ht, hq, hr]
      · rw [if_neg hc]
        exact ⟨squeeze1 (r :: ps), rfl⟩

theorem squeeze1_noadj : ∀ (ps : List (List Char)), NoAdjEmpty (squeeze1 ps)
  | [] => by rw [squeeze1]; exact List.chain'_nil
  | [p] => by rw [squeeze1]; exact List.chain'_singleton p
  | p :: q :: ps => by
      rw [squeeze1]
      by_cases hc : (p.isEmpty && q.isEmpty) = true
      · rw [if_pos hc]
        exact squeeze1_noadj (q :: ps)
      · rw [if_neg hc]
        obtain ⟨t, ht⟩ := squeeze1_head q ps
        have hrec := squeeze1_noadj (q :: ps)
        rw [ht] at hrec ⊢
        rw [NoAdjEmpty, List.chain'_cons]
        refine ⟨?_, hrec⟩
        intro ⟨h1, h2⟩
        exact absurd (by rw [h1, h2] : (p.isEmpty && q.isEmpty) = (true && true)) (by simp [hc])

theorem noadj_squeeze1_fix : ∀ (ps : List (List Char)), NoAdjEmpty ps → squeeze1 ps = ps
  | [] => fun _ => by rw [squeeze1]
  | [p] => fun _ => by rw [squeeze1]
  | p :: q :: ps => fun h => by
      rw [NoAdjEmpty, List.chain'_cons] at h
      rw [squeeze1, if_neg (fun hc => h.1 (by
        rcases Bool.and_eq_true_iff.mp hc with ⟨h1, h2⟩
        exact ⟨h1, h2⟩))]
      rw [noadj_squeeze1_fix (q :: ps) h.2]

theorem squeeze1_reps : ∀ (e : Nat) (h : List Char) (t2 : List (List Char)), h ≠ [] →
    squeeze1 (List.replicate (e + 1) ([] : List Char) ++ h :: t2) =
      [] :: squeeze1 (h :: t2) := by
  intro e
  induction e with
  | zero =>
      intro h t2 hne
      rw [List.replicate_succ, List.replicate_zero, List.cons_append, List.nil_append,
        squeeze1,
        if_neg (fun hc => hne (List.isEmpty_iff.mp (Bool.and_eq_true_iff.mp hc).2))]
  | succ k ih =>
      intro h t2 hne
      have hW : List.replicate (k + 1) ([] : List Char) ++ h :: t2 =
          [] :: (List.replicate k [] ++ h :: t2) := by
        rw [List.replicate_succ, List.cons_append]
      rw [List.replicate_succ, List.cons_append, hW, squeeze1, if_pos (by simp), ← hW,
        ih h t2 hne]

theorem squeeze1_lead (p : List Char) (e : Nat) (h : List Char) (t2 : List (List Char))
    (hne : h ≠ []) :
    squeeze1 (p :: (List.replicate (e + 1) ([] : List Char) ++ h :: t2)) =
      if p.isEmpty then [] :: squeeze1 (h :: t2) else p :: [] :: squeeze1 (h :: t2) := by
  have hW : List.replicate (e + 1) ([] : List Char) ++ h :: t2 =
      [] :: (List.replicate e [] ++ h :: t2) := by
    rw [List.replicate_succ, List.cons_append]
  rw [hW, squeeze1]
  by_cases hp : p.isEmpty = true
  · rw [if_pos (by simp [hp]), if_pos hp, ← hW, squeeze1_reps e h t2 hne]
  · rw [if_neg (by simp [hp]), if_neg hp, ← hW, squeeze1_reps e h t2 hne]

theorem squeezeC_head : ∀ (q : List Char) (ps : List (List Char)),
    ∃ t, squeezeC (q :: ps) = q :: t := by
  intro q ps
  cases ps with
  | nil => exact ⟨[], by rw [squeezeC]⟩
  | cons r ps' =>
      rcases he : countLeadEmpty (r :: ps') with _ | e'
      · exact ⟨squeezeC (r :: ps'), squeezeC_zero q r ps' he⟩
      · by_cases hd : (r :: ps').drop (e' + 1) = []
        · rw [squeezeC_all_empty q r ps' (by rw [he]; exact hd)]
          by_cases h2 : 2 ≤ countLeadEmpty (r :: ps')
          · rw [if_pos h2]; exact ⟨[[], []], rfl⟩
          · rw [if_neg h2]; exact ⟨r :: ps', rfl⟩
        · exact ⟨[] :: squeezeC ((r :: ps').drop (e' + 1)), squeezeC_pos q r ps' e' he hd⟩

theorem mem_squeezeC : ∀ (n : Nat) (ps : List (List Char)), ps.length ≤ n →
    ∀ x ∈ squeezeC ps, x ∈ ps ∨ x = [] := by
  intro n
  induction n with
  | zero =>
      intro ps hle x hx
      cases ps with
      | nil => rw [show squeezeC [] = [] from by rw [squeezeC]] at hx; cases hx
      | cons a b => simp at hle
  | succ n ih =>
      intro ps hle x hx
      rcases ps with _ | ⟨p, _ | ⟨q, ps'⟩⟩
      · rw [show squeezeC [] = [] from by rw [squeezeC]] at hx; cases hx
      · rw [show squeezeC [p] = [p] from by rw [squeezeC]] at hx
        exact Or.inl hx
      · rcases he : countLeadEmpty (q :: ps') with _ | e'
        · rw [squeezeC_zero p q ps' he] at hx
          rcases List.mem_cons.mp hx with h | h
          · exact Or.inl (h ▸ List.mem_cons_self p _)
          · rcases ih (q :: ps') (by simp at hle ⊢; omega) x h with h2 | h2
            · exact Or.inl (List.mem_cons_of_mem p h2)
            · exact Or.inr h2
        · by_cases hd : (q :: ps').drop (e' + 1) = []
          · rw [squeezeC_all_empty p q ps' (by rw [he]; exact hd)] at hx
            by_cases h2 : 2 ≤ countLeadEmpty (q :: ps')
            · rw [if_pos h2] at hx
              rcases List.mem_cons.mp hx with h | h
              · exact Or.inl (h ▸ List.mem_cons_self p _)
              · rcases List.mem_cons.mp h with h3 | h3
                · exact Or.inr h3
                · rcases List.mem_singleton.mp h3 with rfl
                  exact Or.inr rfl
            · rw [if_neg h2] at hx
              exact Or.inl hx
          · rw [squeezeC_pos p q ps' e' he hd] at hx
            rcases List.mem_cons.mp hx with h | h
            · exact Or.inl (h ▸ List.mem_cons_self p _)
            · rcases List.mem_cons.mp h with h3 | h3
              · exact Or.inr h3
              · rcases ih ((q :: ps').drop (e' + 1))
                  (by have := List.length_drop (e' + 1) (q :: ps'); simp at hle this ⊢; omega)
                  x h3 with h4 | h4
                · exact Or.inl (List.mem_cons_of_mem p (List.mem_of_mem_drop h4))
                · exact Or.inr h4

theorem squeeze1_rep : ∀ (e : Nat) (p : List Char),
    squeeze1 (p :: List.replicate (e + 1) ([] : List Char)) =
      if p.isEmpty then [[]] else [p, []] := by
  intro e
  induction e with
  | zero =>
      intro p
      rw [List.replicate_succ, List.replicate_zero, squeeze1]
      by_cases hp : p.isEmpty = true
      · rw [if_pos (by simp [hp]), if_pos hp, squeeze1]
      · rw [if_neg (by simp [hp]), if_neg hp, squeeze1]
  | succ k ih =>
      intro p
      rw [List.replicate_succ, squeeze1]
      by_cases hp : p.isEmpty = true
      · rw [if_pos (by simp [hp]), if_pos hp, ih, if_pos (by rfl)]
      · rw [if_neg (by simp [hp]), if_neg hp, ih, if_pos (by rfl)]

theorem tel_cons_empty (X : List (List Char)) :
    trimEmptyLeft ([] :: X) = trimEmptyLeft X := by
  simp [trimEmptyLeft]

theorem tel_fix_of_head_ne {X : List (List Char)} {h : List Char} {t : List (List Char)}
    (hX : X = h :: t) (hne : h.isEmpty = false) : trimEmptyLeft X = X := by
  subst hX
  simp only [trimEmptyLeft]
  rw [if_neg (by simp [hne])]

theorem trimERc_congr {X Y : List (List Char)} (p : List Char)
    (h : trimERc X = trimERc Y) : trimERc (p :: X) = trimERc (p :: Y) := by
  show (match trimERc X with
    | [] => if p.isEmpty then [] else [p]
    | r => p :: r) = (match trimERc Y with
    | [] => if p.isEmpty then [] else [p]
    | r => p :: r)
  rw [h]

theorem countLead_zero_head {q : List Char} {ps : List (List Char)}
    (h : countLeadEmpty (q :: ps) = 0) : q.isEmpty = false := by
  cases hqq : q.isEmpty with
  | false => rfl
  | true =>
      simp only [countLeadEmpty, hqq] at h
      exact absurd h (Nat.succ_ne_zero _)

theorem ne_nil_isEmpty_false {h : List Char} (hne : h ≠ []) : h.isEmpty = false := by
  cases h with
  | nil => exact absurd rfl hne
  | cons a b => rfl

theorem trim_sq : ∀ (n : Nat) (ps : List (List Char)), ps.length ≤ n →
    trimEmpty (squeezeC ps) = trimEmpty (squeeze1 ps) := by
  intro n
  induction n with
  | zero =>
      intro ps hle
      cases ps with
      | nil => rw [show squeezeC [] = [] from by rw [squeezeC], show squeeze1 [] = [] from rfl]
      | cons a b => simp at hle
  | succ n ih =>
      intro ps hle
      rcases ps with _ | ⟨p, _ | ⟨q, ps'⟩⟩
      · rw [show squeezeC [] = [] from by rw [squeezeC], show squeeze1 [] = [] from rfl]
      · rw [show squeezeC [p] = [p] from by rw [squeezeC], show squeeze1 [p] = [p] from rfl]
      · rcases he : countLeadEmpty (q :: ps') with _ | e'
        · -- the part after the separator is nonempty: both sides keep the head
          have hq0 : q.isEmpty = false := countLead_zero_head he
          have hIH := ih (q :: ps') (by simp only [List.length_cons] at hle ⊢; omega)
          obtain ⟨tC, htC⟩ := squeezeC_head q ps'
          obtain ⟨t1, ht1⟩ := squeeze1_head q ps'
          have telC := tel_fix_of_head_ne htC hq0
          have tel1 := tel_fix_of_head_ne ht1 hq0
          rw [squeezeC_zero p q ps' he,
            show squeeze1 (p :: q :: ps') = p :: squeeze1 (q :: ps') from by
              rw [squeeze1, if_neg (by simp [hq0])]]
          rw [trimE_eq, trimE_eq] at hIH
          rw [telC, tel1] at hIH
          rw [trimE_eq, trimE_eq]
          by_cases hp : p.isEmpty = true
          · rw [show trimEmptyLeft (p :: squeezeC (q :: ps')) = squeezeC (q :: ps') from by
                simp only [trimEmptyLeft]; rw [if_pos hp]; exact telC,
              show trimEmptyLeft (p :: squeeze1 (q :: ps')) = squeeze1 (q :: ps') from by
                simp only [trimEmptyLeft]; rw [if_pos hp]; exact tel1]
            exact hIH
          · rw [show trimEmptyLeft (p :: squeezeC (q :: ps')) = p :: squeezeC (q :: ps') from by
                simp only [trimEmptyLeft]; rw [if_neg (by simp [hp])],
              show trimEmptyLeft (p :: squeeze1 (q :: ps')) = p :: squeeze1 (q :: ps') from by
                simp only [trimEmptyLeft]; rw [if_neg (by simp [hp])]]
            exact trimERc_congr p hIH
        · by_cases hd : (q :: ps').drop (e' + 1) = []
          · -- everything after the separator is blank
            have hdc : (q :: ps').drop (countLeadEmpty (q :: ps')) = [] := by
              rw [he]; exact hd
            have hrep : q :: ps' = List.replicate (e' + 1) ([] : List Char) := by
              have hld := lead_decomp (q :: ps')
              rw [he, hd, List.append_nil] at hld
              exact hld
            have hsq1 : squeeze1 (p :: q :: ps') = if p.isEmpty then [[]] else [p, []] := by
              rw [show (p :: q :: ps' : List (List Char)) =
                  p :: List.replicate (e' + 1) [] from by rw [← hrep]]
              exact squeeze1_rep e' p
            rw [squeezeC_all_empty p q ps' hdc, hsq1]
            by_cases h2 : 2 ≤ countLeadEmpty (q :: ps')
            · rw [if_pos h2]
              by_cases hp : p.isEmpty = true
              · rw [if_pos hp, List.isEmpty_iff.mp hp]
                decide
              · rw [if_neg hp]
                simp [trimE_eq, trimEmptyLeft, trimERc, hp]
            · rw [if_neg h2]
              have he0 : e' = 0 := by rw [he] at h2; omega
              subst he0
              have hqp : q :: ps' = [[]] := hrep
              injection hqp with hq1 hq2
              subst hq1
              subst hq2
              by_cases hp : p.isEmpty = true
              · rw [if_pos hp, List.isEmpty_iff.mp hp]
                decide
              · rw [if_neg hp]
          · -- blank run then a further nonempty part
            obtain ⟨h, rest2, hrest⟩ : ∃ h rest2, (q :: ps').drop (e' + 1) = h :: rest2 := by
              cases hrr : (q :: ps').drop (e' + 1) with
              | nil => exact absurd hrr hd
              | cons a b => exact ⟨a, b, rfl⟩
            have hhne : h ≠ [] := lead_head_ne (q :: ps') h rest2 (by rw [he]; exact hrest)
            have hhE : h.isEmpty = false := ne_nil_isEmpty_false hhne
            have hld : q :: ps' = List.replicate (e' + 1) ([] : List Char) ++ h :: rest2 := by
              have := lead_decomp (q :: ps')
              rw [he, hrest] at this
              exact this
            have hsq1 : squeeze1 (p :: q :: ps') =
                if p.isEmpty then [] :: squeeze1 (h :: rest2)
                else p :: [] :: squeeze1 (h :: rest2) := by
              rw [show (p :: q :: ps' : List (List Char)) =
                  p :: (List.replicate (e' + 1) [] ++ h :: rest2) from by rw [← hld]]
              exact squeeze1_lead p e' h rest2 hhne
            rw [squeezeC_pos p q ps' e' he hd, hrest, hsq1]
            have hIH := ih (h :: rest2) (by
              have hdl := List.length_drop (e' + 1) (q :: ps')
              rw [hrest] at hdl
              simp only [List.length_cons] at hle hdl ⊢
              omega)
            obtain ⟨tC, htC⟩ := squeezeC_head h rest2
            obtain ⟨t1, ht1⟩ := squeeze1_head h rest2
            have telC := tel_fix_of_head_ne htC hhE
            have tel1 := tel_fix_of_head_ne ht1 hhE
            rw [trimE_eq, trimE_eq, telC, tel1] at hIH
            rw [trimE_eq, trimE_eq]
            by_cases hp : p.isEmpty = true
            · rw [if_pos hp, List.isEmpty_iff.mp hp, tel_cons_empty, tel_cons_empty,
                tel_cons_empty, telC, tel1]
              exact hIH
            · rw [if_neg hp,
                show trimEmptyLeft (p :: [] :: squeezeC (h :: rest2)) =
                    p :: [] :: squeezeC (h :: rest2) from by
                  simp only [trimEmptyLeft]; rw [if_neg (by simp [hp])],
                show trimEmptyLeft (p :: [] :: squeeze1 (h :: rest2)) =
                    p :: [] :: squeeze1 (h :: rest2) from by
                  simp only [trimEmptyLeft]; rw [if_neg (by simp [hp])]]
              exact trimERc_congr p (trimERc_congr [] hIH)

theorem noadj_tel : ∀ {ps : List (List Char)}, NoAdjEmpty ps →
    NoAdjEmpty (trimEmptyLeft ps) := by
  intro ps
  induction ps with
  | nil => intro h; exact h
  | cons a l ih =>
      intro h
      simp only [trimEmptyLeft]
      by_cases ha : a.isEmpty = true
      · rw [if_pos ha]
        exact ih (List.Chain'.tail h)
      · rw [if_neg ha]
        exact h

theorem noadj_trimERc : ∀ {m : List (List Char)}, NoAdjEmpty m →
    NoAdjEmpty (trimERc m) := by
  intro m
  induction m with
  | nil => intro h; exact h
  | cons q t ih =>
      intro h
      simp only [trimERc]
      cases hr : trimERc t with
      | nil =>
          by_cases hq : q.isEmpty = true
          · rw [if_pos hq]; exact List.chain'_nil
          · rw [if_neg (by simp [hq])]; exact List.chain'_singleton q
      | cons a b =>
          have htail : NoAdjEmpty (a :: b) := by
            rw [← hr]
            exact ih (List.Chain'.tail h)
          cases t with
          | nil => rw [show trimERc [] = [] from rfl] at hr; cases hr
          | cons h2 t2 =>
              rcases trimERc_head (h2 :: t2) h2 t2 rfl with hcase | ⟨t3, hcase⟩
              · rw [hcase] at hr; cases hr
              · rw [hcase] at hr
                injection hr with hr1 hr2
                subst hr1
                rw [NoAdjEmpty, List.chain'_cons]
                refine ⟨?_, htail⟩
                rw [NoAdjEmpty, List.chain'_cons] at h
                exact h.1

theorem noadj_trimEmpty {ps : List (List Char)} (h : NoAdjEmpty ps) :
    NoAdjEmpty (trimEmpty ps) := by
  rw [trimE_eq]
  exact noadj_trimERc (noadj_tel h)

theorem map_pyStripL_id : ∀ (l : List (List Char)), (∀ q ∈ l, pyStripL q = q) →
    l.map pyStripL = l := by
  intro l
  induction l with
  | nil => intro _; rfl
  | cons a t ih =>
      intro h
      rw [List.map_cons, h a (List.mem_cons_self a t),
        ih (fun q hq => h q (List.mem_cons_of_mem a hq))]

theorem canonParts_good (ps : List (List Char)) (hnl : ∀ q ∈ ps, '\n' ∉ q) :
    ∀ x ∈ canonParts ps, GoodPart x := by
  intro x hx
  rw [canonParts] at hx
  have h1 := mem_squeeze1 _ x (mem_trimEmpty hx)
  rcases List.mem_map.mp h1 with ⟨y, hy, rfl⟩
  exact goodPart_pyStripL (hnl y hy)

theorem canonParts_fix (ps : List (List Char)) (hnl : ∀ q ∈ ps, '\n' ∉ q) :
    canonParts (canonParts ps) = canonParts ps := by
  have hgood := canonParts_good ps hnl
  rw [show canonParts (canonParts ps) =
      trimEmpty (squeeze1 ((canonParts ps).map pyStripL)) from by rw [canonParts]]
  rw [map_pyStripL_id _ (fun q hq => (hgood q hq).2)]
  have hnoadj : NoAdjEmpty (canonParts ps) := by
    rw [canonParts]
    exact noadj_trimEmpty (squeeze1_noadj _)
  rw [noadj_squeeze1_fix _ hnoadj]
  rw [show canonParts ps = trimEmpty (squeeze1 (ps.map pyStripL)) from by rw [canonParts]]
  exact trimEmpty_idem _

theorem canonTail_eq (t : List Char) :
    canonTail t = intercalateNL (canonParts (splitNL t)) := by
  have hgoodX : ∀ q ∈ (splitNL t).map pyStripL, GoodPart q := by
    intro q hq
    rcases List.mem_map.mp hq with ⟨y, hy, rfl⟩
    exact goodPart_pyStripL (splitNL_nl_free t y hy)
  have hXne : (splitNL t).map pyStripL ≠ [] := by
    intro h0
    exact splitNL_ne_nil t (List.map_eq_nil_iff.mp h0)
  rw [canonTail, stripLinesL,
    scanParts ((splitNL t).map pyStripL).length ((splitNL t).map pyStripL)
      (Nat.le_refl _) hgoodX hXne]
  have hgoodSq : ∀ q ∈ squeezeC ((splitNL t).map pyStripL), pyStripL q = q := by
    intro q hq
    rcases mem_squeezeC ((splitNL t).map pyStripL).length ((splitNL t).map pyStripL)
        (Nat.le_refl _) q hq with h | h
    · rcases List.mem_map.mp h with ⟨y, hy, rfl⟩
      exact pyStripL_idem y
    · rw [h]; rfl
  rw [pyStripL_inter _ hgoodSq,
    trim_sq ((splitNL t).map pyStripL).length ((splitNL t).map pyStripL) (Nat.le_refl _),
    canonParts]

theorem canonTail_idem (t : List Char) : canonTail (canonTail t) = canonTail t := by
  rw [canonTail_eq t]
  by_cases h0 : canonParts (splitNL t) = []
  · rw [h0]
    rfl
  · rw [canonTail_eq (intercalateNL (canonParts (splitNL t))),
      splitNL_intercalateNL _ h0
        (fun q hq => (canonParts_good (splitNL t) (splitNL_nl_free t) q hq).1),
      canonParts_fix _ (splitNL_nl_free t)]

/-! ## Character tracking through the Text Normalizer -/

theorem mem_intercalateNL : ∀ (ps : List (List Char)) (c : Char),
    c ∈ intercalateNL ps → (∃ q ∈ ps, c ∈ q) ∨ c = '\n' := by
  intro ps
  induction ps with
  | nil => intro c h; cases h
  | cons p rest ih =>
      intro c h
      cases rest with
      | nil => exact Or.inl ⟨p, List.mem_cons_self p [], h⟩
      | cons r rr =>
          rw [inter_cons (by simp)] at h
          rcases List.mem_append.mp h with h1 | h1
          · exact Or.inl ⟨p, List.mem_cons_self p _, h1⟩
          · rcases List.mem_cons.mp h1 with h2 | h2
            · exact Or.inr h2
            · rcases ih c h2 with ⟨q, hq, hcq⟩ | h3
              · exact Or.inl ⟨q, List.mem_cons_of_mem p hq, hcq⟩
              · exact Or.inr h3

theorem mem_stripLinesL {c : Char} {l : List Char} (h : c ∈ stripLinesL l) :
    c ∈ l ∨ c = '\n' := by
  rw [stripLinesL] at h
  rcases mem_intercalateNL _ c h with ⟨q, hq, hcq⟩ | h1
  · rcases List.mem_map.mp hq with ⟨y, hy, rfl⟩
    exact Or.inl (mem_splitNL hy (mem_pyStripL hcq))
  · exact Or.inr h1

theorem mbr_out {c0 : Char} {cs : List Char} {p : List Char × Nat}
    (h : matchBlankRun c0 cs = some p) : p.1 = ['\n', '\n'] := by
  rw [matchBlankRun] at h
  by_cases hc : c0 = '\n'
  · rw [if_pos hc] at h
    cases hl : lastNlIdx (cs.takeWhile isPySpace) with
    | none => rw [hl] at h; cases h
    | some i =>
        rw [hl] at h
        injection h with h1
        rw [← h1]
  · rw [if_neg hc] at h
    cases h

theorem mem_rescanBlank : ∀ (fuel : Nat) (l : List Char) (c : Char),
    c ∈ rescanF matchBlankRun fuel l → c ∈ l ∨ c = '\n' := by
  intro fuel
  induction fuel with
  | zero => intro l c h; exact Or.inl h
  | succ n ih =>
      intro l c h
      cases l with
      | nil => rw [rescanF_nil] at h; cases h
      | cons c0 cs =>
          cases hm : matchBlankRun c0 cs with
          | some p =>
              obtain ⟨out, k⟩ := p
              have hout : out = ['\n', '\n'] := mbr_out hm
              rw [show rescanF matchBlankRun (n + 1) (c0 :: cs) =
                  match matchBlankRun c0 cs with
                  | some (out, k) => out ++ rescanF matchBlankRun n (cs.drop k)
                  | none => c0 :: rescanF matchBlankRun n cs from rfl, hm] at h
              rcases List.mem_append.mp h with h1 | h1
              · rw [hout] at h1
                rcases List.mem_cons.mp h1 with h2 | h2
                · exact Or.inr h2
                · rcases List.mem_singleton.mp h2 with rfl
                  exact Or.inr rfl
              · rcases ih (cs.drop k) c h1 with h2 | h2
                · exact Or.inl (List.mem_cons_of_mem c0 (List.mem_of_mem_drop h2))
                · exact Or.inr h2
          | none =>
              rw [show rescanF matchBlankRun (n + 1) (c0 :: cs) =
                  match matchBlankRun c0 cs with
                  | some (out, k) => out ++ rescanF matchBlankRun n (cs.drop k)
                  | none => c0 :: rescanF matchBlankRun n cs from rfl, hm] at h
              rcases List.mem_cons.mp h with h1 | h1
              · exact Or.inl (h1 ▸ List.mem_cons_self c0 cs)
              · rcases ih cs c h1 with h2 | h2
                · exact Or.inl (List.mem_cons_of_mem c0 h2)
                · exact Or.inr h2

theorem noCR_rescanCR : ∀ (fuel : Nat) (l : List Char), l.length ≤ fuel →
    '\r' ∉ rescanF matchCR fuel l := by
  intro fuel
  induction fuel with
  | zero =>
      intro l hle
      have : l = [] := List.eq_nil_of_length_eq_zero (Nat.le_zero.mp hle)
      subst this
      simp [rescanF_nil]
  | succ n ih =>
      intro l hle
      cases l with
      | nil => rw [rescanF_nil]; exact List.not_mem_nil _
      | cons c0 cs =>
          simp only [List.length_cons] at hle
          by_cases hc : c0 = '\r'
          · rw [show rescanF matchCR (n + 1) (c0 :: cs) =
                match matchCR c0 cs with
                | some (out, k) => out ++ rescanF matchCR n (cs.drop k)
                | none => c0 :: rescanF matchCR n cs from rfl,
              show matchCR c0 cs = some (['\n'], 0) from by rw [matchCR, if_pos hc]]
            intro hmem
            rcases List.mem_append.mp hmem with h1 | h1
            · rcases List.mem_singleton.mp h1 with h2
              cases h2
            · exact ih (cs.drop 0) (by simp; omega) h1
          · rw [show rescanF matchCR (n + 1) (c0 :: cs) =
                match matchCR c0 cs with
                | some (out, k) => out ++ rescanF matchCR n (cs.drop k)
                | none => c0 :: rescanF matchCR n cs from rfl,
              show matchCR c0 cs = none from by rw [matchCR, if_neg hc]]
            intro hmem
            rcases List.mem_cons.mp hmem with h1 | h1
            · exact hc h1.symm
            · exact ih cs (by omega) h1

theorem matchOpenTag_ne {c : Char} (hc : c ≠ '<') (name : List Char) (cs : List Char) :
    matchOpenTag name c cs = none := by
  rw [matchOpenTag, if_neg (by simp [hc])]

theorem matchBlock_ne {c : Char} (hc : c ≠ '<') (name : List Char) (cs : List Char) :
    matchBlock name c cs = none := by
  rw [matchBlock, matchOpenTag_ne hc]

theorem matchImg_ne {c : Char} (hc : c ≠ '<') (cs : List Char) :
    matchImg c cs = none := by
  rw [matchImg, matchOpenTag_ne hc]
  rfl

theorem matchBr_ne {c : Char} (hc : c ≠ '<') (cs : List Char) :
    matchBr c cs = none := by
  rw [matchBr, if_neg (by simp [hc])]

theorem matchLiOpen_ne {c : Char} (hc : c ≠ '<') (cs : List Char) :
    matchLiOpen c cs = none := by
  rw [matchLiOpen, matchOpenTag_ne hc]
  rfl

theorem matchLiClose_ne {c : Char} (hc : c ≠ '<') (cs : List Char) :
    matchLiClose c cs = none := by
  rw [matchLiClose, if_neg (by simp [hc])]

theorem matchAnyTag_ne {c : Char} (hc : c ≠ '<') (cs : List Char) :
    matchAnyTag c cs = none := by
  rw [matchAnyTag, if_neg hc]

theorem matchEntity_ne {c : Char} (hc : c ≠ '&') (cs : List Char) :
    matchEntity c cs = none := by
  rw [matchEntity, if_neg hc]

theorem matchCRLF_ne {c : Char} (hc : c ≠ '\r') (cs : List Char) :
    matchCRLF c cs = none := by
  show (if c = '\r' then
      match cs with
      | '\n' :: _ => some (['\n'], (1 : Nat))
      | _ => none
    else none) = none
  rw [if_neg hc]

theorem matchCR_ne {c : Char} (hc : c ≠ '\r') (cs : List Char) :
    matchCR c cs = none := by
  rw [matchCR, if_neg hc]

theorem cleanL_eq_canonTail (l : List Char) :
    cleanL l = canonTail (rescan matchCR (rescan matchCRLF (rescan matchEntity
      (rescan matchAnyTag (rescan matchLiClose (rescan matchLiOpen (rescan matchBr
      (rescan matchImg (rescan (matchBlock "style".data)
      (rescan (matchBlock "script".data) l)))))))))) := rfl

theorem cleanL_of_clean_chars (m : List Char) (hlt : '<' ∉ m) (hamp : '&' ∉ m)
    (hcr : '\r' ∉ m) : cleanL m = canonTail m := by
  rw [cleanL_eq_canonTail m]
  have hne : ∀ c ∈ m, c ≠ '<' := fun c hc he => hlt (he ▸ hc)
  have hna : ∀ c ∈ m, c ≠ '&' := fun c hc he => hamp (he ▸ hc)
  have hnr : ∀ c ∈ m, c ≠ '\r' := fun c hc he => hcr (he ▸ hc)
  rw [show rescan (matchBlock "script".data) m = m from
      rescanF_id _ _ m (fun c hc cs => matchBlock_ne (hne c hc) _ cs),
    show rescan (matchBlock "style".data) m = m from
      rescanF_id _ _ m (fun c hc cs => matchBlock_ne (hne c hc) _ cs),
    show rescan matchImg m = m from
      rescanF_id _ _ m (fun c hc cs => matchImg_ne (hne c hc) cs),
    show rescan matchBr m = m from
      rescanF_id _ _ m (fun c hc cs => matchBr_ne (hne c hc) cs),
    show rescan matchLiOpen m = m from
      rescanF_id _ _ m (fun c hc cs => matchLiOpen_ne (hne c hc) cs),
    show rescan matchLiClose m = m from
      rescanF_id _ _ m (fun c hc cs => matchLiClose_ne (hne c hc) cs),
    show rescan matchAnyTag m = m from
      rescanF_id _ _ m (fun c hc cs => matchAnyTag_ne (hne c hc) cs),
    show rescan matchEntity m = m from
      rescanF_id _ _ m (fun c hc cs => matchEntity_ne (hna c hc) cs),
    show rescan matchCRLF m = m from
      rescanF_id _ _ m (fun c hc cs => matchCRLF_ne (hnr c hc) cs),
    show rescan matchCR m = m from
      rescanF_id _ _ m (fun c hc cs => matchCR_ne (hnr c hc) cs)]

theorem noCR_cleanL (l : List Char) : '\r' ∉ cleanL l := by
  rw [cleanL_eq_canonTail l, canonTail]
  intro hmem
  have h1 := mem_pyStripL hmem
  rcases mem_rescanBlank _ _ _ h1 with h2 | h2
  · rcases mem_stripLinesL h2 with h3 | h3
    · exact noCR_rescanCR _ _ (Nat.le_refl _) h3
    · cases h3
  · cases h2

theorem strMk_data (s : String) : String.mk s.data = s := by
  cases s
  rfl

theorem clean_ne {y : String} (h : y ≠ "") :
    clean_html_to_text y = String.mk (cleanL y.data) := by
  rw [clean_html_to_text, if_neg h]

/-- C9 counterexample: the Text Normalizer is not idempotent — unescaping
`&lt;b&gt;` produces the literal tag `<b>`, which a second pass strips to
the empty string. -/
theorem clean_idempotent_counterexample_c9 :
    clean_html_to_text "&lt;b&gt;" = "<b>" ∧
    clean_html_to_text (clean_html_to_text "&lt;b&gt;") = "" ∧
    clean_html_to_text "&lt;b&gt;" ≠ "" :=
  ⟨by decide, by decide, by decide⟩

/-- C9 (amended): the Text Normalizer is idempotent on every input whose
normalized form contains no `<` and no `&` character; when entity
unescaping resurrects markup characters (as with `&lt;b&gt;`), a second
pass can strip them further, so idempotence holds only under that
proviso. -/
theorem clean_idempotent_c9_amended (x : String)
    (h1 : '<' ∉ (clean_html_to_text x).data)
    (h2 : '&' ∉ (clean_html_to_text x).data) :
    clean_html_to_text (clean_html_to_text x) = clean_html_to_text x := by
  by_cases hx : x = ""
  · subst hx
    rfl
  · have hy : (clean_html_to_text x).data = cleanL x.data := by
      rw [clean_ne hx]
    by_cases hy0 : clean_html_to_text x = ""
    · rw [hy0]
      rfl
    · have hcr : '\r' ∉ (clean_html_to_text x).data := by
        rw [hy]
        exact noCR_cleanL x.data
      have hstep : cleanL (clean_html_to_text x).data = (clean_html_to_text x).data := by
        rw [cleanL_of_clean_chars _ h1 h2 hcr, hy, cleanL_eq_canonTail x.data]
        exact canonTail_idem _
      rw [clean_ne hy0, hstep, strMk_data]

theorem clean_idempotent_c9_amended_witness :
    ('<' ∉ (clean_html_to_text "<p>Hi</p>").data) ∧
    ('&' ∉ (clean_html_to_text "<p>Hi</p>").data) ∧
    clean_html_to_text (clean_html_to_text "<p>Hi</p>") = clean_html_to_text "<p>Hi</p>" :=
  ⟨by decide, by decide,
   clean_idempotent_c9_amended "<p>Hi</p>" (by decide) (by decide)⟩
